import Mathlib

/-!
Verification development for two IR passes of a tensor compiler:
the function-inlining pass (`inline.cc`) and the host/device splitting
pass (`split_host_device.cc`), built on a shared use-def analysis.
The statement/expression tree, the analyzer, the splitter and the
inliner are embedded shallowly below; machine maps keyed by variable
identity become association lists keyed by the variable id.
-/

namespace TVMIR

/-- Value types: the abstract scalar/handle distinction of the data model.
`v.dtype().is_handle()` in the source becomes `dtype = .handle`. -/
inductive DType where
  | int32
  | float32
  | handle
deriving DecidableEq, Repr

/-- A variable: an identity unique per binding site plus a value type.
The source compares variables by node pointer; here the id plays that role. -/
structure Var where
  id : Nat
  dtype : DType
deriving DecidableEq, Repr

/-- A reference to an operation (`FunctionRef`); `num_outputs` is the declared
number of output values consulted by `Inline`. -/
structure FunctionRef where
  id : Nat
  num_outputs : Nat
deriving DecidableEq, Repr

/-- An iteration variable with its hardware thread tag (`IterVar`). -/
structure IterVar where
  var : Var
  thread_tag : String
deriving DecidableEq, Repr

/-- Call kinds (`Call::CallType`); pure kinds have no observable side effect. -/
inductive CallType where
  | Intrinsic
  | PureIntrinsic
  | Extern
  | PureExtern
  | Halide
deriving DecidableEq, Repr

/-- Annotation keys; the three boundary keys recognized by the splitter get
their own constructors, every other key is carried as a string. -/
inductive AttrKey where
  | thread_extent
  | pipeline_exec_scope
  | device_scope
  | other (s : String)
deriving DecidableEq, Repr

/-- Function kind tag of a `LoweredFunc`. -/
inductive FuncType where
  | MixedFunc
  | HostFunc
  | DeviceFunc
deriving DecidableEq, Repr

/-- Expressions: the variants the two passes inspect or rebuild. -/
inductive Expr where
  | var (v : Var)
  | intImm (t : DType) (value : Int)
  | stringImm (s : String)
  | add (a b : Expr)
  | letE (v : Var) (value body : Expr)
  | load (t : DType) (buffer_var : Var) (index : Expr)
  | call (t : DType) (name : String) (args : List Expr) (call_type : CallType)
      (func : Option FunctionRef) (value_index : Nat)

/-- Statements: the variants the two passes inspect or rebuild.
Sequencing is the binary `block` node of this IR generation. -/
inductive Stmt where
  | letStmt (v : Var) (value : Expr) (body : Stmt)
  | attrStmt (node : IterVar) (attr_key : AttrKey) (value : Expr) (body : Stmt)
  | forStmt (loop_var : Var) (lo extent : Expr) (body : Stmt)
  | allocate (buffer_var : Var) (t : DType) (extents : List Expr) (body : Stmt)
  | store (buffer_var : Var) (value index : Expr)
  | evaluate (e : Expr)
  | block (first rest : Stmt)

/-- `make_const(dtype, 0)` and friends: a typed integer constant. -/
def make_const (t : DType) (v : Int) : Expr := .intImm t v

/-- A lowered function record: name, parameters, thread axes, kind tag,
best-known pointee element types for handle parameters, and body. -/
structure LoweredFunc where
  name : String
  args : List Var
  thread_axis : List IterVar
  func_type : FuncType
  handle_data_type : List (Var × Expr)
  body : Stmt

/-- Association-list lookup keyed by variable id (first match wins),
standing in for the `unordered_map` of the source. -/
def alGet {α : Type} : List (Nat × α) → Nat → Option α
  | [], _ => none
  | (k, a) :: rest, k' => if k = k' then some a else alGet rest k'

/-- Association-list update: replace the existing entry or append a new one. -/
def alSet {α : Type} : List (Nat × α) → Nat → α → List (Nat × α)
  | [], k, a => [(k, a)]
  | (k', a') :: rest, k, a =>
    if k' = k then (k, a) :: rest else (k', a') :: alSet rest k a

/-- The fatal failures of the two passes, each a `CHECK` in the source. -/
inductive Err where
  | Redefinition (v : Nat)
  | UseBeforeDef (v : Nat)
  | EmptyThreadTag
  | MultiOutputInline
  | InvalidOutputIndex
  | ArityMismatch
  | AlreadySplit
deriving DecidableEq, Repr

/-- Modelled from the spec: the side-effect scan used by the inliner and the
dead-let elimination (`HasSideEffect`, declared outside these two files).
An expression has an observable side effect exactly when it contains a call
of a non-pure call kind. -/
def CallType.is_pure : CallType → Bool
  | .PureIntrinsic => true
  | .PureExtern => true
  | .Halide => true
  | .Intrinsic => false
  | .Extern => false

mutual
/-- Modelled from the spec: `HasSideEffect` on one expression. -/
def HasSideEffect : Expr → Bool
  | .var _ => false
  | .intImm _ _ => false
  | .stringImm _ => false
  | .add a b => HasSideEffect a || HasSideEffect b
  | .letE _ value body => HasSideEffect value || HasSideEffect body
  | .load _ _ index => HasSideEffect index
  | .call _ _ args call_type _ _ => !call_type.is_pure || HasSideEffectL args
/-- Modelled from the spec: `HasSideEffect` over an argument list. -/
def HasSideEffectL : List Expr → Bool
  | [] => false
  | e :: es => HasSideEffect e || HasSideEffectL es
end

/-! ## Use-def analysis (`IRUseDefAnalysis`) -/

/-- The mutable fields of `IRUseDefAnalysis`.  `def_count_` maps a defined
variable to the constant 1 and is only ever tested for membership, so it is
modelled as the list of defined variable ids. -/
structure UDState where
  visit_thread_extent : Bool
  undefined : List Var
  thread_axis : List IterVar
  thread_extent : List Expr
  use_count : List (Nat × Int)
  def_count : List Nat

namespace IRUseDefAnalysis

/-- `IRUseDefAnalysis::HandleDef`: register a binding site, failing on
redefinition or on a variable already recorded as used. -/
def HandleDef (st : UDState) (v : Var) : Except Err UDState :=
  if v.id ∈ st.def_count then .error (.Redefinition v.id)
  else if (alGet st.use_count v.id).isSome then .error (.UseBeforeDef v.id)
  else .ok { st with
    use_count := alSet st.use_count v.id 0,
    def_count := v.id :: st.def_count }

/-- `IRUseDefAnalysis::HandleUse`: count a use, or record a free variable
(first-encounter order, counter set to the negative sentinel). -/
def HandleUse (st : UDState) (v : Var) : UDState :=
  match alGet st.use_count v.id with
  | some n =>
    if 0 ≤ n then { st with use_count := alSet st.use_count v.id (n + 1) } else st
  | none =>
    { st with
      undefined := st.undefined ++ [v],
      use_count := alSet st.use_count v.id (-1) }

mutual
/-- The expression side of the analyzer (`VisitExpr_` overloads plus the
default mutator recursion of `StmtExprMutator`). -/
def VisitExpr (st : UDState) : Expr → Except Err (Expr × UDState)
  | .var v => .ok (.var v, HandleUse st v)
  | .intImm t n => .ok (.intImm t n, st)
  | .stringImm s => .ok (.stringImm s, st)
  | .add a b =>
    match VisitExpr st a with
    | .error e => .error e
    | .ok (a', st1) =>
      match VisitExpr st1 b with
      | .error e => .error e
      | .ok (b', st2) => .ok (.add a' b', st2)
  | .letE v value body =>
    match HandleDef st v with
    | .error e => .error e
    | .ok st1 =>
      match VisitExpr st1 body with
      | .error e => .error e
      | .ok (body', st2) =>
        if alGet st2.use_count v.id = some 0 ∧ ¬(HasSideEffect value = true) then
          .ok (body', st2)
        else
          match VisitExpr st2 value with
          | .error e => .error e
          | .ok (value', st3) => .ok (.letE v value' body', st3)
  | .load t buffer_var index =>
    let st1 := HandleUse st buffer_var
    match VisitExpr st1 index with
    | .error e => .error e
    | .ok (index', st2) => .ok (.load t buffer_var index', st2)
  | .call t name args call_type func value_index =>
    match VisitExprList st args with
    | .error e => .error e
    | .ok (args', st1) => .ok (.call t name args' call_type func value_index, st1)
/-- Default left-to-right recursion over an argument list. -/
def VisitExprList (st : UDState) : List Expr → Except Err (List Expr × UDState)
  | [] => .ok ([], st)
  | e :: es =>
    match VisitExpr st e with
    | .error er => .error er
    | .ok (e', st1) =>
      match VisitExprList st1 es with
      | .error er => .error er
      | .ok (es', st2) => .ok (e' :: es', st2)
end

/-- The statement side of the analyzer (`VisitStmt_` overloads plus the
default mutator recursion). -/
def VisitStmt (st : UDState) : Stmt → Except Err (Stmt × UDState)
  | .attrStmt iv key value body =>
    if key = .thread_extent then
      if iv.thread_tag = "" then .error .EmptyThreadTag
      else
        let step1 : Except Err UDState :=
          if (alGet st.use_count iv.var.id).isSome then .ok st
          else
            match HandleDef st iv.var with
            | .error e => .error e
            | .ok st1 => .ok { st1 with
                thread_axis := st1.thread_axis ++ [iv],
                thread_extent := st1.thread_extent ++ [value] }
        match step1 with
        | .error e => .error e
        | .ok st1 =>
          match (if st1.visit_thread_extent then VisitExpr st1 value
                 else .ok (value, st1)) with
          | .error e => .error e
          | .ok (value', st2) =>
            match VisitStmt st2 body with
            | .error e => .error e
            | .ok (body', st3) => .ok (.attrStmt iv key value' body', st3)
    else
      match VisitExpr st value with
      | .error e => .error e
      | .ok (value', st1) =>
        match VisitStmt st1 body with
        | .error e => .error e
        | .ok (body', st2) => .ok (.attrStmt iv key value' body', st2)
  | .letStmt v value body =>
    match HandleDef st v with
    | .error e => .error e
    | .ok st1 =>
      match VisitStmt st1 body with
      | .error e => .error e
      | .ok (body', st2) =>
        if alGet st2.use_count v.id = some 0 ∧ ¬(HasSideEffect value = true) then
          .ok (body', st2)
        else
          match VisitExpr st2 value with
          | .error e => .error e
          | .ok (value', st3) => .ok (.letStmt v value' body', st3)
  | .forStmt loop_var lo extent body =>
    match HandleDef st loop_var with
    | .error e => .error e
    | .ok st1 =>
      match VisitExpr st1 lo with
      | .error e => .error e
      | .ok (lo', st2) =>
        match VisitExpr st2 extent with
        | .error e => .error e
        | .ok (extent', st3) =>
          match VisitStmt st3 body with
          | .error e => .error e
          | .ok (body', st4) => .ok (.forStmt loop_var lo' extent' body', st4)
  | .allocate buffer_var t extents body =>
    match HandleDef st buffer_var with
    | .error e => .error e
    | .ok st1 =>
      match VisitExprList st1 extents with
      | .error e => .error e
      | .ok (extents', st2) =>
        match VisitStmt st2 body with
        | .error e => .error e
        | .ok (body', st3) => .ok (.allocate buffer_var t extents' body', st3)
  | .store buffer_var value index =>
    let st1 := HandleUse st buffer_var
    match VisitExpr st1 value with
    | .error e => .error e
    | .ok (value', st2) =>
      match VisitExpr st2 index with
      | .error e => .error e
      | .ok (index', st3) => .ok (.store buffer_var value' index', st3)
  | .evaluate e =>
    match VisitExpr st e with
    | .error er => .error er
    | .ok (e', st1) => .ok (.evaluate e', st1)
  | .block first rest =>
    match VisitStmt st first with
    | .error e => .error e
    | .ok (first', st1) =>
      match VisitStmt st1 rest with
      | .error e => .error e
      | .ok (rest', st2) => .ok (.block first' rest', st2)

end IRUseDefAnalysis

/-- The fresh analyzer state: `visit_thread_extent_` defaults to true, every
other field starts empty. -/
def UDState.initial : UDState :=
  { visit_thread_extent := true, undefined := [], thread_axis := [],
    thread_extent := [], use_count := [], def_count := [] }

/-- The analyzer state `SplitDeviceFunc` starts from: fresh, with the
extent-recursion toggle turned off. -/
def UDState.initialNoTE : UDState :=
  { UDState.initial with visit_thread_extent := false }

/-- `UndefinedVars(stmt, args)`: run the analyzer with each argument
pre-registered at use count 0 and return the free-variable list. -/
def UndefinedVars (stmt : Stmt) (args : List Var) : Except Err (List Var) :=
  let m : UDState :=
    { UDState.initial with
      use_count := args.foldl (fun ac a => alSet ac a.id 0) [] }
  match IRUseDefAnalysis.VisitStmt m stmt with
  | .error e => .error e
  | .ok (_, m') => .ok m'.undefined

/-! ## Host/device splitting (`HostDeviceSplitter`) -/

/-- The mutable fields of `HostDeviceSplitter`. -/
structure SpState where
  name : String
  device_funcs : List LoweredFunc
  handle_data_type : List (Nat × Expr)

namespace HostDeviceSplitter

/-- The state the splitter holds when the walk over the host body starts:
the function name and the working handle-type table seeded from the
function's own `handle_data_type` map (`Split`, before `operator()`). -/
def initState (f : LoweredFunc) : SpState :=
  { name := f.name,
    device_funcs := [],
    handle_data_type :=
      f.handle_data_type.foldl (fun ac kv => alSet ac kv.1.id kv.2) [] }

/-- `HostDeviceSplitter::SplitDeviceFunc`: isolate one device region with the
use-def analyzer (extent recursion off, no seeds), build the kernel with the
handle-first parameter convention, and produce the packed-call stub. -/
def SplitDeviceFunc (st : SpState) (body : Stmt) :
    Except Err (Stmt × SpState) :=
  let kname := st.name ++ "_kernel" ++ toString st.device_funcs.length
  match IRUseDefAnalysis.VisitStmt UDState.initialNoTE body with
  | .error e => .error e
  | .ok (body', m) =>
    let handle_args := m.undefined.filter (fun v => v.dtype = .handle)
    let scalar_args := m.undefined.filter (fun v => ¬(v.dtype = .handle))
    let f_device : LoweredFunc :=
      { name := kname,
        args := handle_args ++ scalar_args,
        thread_axis := m.thread_axis,
        func_type := .DeviceFunc,
        handle_data_type := handle_args.filterMap
          (fun v => (alGet st.handle_data_type v.id).map (fun e => (v, e))),
        body := body' }
    let call_args : List Expr :=
      .stringImm kname :: (f_device.args.map Expr.var) ++ m.thread_extent
    .ok (.evaluate
          (.call .int32 "tvm_call_packed" call_args .Intrinsic none 0),
        { st with device_funcs := st.device_funcs ++ [f_device] })

/-- The statement walk of the splitter (`StmtMutator` with the `Allocate` and
`AttrStmt` overloads; expressions are left untouched by this mutator).  The
boolean records whether any node was replaced, standing in for the
reference-identity `same_as` check of the copy-on-write mutator. -/
def VisitStmt (st : SpState) : Stmt → Except Err (Stmt × Bool × SpState)
  | .attrStmt iv key value body =>
    if key = .thread_extent ∨ key = .pipeline_exec_scope ∨
        key = .device_scope then
      match SplitDeviceFunc st (.attrStmt iv key value body) with
      | .error e => .error e
      | .ok (stub, st') => .ok (stub, true, st')
    else
      match VisitStmt st body with
      | .error e => .error e
      | .ok (body', c, st') => .ok (.attrStmt iv key value body', c, st')
  | .allocate buffer_var t extents body =>
    let st1 := { st with
      handle_data_type :=
        alSet st.handle_data_type buffer_var.id (make_const t 0) }
    match VisitStmt st1 body with
    | .error e => .error e
    | .ok (body', c, st') => .ok (.allocate buffer_var t extents body', c, st')
  | .letStmt v value body =>
    match VisitStmt st body with
    | .error e => .error e
    | .ok (body', c, st') => .ok (.letStmt v value body', c, st')
  | .forStmt loop_var lo extent body =>
    match VisitStmt st body with
    | .error e => .error e
    | .ok (body', c, st') => .ok (.forStmt loop_var lo extent body', c, st')
  | .store buffer_var value index => .ok (.store buffer_var value index, false, st)
  | .evaluate e => .ok (.evaluate e, false, st)
  | .block first rest =>
    match VisitStmt st first with
    | .error e => .error e
    | .ok (first', c1, st1) =>
      match VisitStmt st1 rest with
      | .error e => .error e
      | .ok (rest', c2, st2) => .ok (.block first' rest', c1 || c2, st2)

/-- `HostDeviceSplitter::Split`: require a Mixed function, seed the working
table, walk the body, and return the host function followed by the extracted
device functions in extraction order. -/
def Split (f : LoweredFunc) : Except Err (List LoweredFunc) :=
  if f.func_type = .MixedFunc then
    match VisitStmt (initState f) f.body with
    | .error e => .error e
    | .ok (body', _, st') =>
      .ok ({ f with body := body', func_type := .HostFunc } :: st'.device_funcs)
  else .error .AlreadySplit

end HostDeviceSplitter

/-- `SplitHostDevice(func)`: the exposed splitting pass. -/
def SplitHostDevice (f : LoweredFunc) : Except Err (List LoweredFunc) :=
  HostDeviceSplitter.Split f

/-! ## Inlining (`IRInline`, `Inline`) -/

mutual
/-- Modelled from the spec: the substitution collaborator (`Substitute`,
declared outside these two files).  Every variable reference whose id is in
the map is replaced by the mapped expression; binder fields are not
expression positions and are left alone. -/
def Substitute (vmap : List (Nat × Expr)) : Expr → Expr
  | .var v =>
    match alGet vmap v.id with
    | some e => e
    | none => .var v
  | .intImm t n => .intImm t n
  | .stringImm s => .stringImm s
  | .add a b => .add (Substitute vmap a) (Substitute vmap b)
  | .letE v value body => .letE v (Substitute vmap value) (Substitute vmap body)
  | .load t buffer_var index => .load t buffer_var (Substitute vmap index)
  | .call t name args call_type func value_index =>
    .call t name (SubstituteL vmap args) call_type func value_index
/-- Modelled from the spec: substitution over an argument list. -/
def SubstituteL (vmap : List (Nat × Expr)) : List Expr → List Expr
  | [] => []
  | e :: es => Substitute vmap e :: SubstituteL vmap es
end

namespace IRInline

mutual
/-- The expression side of the inliner: default post-order recursion, and at
a call to the target function the output-index and arity checks followed by
the side-effect-directed replacement (`IRInline::VisitExpr_(Call)`).  The
boolean records whether anything changed, standing in for `same_as`. -/
def VisitExpr (f : FunctionRef) (args_ : List Var) (body_ : Expr) :
    Expr → Except Err (Expr × Bool)
  | .var v => .ok (.var v, false)
  | .intImm t n => .ok (.intImm t n, false)
  | .stringImm s => .ok (.stringImm s, false)
  | .add a b =>
    match VisitExpr f args_ body_ a with
    | .error e => .error e
    | .ok (a', c1) =>
      match VisitExpr f args_ body_ b with
      | .error e => .error e
      | .ok (b', c2) => .ok (.add a' b', c1 || c2)
  | .letE v value body =>
    match VisitExpr f args_ body_ value with
    | .error e => .error e
    | .ok (value', c1) =>
      match VisitExpr f args_ body_ body with
      | .error e => .error e
      | .ok (body', c2) => .ok (.letE v value' body', c1 || c2)
  | .load t buffer_var index =>
    match VisitExpr f args_ body_ index with
    | .error e => .error e
    | .ok (index', c) => .ok (.load t buffer_var index', c)
  | .call t name args call_type func value_index =>
    match VisitExprList f args_ body_ args with
    | .error e => .error e
    | .ok (args', c) =>
      if func = some f then
        if ¬(value_index = 0) then .error .InvalidOutputIndex
        else if ¬(args_.length = args'.length) then .error .ArityMismatch
        else if HasSideEffectL args' then
          .ok ((List.zip args_ args').foldl
                (fun acc pa => .letE pa.1 pa.2 acc) body_, true)
        else
          .ok (Substitute
                ((List.zip args_ args').foldl
                  (fun ac pa => alSet ac pa.1.id pa.2) []) body_, true)
      else .ok (.call t name args' call_type func value_index, c)
/-- Default left-to-right recursion over an argument list. -/
def VisitExprList (f : FunctionRef) (args_ : List Var) (body_ : Expr) :
    List Expr → Except Err (List Expr × Bool)
  | [] => .ok ([], false)
  | e :: es =>
    match VisitExpr f args_ body_ e with
    | .error er => .error er
    | .ok (e', c1) =>
      match VisitExprList f args_ body_ es with
      | .error er => .error er
      | .ok (es', c2) => .ok (e' :: es', c1 || c2)
end

/-- The statement side of the inliner: the default `StmtExprMutator`
recursion, rewriting every contained expression. -/
def VisitStmt (f : FunctionRef) (args_ : List Var) (body_ : Expr) :
    Stmt → Except Err (Stmt × Bool)
  | .letStmt v value body =>
    match VisitExpr f args_ body_ value with
    | .error e => .error e
    | .ok (value', c1) =>
      match VisitStmt f args_ body_ body with
      | .error e => .error e
      | .ok (body', c2) => .ok (.letStmt v value' body', c1 || c2)
  | .attrStmt iv key value body =>
    match VisitExpr f args_ body_ value with
    | .error e => .error e
    | .ok (value', c1) =>
      match VisitStmt f args_ body_ body with
      | .error e => .error e
      | .ok (body', c2) => .ok (.attrStmt iv key value' body', c1 || c2)
  | .forStmt loop_var lo extent body =>
    match VisitExpr f args_ body_ lo with
    | .error e => .error e
    | .ok (lo', c1) =>
      match VisitExpr f args_ body_ extent with
      | .error e => .error e
      | .ok (extent', c2) =>
        match VisitStmt f args_ body_ body with
        | .error e => .error e
        | .ok (body', c3) =>
          .ok (.forStmt loop_var lo' extent' body', c1 || c2 || c3)
  | .allocate buffer_var t extents body =>
    match VisitExprList f args_ body_ extents with
    | .error e => .error e
    | .ok (extents', c1) =>
      match VisitStmt f args_ body_ body with
      | .error e => .error e
      | .ok (body', c2) => .ok (.allocate buffer_var t extents' body', c1 || c2)
  | .store buffer_var value index =>
    match VisitExpr f args_ body_ value with
    | .error e => .error e
    | .ok (value', c1) =>
      match VisitExpr f args_ body_ index with
      | .error e => .error e
      | .ok (index', c2) => .ok (.store buffer_var value' index', c1 || c2)
  | .evaluate e =>
    match VisitExpr f args_ body_ e with
    | .error er => .error er
    | .ok (e', c) => .ok (.evaluate e', c)
  | .block first rest =>
    match VisitStmt f args_ body_ first with
    | .error e => .error e
    | .ok (first', c1) =>
      match VisitStmt f args_ body_ rest with
      | .error e => .error e
      | .ok (rest', c2) => .ok (.block first' rest', c1 || c2)

end IRInline

/-! ### The SSA-renaming collaborator -/

mutual
/-- Largest variable id occurring anywhere in an expression (uses and
binders), used to pick fresh ids for the renamer. -/
def exprMaxId : Expr → Nat
  | .var v => v.id
  | .intImm _ _ => 0
  | .stringImm _ => 0
  | .add a b => max (exprMaxId a) (exprMaxId b)
  | .letE v value body => max v.id (max (exprMaxId value) (exprMaxId body))
  | .load _ buffer_var index => max buffer_var.id (exprMaxId index)
  | .call _ _ args _ _ _ => exprMaxIdL args
def exprMaxIdL : List Expr → Nat
  | [] => 0
  | e :: es => max (exprMaxId e) (exprMaxIdL es)
end

/-- Largest variable id occurring anywhere in a statement. -/
def stmtMaxId : Stmt → Nat
  | .letStmt v value body => max v.id (max (exprMaxId value) (stmtMaxId body))
  | .attrStmt iv _ value body =>
    max iv.var.id (max (exprMaxId value) (stmtMaxId body))
  | .forStmt loop_var lo extent body =>
    max loop_var.id (max (exprMaxId lo) (max (exprMaxId extent) (stmtMaxId body)))
  | .allocate buffer_var _ extents body =>
    max buffer_var.id (max (exprMaxIdL extents) (stmtMaxId body))
  | .store buffer_var value index =>
    max buffer_var.id (max (exprMaxId value) (exprMaxId index))
  | .evaluate e => exprMaxId e
  | .block first rest => max (stmtMaxId first) (stmtMaxId rest)

/-- Renamer state: the next fresh id and the set of binder ids already seen. -/
structure SSASt where
  fresh : Nat
  seen : List Nat

/-- Rename one variable through the current renaming environment. -/
def ssaVar (env : List (Nat × Nat)) (v : Var) : Var :=
  match alGet env v.id with
  | some n => { v with id := n }
  | none => v

mutual
/-- Modelled from the spec: the SSA-renaming collaborator (`ConvertSSA`,
declared outside these two files) — a binder occurrence after the first of
the same variable is renamed to a fresh variable so that afterwards every
bound variable identity is unique; uses follow their enclosing binder. -/
def ssaExpr (env : List (Nat × Nat)) (st : SSASt) : Expr → Expr × SSASt
  | .var v => (.var (ssaVar env v), st)
  | .intImm t n => (.intImm t n, st)
  | .stringImm s => (.stringImm s, st)
  | .add a b =>
    let (a', st1) := ssaExpr env st a
    let (b', st2) := ssaExpr env st1 b
    (.add a' b', st2)
  | .letE v value body =>
    let (value', st1) := ssaExpr env st value
    if v.id ∈ st1.seen then
      let v' : Var := { v with id := st1.fresh }
      let st2 : SSASt := { fresh := st1.fresh + 1, seen := v'.id :: st1.seen }
      let (body', st3) := ssaExpr (alSet env v.id v'.id) st2 body
      (.letE v' value' body', st3)
    else
      let st2 : SSASt := { st1 with seen := v.id :: st1.seen }
      let (body', st3) := ssaExpr env st2 body
      (.letE v value' body', st3)
  | .load t buffer_var index =>
    let (index', st1) := ssaExpr env st index
    (.load t (ssaVar env buffer_var) index', st1)
  | .call t name args call_type func value_index =>
    let (args', st1) := ssaExprL env st args
    (.call t name args' call_type func value_index, st1)
def ssaExprL (env : List (Nat × Nat)) (st : SSASt) :
    List Expr → List Expr × SSASt
  | [] => ([], st)
  | e :: es =>
    let (e', st1) := ssaExpr env st e
    let (es', st2) := ssaExprL env st1 es
    (e' :: es', st2)
end

/-- Modelled from the spec: the statement side of the SSA renamer. -/
def ssaStmt (env : List (Nat × Nat)) (st : SSASt) : Stmt → Stmt × SSASt
  | .letStmt v value body =>
    let (value', st1) := ssaExpr env st value
    if v.id ∈ st1.seen then
      let v' : Var := { v with id := st1.fresh }
      let st2 : SSASt := { fresh := st1.fresh + 1, seen := v'.id :: st1.seen }
      let (body', st3) := ssaStmt (alSet env v.id v'.id) st2 body
      (.letStmt v' value' body', st3)
    else
      let st2 : SSASt := { st1 with seen := v.id :: st1.seen }
      let (body', st3) := ssaStmt env st2 body
      (.letStmt v value' body', st3)
  | .attrStmt iv key value body =>
    let (value', st1) := ssaExpr env st value
    let (body', st2) := ssaStmt env st1 body
    (.attrStmt { iv with var := ssaVar env iv.var } key value' body', st2)
  | .forStmt loop_var lo extent body =>
    let (lo', st1) := ssaExpr env st lo
    let (extent', st2) := ssaExpr env st1 extent
    if loop_var.id ∈ st2.seen then
      let v' : Var := { loop_var with id := st2.fresh }
      let st3 : SSASt := { fresh := st2.fresh + 1, seen := v'.id :: st2.seen }
      let (body', st4) := ssaStmt (alSet env loop_var.id v'.id) st3 body
      (.forStmt v' lo' extent' body', st4)
    else
      let st3 : SSASt := { st2 with seen := loop_var.id :: st2.seen }
      let (body', st4) := ssaStmt env st3 body
      (.forStmt loop_var lo' extent' body', st4)
  | .allocate buffer_var t extents body =>
    let (extents', st1) := ssaExprL env st extents
    if buffer_var.id ∈ st1.seen then
      let v' : Var := { buffer_var with id := st1.fresh }
      let st2 : SSASt := { fresh := st1.fresh + 1, seen := v'.id :: st1.seen }
      let (body', st3) := ssaStmt (alSet env buffer_var.id v'.id) st2 body
      (.allocate v' t extents' body', st3)
    else
      let st2 : SSASt := { st1 with seen := buffer_var.id :: st1.seen }
      let (body', st3) := ssaStmt env st2 body
      (.allocate buffer_var t extents' body', st3)
  | .store buffer_var value index =>
    let (value', st1) := ssaExpr env st value
    let (index', st2) := ssaExpr env st1 index
    (.store (ssaVar env buffer_var) value' index', st2)
  | .evaluate e =>
    let (e', st1) := ssaExpr env st e
    (.evaluate e', st1)
  | .block first rest =>
    let (first', st1) := ssaStmt env st first
    let (rest', st2) := ssaStmt env st1 rest
    (.block first' rest', st2)

/-- Modelled from the spec: `ConvertSSA(stmt)`, the exposed renamer. -/
def ConvertSSA (stmt : Stmt) : Stmt :=
  (ssaStmt [] { fresh := stmtMaxId stmt + 1, seen := [] } stmt).1

/-- `Inline(stmt, f, args, body)`: require a single-output target, rewrite,
and repair SSA only when the tree changed (`ret.same_as(stmt)` short-circuit). -/
def Inline (stmt : Stmt) (f : FunctionRef) (args : List Var) (body : Expr) :
    Except Err Stmt :=
  if f.num_outputs = 1 then
    match IRInline.VisitStmt f args body stmt with
    | .error e => .error e
    | .ok (ret, changed) =>
      if changed then .ok (ConvertSSA ret) else .ok ret
  else .error .MultiOutputInline

/-! ## Auxiliary notions used by the theorems -/

instance : Inhabited Expr := ⟨.intImm .int32 0⟩

instance : Inhabited Stmt := ⟨.evaluate (.intImm .int32 0)⟩

instance : Inhabited UDState := ⟨UDState.initial⟩

instance : Inhabited SpState := ⟨⟨"", [], []⟩⟩

instance : Inhabited LoweredFunc :=
  ⟨⟨"", [], [], .MixedFunc, [], .evaluate (.intImm .int32 0)⟩⟩

theorem alGet_alSet_self {α : Type} (m : List (Nat × α)) (k : Nat) (a : α) :
    alGet (alSet m k a) k = some a := by
  induction m with
  | nil => simp [alSet, alGet]
  | cons p rest ih =>
    by_cases h : p.1 = k
    · simp [alSet, h, alGet]
    · simp [alSet, h, alGet, ih]

theorem alGet_alSet_ne {α : Type} (m : List (Nat × α)) (k k' : Nat) (a : α)
    (h : ¬(k = k')) : alGet (alSet m k a) k' = alGet m k' := by
  induction m with
  | nil => simp [alSet, alGet, h]
  | cons p rest ih =>
    obtain ⟨pk, pa⟩ := p
    by_cases hp : pk = k
    · subst hp
      simp [alSet, alGet, h]
    · simp [alSet, hp, alGet, ih]

theorem alGet_mem {α : Type} (m : List (Nat × α)) (k : Nat) (a : α)
    (h : alGet m k = some a) : (k, a) ∈ m := by
  induction m with
  | nil => simp [alGet] at h
  | cons p rest ih =>
    obtain ⟨pk, pa⟩ := p
    by_cases hp : pk = k
    · subst hp
      rw [alGet, if_pos rfl] at h
      injection h with h1
      subst h1
      exact List.mem_cons_self _ _
    · rw [alGet, if_neg hp] at h
      exact List.mem_cons_of_mem _ (ih h)

/-- Seeding more parameters on top of a table keeps present entries present. -/
theorem alGet_seed_mono (args : List Var) (ac : List (Nat × Int)) (v : Var)
    (h : (alGet ac v.id).isSome) :
    (alGet (args.foldl (fun ac a => alSet ac a.id 0) ac) v.id).isSome := by
  induction args generalizing ac with
  | nil => exact h
  | cons c cs ih =>
    rw [List.foldl_cons]
    refine ih _ ?_
    show (alGet (alSet ac c.id 0) v.id).isSome = true
    by_cases hc : c.id = v.id
    · rw [hc, alGet_alSet_self]
      rfl
    · rw [alGet_alSet_ne _ _ _ _ hc]
      exact h

/-- The seeded use-count table of `UndefinedVars` holds an entry for every
seeded parameter. -/
theorem alGet_seed_isSome (args : List Var) (v : Var) (hv : v ∈ args)
    (ac : List (Nat × Int)) :
    (alGet (args.foldl (fun ac a => alSet ac a.id 0) ac) v.id).isSome := by
  induction args generalizing ac with
  | nil => cases hv
  | cons a rest ih =>
    rw [List.foldl_cons]
    cases hv with
    | head =>
      exact alGet_seed_mono rest _ v (by rw [alGet_alSet_self]; rfl)
    | tail _ hrest => exact ih hrest _

mutual
/-- Binder ids of an expression (let-bound variables). -/
def exprBinderIds : Expr → List Nat
  | .var _ => []
  | .intImm _ _ => []
  | .stringImm _ => []
  | .add a b => exprBinderIds a ++ exprBinderIds b
  | .letE v value body => v.id :: (exprBinderIds value ++ exprBinderIds body)
  | .load _ _ index => exprBinderIds index
  | .call _ _ args _ _ _ => exprBinderIdsL args
def exprBinderIdsL : List Expr → List Nat
  | [] => []
  | e :: es => exprBinderIds e ++ exprBinderIdsL es
end

/-- Binder ids of a statement: let/for/allocate bound variables, thread-extent
iteration variables, and binders inside contained expressions. -/
def stmtBinderIds : Stmt → List Nat
  | .letStmt v value body => v.id :: (exprBinderIds value ++ stmtBinderIds body)
  | .attrStmt iv key value body =>
    (if key = .thread_extent then [iv.var.id] else []) ++
      exprBinderIds value ++ stmtBinderIds body
  | .forStmt loop_var lo extent body =>
    loop_var.id :: (exprBinderIds lo ++ exprBinderIds extent ++ stmtBinderIds body)
  | .allocate buffer_var _ extents body =>
    buffer_var.id :: (exprBinderIdsL extents ++ stmtBinderIds body)
  | .store _ value index => exprBinderIds value ++ exprBinderIds index
  | .evaluate e => exprBinderIds e
  | .block first rest => stmtBinderIds first ++ stmtBinderIds rest

/-- Buffer variables bound by `Allocate` nodes of a statement. -/
def allocateVars : Stmt → List Var
  | .letStmt _ _ body => allocateVars body
  | .attrStmt _ _ _ body => allocateVars body
  | .forStmt _ _ _ body => allocateVars body
  | .allocate buffer_var _ _ body => buffer_var :: allocateVars body
  | .store _ _ _ => []
  | .evaluate _ => []
  | .block first rest => allocateVars first ++ allocateVars rest

/-! ## C9: Split precondition and host function shape -/

/-- C9: `Split` on a function whose kind is not Mixed fails fatally with
`AlreadySplit`; on a Mixed function whose walk succeeds, the head of the
result is the input function with only its body replaced by the walked tree
and its kind set to Host, followed by the extracted device functions in
extraction order. -/
theorem C9_split_precondition_and_host_shape :
    (∀ f : LoweredFunc, ¬(f.func_type = .MixedFunc) →
      HostDeviceSplitter.Split f = .error .AlreadySplit) ∧
    (∀ (f : LoweredFunc) (body' : Stmt) (c : Bool) (st' : SpState),
      f.func_type = .MixedFunc →
      HostDeviceSplitter.VisitStmt (HostDeviceSplitter.initState f) f.body =
        .ok (body', c, st') →
      HostDeviceSplitter.Split f =
        .ok ({ f with body := body', func_type := .HostFunc } ::
          st'.device_funcs)) := by
  constructor
  · intro f h
    unfold HostDeviceSplitter.Split
    simp [h]
  · intro f body' c st' h hw
    unfold HostDeviceSplitter.Split
    simp [h, hw]

/-- A non-Mixed concrete function. -/
def wHostF : LoweredFunc :=
  { name := "h", args := [], thread_axis := [], func_type := .HostFunc,
    handle_data_type := [], body := .evaluate (.intImm .int32 0) }

/-- A Mixed concrete function with a trivial body. -/
def wMixedF : LoweredFunc :=
  { name := "m", args := [], thread_axis := [], func_type := .MixedFunc,
    handle_data_type := [], body := .evaluate (.intImm .int32 0) }

/-- The walked body of `wMixedF`. -/
def wMixedBody : Stmt :=
  match HostDeviceSplitter.VisitStmt (HostDeviceSplitter.initState wMixedF)
      wMixedF.body with
  | .ok (b, _, _) => b
  | .error _ => default

/-- The changed flag of the walk of `wMixedF`. -/
def wMixedChanged : Bool :=
  match HostDeviceSplitter.VisitStmt (HostDeviceSplitter.initState wMixedF)
      wMixedF.body with
  | .ok (_, c, _) => c
  | .error _ => false

/-- The final splitter state of the walk of `wMixedF`. -/
def wMixedSt : SpState :=
  match HostDeviceSplitter.VisitStmt (HostDeviceSplitter.initState wMixedF)
      wMixedF.body with
  | .ok (_, _, st) => st
  | .error _ => default

theorem C9_witness :
    HostDeviceSplitter.Split wHostF = .error .AlreadySplit ∧
    HostDeviceSplitter.Split wMixedF =
      .ok ({ wMixedF with body := wMixedBody, func_type := .HostFunc } ::
        wMixedSt.device_funcs) :=
  ⟨C9_split_precondition_and_host_shape.1 wHostF (by decide),
   C9_split_precondition_and_host_shape.2 wMixedF wMixedBody wMixedChanged
     wMixedSt rfl rfl⟩

/-! ## C6: dead-let elimination -/

/-- C6: on exiting a `LetStmt` or `Let` binding, if after recursing into the
body the bound variable's use count is exactly 0 and the value has no
observable side effect, the analyzer returns the rewritten body alone with
the value never analyzed and the state untouched by it; otherwise the
binding is preserved with its value analyzed. -/
theorem C6_dead_let_elimination :
    (∀ (st st1 : UDState) (v : Var) (value : Expr) (body body' : Stmt)
        (st2 : UDState),
      IRUseDefAnalysis.HandleDef st v = .ok st1 →
      IRUseDefAnalysis.VisitStmt st1 body = .ok (body', st2) →
      ((alGet st2.use_count v.id = some 0 ∧ HasSideEffect value = false →
          IRUseDefAnalysis.VisitStmt st (.letStmt v value body) =
            .ok (body', st2)) ∧
       (¬(alGet st2.use_count v.id = some 0) ∨ HasSideEffect value = true →
          IRUseDefAnalysis.VisitStmt st (.letStmt v value body) =
            (match IRUseDefAnalysis.VisitExpr st2 value with
             | .error e => .error e
             | .ok (value', st3) => .ok (.letStmt v value' body', st3))))) ∧
    (∀ (st st1 : UDState) (v : Var) (value body body' : Expr) (st2 : UDState),
      IRUseDefAnalysis.HandleDef st v = .ok st1 →
      IRUseDefAnalysis.VisitExpr st1 body = .ok (body', st2) →
      ((alGet st2.use_count v.id = some 0 ∧ HasSideEffect value = false →
          IRUseDefAnalysis.VisitExpr st (.letE v value body) =
            .ok (body', st2)) ∧
       (¬(alGet st2.use_count v.id = some 0) ∨ HasSideEffect value = true →
          IRUseDefAnalysis.VisitExpr st (.letE v value body) =
            (match IRUseDefAnalysis.VisitExpr st2 value with
             | .error e => .error e
             | .ok (value', st3) => .ok (.letE v value' body', st3))))) := by
  constructor
  · intro st st1 v value body body' st2 hd hb
    constructor
    · rintro ⟨h0, hse⟩
      simp only [IRUseDefAnalysis.VisitStmt, hd, hb]
      rw [if_pos ⟨h0, by simp [hse]⟩]
    · intro hk
      simp only [IRUseDefAnalysis.VisitStmt, hd, hb]
      rw [if_neg]
      rintro ⟨h0, hse⟩
      cases hk with
      | inl h => exact h h0
      | inr h => exact hse h
  · intro st st1 v value body body' st2 hd hb
    constructor
    · rintro ⟨h0, hse⟩
      simp only [IRUseDefAnalysis.VisitExpr, hd, hb]
      rw [if_pos ⟨h0, by simp [hse]⟩]
    · intro hk
      simp only [IRUseDefAnalysis.VisitExpr, hd, hb]
      rw [if_neg]
      rintro ⟨h0, hse⟩
      cases hk with
      | inl h => exact h h0
      | inr h => exact hse h

/-- Concrete variables for witnesses and counterexamples. -/
def wX : Var := ⟨1, .int32⟩

def wY : Var := ⟨2, .int32⟩

def wB : Var := ⟨3, .handle⟩

def wA : Var := ⟨4, .handle⟩

def wN : Var := ⟨5, .int32⟩

def wM : Var := ⟨6, .int32⟩

def wP : Var := ⟨21, .int32⟩

/-- An impure call expression (a non-pure intrinsic with no arguments). -/
def wEffect : Expr := .call .int32 "wr" [] .Intrinsic none 0

/-- The analyzer state after defining `wY` in the fresh state. -/
def wStAfterDefY : UDState :=
  match IRUseDefAnalysis.HandleDef UDState.initial wY with
  | .ok st => st
  | .error _ => default

theorem C6_witness :
    IRUseDefAnalysis.VisitStmt UDState.initial
        (.letStmt wY (.intImm .int32 7) (.evaluate (.intImm .int32 0))) =
      .ok (.evaluate (.intImm .int32 0), wStAfterDefY) ∧
    IRUseDefAnalysis.VisitStmt UDState.initial
        (.letStmt wY wEffect (.evaluate (.intImm .int32 0))) =
      (match IRUseDefAnalysis.VisitExpr wStAfterDefY wEffect with
       | .error e => .error e
       | .ok (value', st3) =>
         .ok (.letStmt wY value' (.evaluate (.intImm .int32 0)), st3)) :=
  ⟨(C6_dead_let_elimination.1 UDState.initial wStAfterDefY wY
      (.intImm .int32 7) (.evaluate (.intImm .int32 0))
      (.evaluate (.intImm .int32 0)) wStAfterDefY rfl rfl).1 ⟨rfl, rfl⟩,
   (C6_dead_let_elimination.1 UDState.initial wStAfterDefY wY
      wEffect (.evaluate (.intImm .int32 0))
      (.evaluate (.intImm .int32 0)) wStAfterDefY rfl rfl).2 (Or.inr rfl)⟩

/-! ## C7: redefinition error and the thread-axis exception -/

/-- C7: registering a binding for a variable that already has a binding site
fails with the redefinition error (for every binding construct), while a
thread-extent annotation whose variable is already known proceeds directly
to its value and body with the counts, the thread-axis list and the
thread-extent list untouched — no definition is recorded. -/
theorem C7_redefinition_and_thread_axis_exception :
    (∀ (st : UDState) (v : Var) (value : Expr) (body : Stmt),
      v.id ∈ st.def_count →
      IRUseDefAnalysis.VisitStmt st (.letStmt v value body) =
        .error (.Redefinition v.id)) ∧
    (∀ (st : UDState) (v : Var) (lo extent : Expr) (body : Stmt),
      v.id ∈ st.def_count →
      IRUseDefAnalysis.VisitStmt st (.forStmt v lo extent body) =
        .error (.Redefinition v.id)) ∧
    (∀ (st : UDState) (v : Var) (t : DType) (extents : List Expr) (body : Stmt),
      v.id ∈ st.def_count →
      IRUseDefAnalysis.VisitStmt st (.allocate v t extents body) =
        .error (.Redefinition v.id)) ∧
    (∀ (st : UDState) (v : Var) (value body : Expr),
      v.id ∈ st.def_count →
      IRUseDefAnalysis.VisitExpr st (.letE v value body) =
        .error (.Redefinition v.id)) ∧
    (∀ (st : UDState) (iv : IterVar) (value : Expr) (body : Stmt),
      (alGet st.use_count iv.var.id).isSome → ¬(iv.thread_tag = "") →
      IRUseDefAnalysis.VisitStmt st (.attrStmt iv .thread_extent value body) =
        (match (if st.visit_thread_extent
                then IRUseDefAnalysis.VisitExpr st value
                else .ok (value, st)) with
         | .error e => .error e
         | .ok (value', st2) =>
           match IRUseDefAnalysis.VisitStmt st2 body with
           | .error e => .error e
           | .ok (body', st3) =>
             .ok (.attrStmt iv .thread_extent value' body', st3))) := by
  refine ⟨?_, ?_, ?_, ?_, ?_⟩
  · intro st v value body h
    simp only [IRUseDefAnalysis.VisitStmt, IRUseDefAnalysis.HandleDef,
      if_pos h]
  · intro st v lo extent body h
    simp only [IRUseDefAnalysis.VisitStmt, IRUseDefAnalysis.HandleDef,
      if_pos h]
  · intro st v t extents body h
    simp only [IRUseDefAnalysis.VisitStmt, IRUseDefAnalysis.HandleDef,
      if_pos h]
  · intro st v value body h
    simp only [IRUseDefAnalysis.VisitExpr, IRUseDefAnalysis.HandleDef,
      if_pos h]
  · intro st iv value body hs ht
    simp only [IRUseDefAnalysis.VisitStmt, if_neg ht, hs]
    simp

/-- A state that already defines `wX`. -/
def wStWithX : UDState :=
  match IRUseDefAnalysis.HandleDef UDState.initial wX with
  | .ok st => st
  | .error _ => default

theorem C7_witness :
    IRUseDefAnalysis.VisitStmt wStWithX
        (.letStmt wX (.intImm .int32 0) (.evaluate (.intImm .int32 0))) =
      .error (.Redefinition wX.id) ∧
    IRUseDefAnalysis.VisitStmt wStWithX
        (.attrStmt ⟨wX, "threadIdx.x"⟩ .thread_extent (.intImm .int32 4)
          (.evaluate (.var wX))) =
      (match (if wStWithX.visit_thread_extent
              then IRUseDefAnalysis.VisitExpr wStWithX (.intImm .int32 4)
              else .ok (.intImm .int32 4, wStWithX)) with
       | .error e => .error e
       | .ok (value', st2) =>
         match IRUseDefAnalysis.VisitStmt st2 (.evaluate (.var wX)) with
         | .error e => .error e
         | .ok (body', st3) =>
           .ok (.attrStmt ⟨wX, "threadIdx.x"⟩ .thread_extent value' body',
             st3)) :=
  ⟨C7_redefinition_and_thread_axis_exception.1 wStWithX wX
      (.intImm .int32 0) (.evaluate (.intImm .int32 0)) (by decide),
   C7_redefinition_and_thread_axis_exception.2.2.2.2 wStWithX
      ⟨wX, "threadIdx.x"⟩ (.intImm .int32 4) (.evaluate (.var wX))
      (by decide) (by decide)⟩

/-! ## C10: seeded parameters and binding constructs -/

/-- The tree of the C10 counterexample: the seeded parameter `wP` is bound by
a `Let` that sits inside the value of a dead `LetStmt`, so the analysis never
visits that binding and succeeds. -/
def c10tree : Stmt :=
  .letStmt wX (.letE wP (.intImm .int32 1) (.intImm .int32 1))
    (.evaluate (.intImm .int32 0))

/-- C10 counterexample: a tree that contains a binding construct for a seeded
parameter on which `UndefinedVars` does not fail at all — the binding hides
inside the never-visited value of an eliminated dead let. -/
theorem C10_counterexample :
    wP.id ∈ stmtBinderIds c10tree ∧
    UndefinedVars c10tree [wP] = .ok [] := by
  constructor
  · decide
  · rfl

/-- C10 amended: `FreeVariables` pre-registers each seeded parameter with use
count 0 and no definition, so when the analysis reaches a binding construct
for a seeded parameter it fails with the used-before-definition check, not
the redefinition check; stated for a binding at the root of the analyzed
tree for each binding construct (a binding inside a skipped dead-let value is
never reached). -/
theorem C10_amended_seeded_binding_fails :
    (∀ (args : List Var) (v : Var) (value : Expr) (body : Stmt), v ∈ args →
      UndefinedVars (.letStmt v value body) args =
        .error (.UseBeforeDef v.id)) ∧
    (∀ (args : List Var) (v : Var) (lo extent : Expr) (body : Stmt),
      v ∈ args →
      UndefinedVars (.forStmt v lo extent body) args =
        .error (.UseBeforeDef v.id)) ∧
    (∀ (args : List Var) (v : Var) (t : DType) (extents : List Expr)
        (body : Stmt), v ∈ args →
      UndefinedVars (.allocate v t extents body) args =
        .error (.UseBeforeDef v.id)) ∧
    (∀ (args : List Var) (v : Var) (value body : Expr), v ∈ args →
      UndefinedVars (.evaluate (.letE v value body)) args =
        .error (.UseBeforeDef v.id)) := by
  refine ⟨?_, ?_, ?_, ?_⟩
  · intro args v value body hv
    have h2 := alGet_seed_isSome args v hv []
    simp only [UndefinedVars, IRUseDefAnalysis.VisitStmt,
      IRUseDefAnalysis.HandleDef]
    simp [h2, UDState.initial]
  · intro args v lo extent body hv
    have h2 := alGet_seed_isSome args v hv []
    simp only [UndefinedVars, IRUseDefAnalysis.VisitStmt,
      IRUseDefAnalysis.HandleDef]
    simp [h2, UDState.initial]
  · intro args v t extents body hv
    have h2 := alGet_seed_isSome args v hv []
    simp only [UndefinedVars, IRUseDefAnalysis.VisitStmt,
      IRUseDefAnalysis.HandleDef]
    simp [h2, UDState.initial]
  · intro args v value body hv
    have h2 := alGet_seed_isSome args v hv []
    simp only [UndefinedVars, IRUseDefAnalysis.VisitStmt,
      IRUseDefAnalysis.VisitExpr, IRUseDefAnalysis.HandleDef]
    simp [h2, UDState.initial]

theorem C10_witness :
    UndefinedVars (.letStmt wP (.intImm .int32 1) (.evaluate (.intImm .int32 0)))
        [wP] = .error (.UseBeforeDef wP.id) :=
  C10_amended_seeded_binding_fails.1 [wP] wP (.intImm .int32 1)
    (.evaluate (.intImm .int32 0)) (List.mem_singleton.mpr rfl)

/-! ## C1: kernel parameter ordering and stub argument list -/

/-- C1: for a region whose isolated use-def analysis yields state `m`,
`SplitDeviceFunc` appends exactly one kernel whose parameter list is the
free-variable list `m.undefined` stably partitioned into handle-typed
variables first and scalar variables second, and replaces the region by a
packed-call stub whose arguments are the kernel-name string, then the kernel
parameters in that same order, then one entry per recorded thread-extent
expression. -/
theorem C1_kernel_params_and_stub_args
    (st : SpState) (r : Stmt) (body' : Stmt) (m : UDState)
    (stub : Stmt) (st' : SpState)
    (hm : IRUseDefAnalysis.VisitStmt UDState.initialNoTE r = .ok (body', m))
    (h : HostDeviceSplitter.SplitDeviceFunc st r = .ok (stub, st')) :
    st'.device_funcs = st.device_funcs ++
      [{ name := st.name ++ "_kernel" ++ toString st.device_funcs.length,
         args := m.undefined.filter (fun v => v.dtype = .handle) ++
                 m.undefined.filter (fun v => ¬(v.dtype = .handle)),
         thread_axis := m.thread_axis,
         func_type := .DeviceFunc,
         handle_data_type :=
           (m.undefined.filter (fun v => v.dtype = .handle)).filterMap
             (fun v => (alGet st.handle_data_type v.id).map (fun e => (v, e))),
         body := body' }] ∧
    stub = .evaluate (.call .int32 "tvm_call_packed"
      (.stringImm (st.name ++ "_kernel" ++ toString st.device_funcs.length) ::
        ((m.undefined.filter (fun v => v.dtype = .handle) ++
          m.undefined.filter (fun v => ¬(v.dtype = .handle))).map Expr.var)
        ++ m.thread_extent) .Intrinsic none 0) := by
  simp only [HostDeviceSplitter.SplitDeviceFunc, hm] at h
  injection h with h1
  injection h1 with ha hb
  subst ha
  subst hb
  exact ⟨rfl, rfl⟩

/-- The concrete region of the C1 witness: handles `wB`, `wA` and scalar `wM`
are free in first-encounter order; the extent is the scalar variable `wN`. -/
def wRegion : Stmt :=
  .attrStmt ⟨wX, "threadIdx.x"⟩ .thread_extent (.var wN)
    (.block (.store wB (.load .int32 wA (.var wX)) (.var wX))
            (.evaluate (.var wM)))

/-- A concrete splitter state. -/
def wSpSt : SpState := ⟨"main", [], []⟩

/-- The rewritten body of the isolated analysis of `wRegion`. -/
def wRegionBody : Stmt :=
  match IRUseDefAnalysis.VisitStmt UDState.initialNoTE wRegion with
  | .ok (b, _) => b
  | .error _ => default

/-- The analyzer state of the isolated analysis of `wRegion`. -/
def wRegionM : UDState :=
  match IRUseDefAnalysis.VisitStmt UDState.initialNoTE wRegion with
  | .ok (_, m) => m
  | .error _ => default

/-- The stub produced for `wRegion`. -/
def wStub : Stmt :=
  match HostDeviceSplitter.SplitDeviceFunc wSpSt wRegion with
  | .ok (s, _) => s
  | .error _ => default

/-- The splitter state after extracting `wRegion`. -/
def wSpSt' : SpState :=
  match HostDeviceSplitter.SplitDeviceFunc wSpSt wRegion with
  | .ok (_, st) => st
  | .error _ => default

theorem C1_witness :
    wSpSt'.device_funcs = wSpSt.device_funcs ++
      [{ name := wSpSt.name ++ "_kernel" ++ toString wSpSt.device_funcs.length,
         args := wRegionM.undefined.filter (fun v => v.dtype = .handle) ++
                 wRegionM.undefined.filter (fun v => ¬(v.dtype = .handle)),
         thread_axis := wRegionM.thread_axis,
         func_type := .DeviceFunc,
         handle_data_type :=
           (wRegionM.undefined.filter (fun v => v.dtype = .handle)).filterMap
             (fun v => (alGet wSpSt.handle_data_type v.id).map
               (fun e => (v, e))),
         body := wRegionBody }] ∧
    wStub = .evaluate (.call .int32 "tvm_call_packed"
      (.stringImm (wSpSt.name ++ "_kernel" ++
          toString wSpSt.device_funcs.length) ::
        ((wRegionM.undefined.filter (fun v => v.dtype = .handle) ++
          wRegionM.undefined.filter (fun v => ¬(v.dtype = .handle))).map
            Expr.var)
        ++ wRegionM.thread_extent) .Intrinsic none 0) :=
  C1_kernel_params_and_stub_args wSpSt wRegion wRegionBody wRegionM wStub
    wSpSt' rfl rfl

/-! ## C2: when Allocate element types enter the working table -/

/-- The C2 counterexample function: its body first uses handle `wB` inside a
device region and only afterwards allocates `wB`. -/
def c2f : LoweredFunc :=
  { name := "m2", args := [], thread_axis := [], func_type := .MixedFunc,
    handle_data_type := [],
    body := .block
      (.attrStmt ⟨wX, "threadIdx.x"⟩ .thread_extent (.intImm .int32 4)
        (.store wB (.intImm .int32 0) (.var wX)))
      (.allocate wB .float32 [] (.evaluate (.intImm .int32 0))) }

/-- The output list of splitting `c2f`. -/
def c2split : List LoweredFunc :=
  match HostDeviceSplitter.Split c2f with
  | .ok fs => fs
  | .error _ => []

/-- C2 counterexample: before the walk over the host body begins the working
handle-type table holds only the seeded entries and not the element type of
the Allocate-bound `wB`; consequently the handle-typed kernel parameter `wB`,
whose buffer is allocated in the host body (after the region), gets no
element type attached at extraction time. -/
theorem C2_counterexample :
    wB ∈ allocateVars c2f.body ∧
    alGet (HostDeviceSplitter.initState c2f).handle_data_type wB.id = none ∧
    wB.dtype = .handle ∧
    (c2split.get? 1).map (fun k => (k.args, k.handle_data_type)) =
      some ([wB], []) := by
  refine ⟨?_, rfl, rfl, rfl⟩
  decide

/-- C2 amended: the element type of an Allocate-bound variable enters the
working handle-type table when the walk reaches that Allocate node, before
its body is walked (the table is seeded from the function's own table when
the walk starts); consequently a handle-typed kernel parameter whose element
type is present in the working table at extraction time gets it attached in
the kernel's handle-type map. -/
theorem C2_amended_allocate_recording :
    (∀ (st : SpState) (v : Var) (t : DType) (exts : List Expr) (b : Stmt),
      HostDeviceSplitter.VisitStmt st (.allocate v t exts b) =
        (match HostDeviceSplitter.VisitStmt
            { st with
              handle_data_type :=
                alSet st.handle_data_type v.id (make_const t 0) } b with
         | .error e => .error e
         | .ok (b', c, st') => .ok (.allocate v t exts b', c, st'))) ∧
    (∀ (st : SpState) (v : Var) (t : DType),
      alGet (alSet st.handle_data_type v.id (make_const t 0)) v.id =
        some (make_const t 0)) ∧
    (∀ (st : SpState) (r : Stmt) (body' : Stmt) (m : UDState)
        (stub : Stmt) (st' : SpState),
      IRUseDefAnalysis.VisitStmt UDState.initialNoTE r = .ok (body', m) →
      HostDeviceSplitter.SplitDeviceFunc st r = .ok (stub, st') →
      ∀ (v : Var) (e : Expr), v ∈ m.undefined → v.dtype = .handle →
        alGet st.handle_data_type v.id = some e →
        ∃ k, st'.device_funcs = st.device_funcs ++ [k] ∧
          (v, e) ∈ k.handle_data_type) := by
  refine ⟨?_, ?_, ?_⟩
  · intro st v t exts b
    rfl
  · intro st v t
    exact alGet_alSet_self _ _ _
  · intro st r body' m stub st' hm h v e hv hh he
    simp only [HostDeviceSplitter.SplitDeviceFunc, hm] at h
    injection h with h1
    injection h1 with ha hb
    subst ha
    subst hb
    refine ⟨_, rfl, ?_⟩
    show (v, e) ∈
      (m.undefined.filter (fun v => v.dtype = .handle)).filterMap
        (fun v => (alGet st.handle_data_type v.id).map (fun e => (v, e)))
    simp only [List.mem_filterMap]
    refine ⟨v, ?_, ?_⟩
    · exact List.mem_filter.mpr ⟨hv, by simp [hh]⟩
    · rw [he]
      rfl

/-- A splitter state whose working table already holds an element type for
`wB` (as after walking an enclosing `Allocate` of `wB`). -/
def wSpStH : SpState := ⟨"main", [], [(wB.id, make_const .float32 0)]⟩

/-- The stub produced for `wRegion` from `wSpStH`. -/
def wStubH : Stmt :=
  match HostDeviceSplitter.SplitDeviceFunc wSpStH wRegion with
  | .ok (s, _) => s
  | .error _ => default

/-- The splitter state after extracting `wRegion` from `wSpStH`. -/
def wSpStH' : SpState :=
  match HostDeviceSplitter.SplitDeviceFunc wSpStH wRegion with
  | .ok (_, st) => st
  | .error _ => default

theorem C2_witness :
    HostDeviceSplitter.VisitStmt wSpStH
        (.allocate wB .float32 [] (.evaluate (.intImm .int32 0))) =
      (match HostDeviceSplitter.VisitStmt
          { wSpStH with
            handle_data_type :=
              alSet wSpStH.handle_data_type wB.id (make_const .float32 0) }
          (.evaluate (.intImm .int32 0)) with
       | .error e => .error e
       | .ok (b', c, st') =>
         .ok (.allocate wB .float32 [] b', c, st')) ∧
    (∃ k, wSpStH'.device_funcs = wSpStH.device_funcs ++ [k] ∧
      (wB, make_const .float32 0) ∈ k.handle_data_type) :=
  ⟨C2_amended_allocate_recording.1 wSpStH wB .float32 []
      (.evaluate (.intImm .int32 0)),
   C2_amended_allocate_recording.2.2 wSpStH wRegion wRegionBody wRegionM
      wStubH wSpStH' rfl rfl wB (make_const .float32 0)
      (by decide) rfl rfl⟩

/-! ## C4: Let nesting order for side-effecting arguments -/

/-- A concrete target function reference with one output. -/
def wF : FunctionRef := ⟨10, 1⟩

/-- The nested-let replacement the inliner builds: folding left over the
(formal, actual) pairs, each later pair wraps outside the earlier ones. -/
def nestedLets (ps : List (Var × Expr)) (e : Expr) : Expr :=
  ps.foldl (fun acc pa => .letE pa.1 pa.2 acc) e

/-- C4 counterexample: inlining a 2-argument call whose first argument has a
side effect produces `Let y a1 (Let x a0 body)` — the outermost binding is
the last argument — which differs from the claimed left-to-right
outermost-first nesting `Let x a0 (Let y a1 body)`. -/
theorem C4_counterexample :
    IRInline.VisitExpr wF [wX, wY] (.add (.var wX) (.var wY))
        (.call .int32 "g" [wEffect, .var wN] .Halide (some wF) 0) =
      .ok (.letE wY (.var wN)
            (.letE wX wEffect (.add (.var wX) (.var wY))), true) ∧
    (Expr.letE wY (.var wN) (.letE wX wEffect (.add (.var wX) (.var wY)))) ≠
      (Expr.letE wX wEffect
        (.letE wY (.var wN) (.add (.var wX) (.var wY)))) := by
  constructor
  · rfl
  · intro h
    injection h with h1 h2 h3
    exact absurd h1 (by decide)

/-- C4 amended: for a matched call with side-effecting arguments the inliner
replaces the call with exactly one nested `Let` per formal parameter
wrapping the body, each actual argument appearing exactly once, nested
innermost-to-outermost in left-to-right argument order (so the outermost
`Let` binds the last argument, and evaluation order of the actuals is
reversed). -/
theorem C4_amended_let_nesting :
    (∀ (f : FunctionRef) (args_ : List Var) (body_ : Expr)
        (t : DType) (name : String) (actuals actuals' : List Expr)
        (ct : CallType) (c : Bool),
      IRInline.VisitExprList f args_ body_ actuals = .ok (actuals', c) →
      args_.length = actuals'.length →
      HasSideEffectL actuals' = true →
      IRInline.VisitExpr f args_ body_
          (.call t name actuals ct (some f) 0) =
        .ok (nestedLets (List.zip args_ actuals') body_, true)) ∧
    (∀ (ps : List (Var × Expr)) (p : Var × Expr) (e : Expr),
      nestedLets (ps ++ [p]) e = .letE p.1 p.2 (nestedLets ps e)) ∧
    (∀ e, nestedLets [] e = e) := by
  refine ⟨?_, ?_, ?_⟩
  · intro f args_ body_ t name actuals actuals' ct c hargs hlen hse
    simp only [IRInline.VisitExpr, hargs]
    simp [hlen, hse, nestedLets]
  · intro ps p e
    simp [nestedLets]
  · intro e
    rfl

/-- The rewritten argument list of the C4 witness call. -/
def c4actuals : List Expr :=
  match IRInline.VisitExprList wF [wX, wY] (.add (.var wX) (.var wY))
      [wEffect, .var wN] with
  | .ok (es, _) => es
  | .error _ => []

theorem C4_witness :
    IRInline.VisitExpr wF [wX, wY] (.add (.var wX) (.var wY))
        (.call .int32 "g" [wEffect, .var wN] .Halide (some wF) 0) =
      .ok (nestedLets (List.zip [wX, wY] c4actuals)
            (.add (.var wX) (.var wY)), true) ∧
    nestedLets ([(wX, wEffect)] ++ [(wY, (.var wN : Expr))])
        (.add (.var wX) (.var wY)) =
      .letE wY (.var wN)
        (nestedLets [(wX, wEffect)] (.add (.var wX) (.var wY))) :=
  ⟨C4_amended_let_nesting.1 wF [wX, wY] (.add (.var wX) (.var wY))
      .int32 "g" [wEffect, .var wN] c4actuals .Halide false rfl rfl rfl,
   C4_amended_let_nesting.2.1 [(wX, wEffect)] (wY, (.var wN : Expr))
      (.add (.var wX) (.var wY))⟩

/-! ## C8: identity short-circuit -/

mutual
/-- Whether an expression contains a call to the inliner's target function. -/
def containsTargetCall (f : FunctionRef) : Expr → Bool
  | .var _ => false
  | .intImm _ _ => false
  | .stringImm _ => false
  | .add a b => containsTargetCall f a || containsTargetCall f b
  | .letE _ value body => containsTargetCall f value || containsTargetCall f body
  | .load _ _ index => containsTargetCall f index
  | .call _ _ args _ func _ =>
    decide (func = some f) || containsTargetCallL f args
/-- Whether an expression list contains a call to the target function. -/
def containsTargetCallL (f : FunctionRef) : List Expr → Bool
  | [] => false
  | e :: es => containsTargetCall f e || containsTargetCallL f es
end

/-- Whether a statement contains a call to the inliner's target function. -/
def stmtContainsTargetCall (f : FunctionRef) : Stmt → Bool
  | .letStmt _ value body =>
    containsTargetCall f value || stmtContainsTargetCall f body
  | .attrStmt _ _ value body =>
    containsTargetCall f value || stmtContainsTargetCall f body
  | .forStmt _ lo extent body =>
    containsTargetCall f lo || containsTargetCall f extent ||
      stmtContainsTargetCall f body
  | .allocate _ _ extents body =>
    containsTargetCallL f extents || stmtContainsTargetCall f body
  | .store _ value index =>
    containsTargetCall f value || containsTargetCall f index
  | .evaluate e => containsTargetCall f e
  | .block first rest =>
    stmtContainsTargetCall f first || stmtContainsTargetCall f rest

/-- Whether a statement contains one of the three boundary annotations. -/
def containsBoundary : Stmt → Bool
  | .attrStmt _ key _ body =>
    decide (key = .thread_extent) || decide (key = .pipeline_exec_scope) ||
      decide (key = .device_scope) || containsBoundary body
  | .letStmt _ _ body => containsBoundary body
  | .forStmt _ _ _ body => containsBoundary body
  | .allocate _ _ _ body => containsBoundary body
  | .store _ _ _ => false
  | .evaluate _ => false
  | .block first rest => containsBoundary first || containsBoundary rest

mutual
/-- With no target call in an expression, the inliner returns it unchanged
with the changed flag off. -/
theorem inl_nocall_expr (f : FunctionRef) (args_ : List Var) (body_ : Expr) :
    ∀ e : Expr, containsTargetCall f e = false →
      IRInline.VisitExpr f args_ body_ e = .ok (e, false)
  | .var _, _ => rfl
  | .intImm _ _, _ => rfl
  | .stringImm _, _ => rfl
  | .add a b, h => by
    rw [containsTargetCall] at h
    obtain ⟨ha, hb⟩ := by simpa using h
    simp only [IRInline.VisitExpr, inl_nocall_expr f args_ body_ a ha,
      inl_nocall_expr f args_ body_ b hb]
    rfl
  | .letE v value body, h => by
    rw [containsTargetCall] at h
    obtain ⟨ha, hb⟩ := by simpa using h
    simp only [IRInline.VisitExpr, inl_nocall_expr f args_ body_ value ha,
      inl_nocall_expr f args_ body_ body hb]
    rfl
  | .load t bv index, h => by
    rw [containsTargetCall] at h
    simp only [IRInline.VisitExpr, inl_nocall_expr f args_ body_ index h]
  | .call t name args ct func vi, h => by
    rw [containsTargetCall] at h
    obtain ⟨hf, hargs⟩ := by simpa using h
    simp only [IRInline.VisitExpr, inl_nocall_exprL f args_ body_ args hargs]
    rw [if_neg hf]
/-- With no target call in an expression list, the inliner returns it
unchanged with the changed flag off. -/
theorem inl_nocall_exprL (f : FunctionRef) (args_ : List Var) (body_ : Expr) :
    ∀ es : List Expr, containsTargetCallL f es = false →
      IRInline.VisitExprList f args_ body_ es = .ok (es, false)
  | [], _ => rfl
  | e :: es, h => by
    rw [containsTargetCallL] at h
    obtain ⟨he, hes⟩ := by simpa using h
    simp only [IRInline.VisitExprList, inl_nocall_expr f args_ body_ e he,
      inl_nocall_exprL f args_ body_ es hes]
    rfl
end

/-- With no target call in a statement, the inliner returns it unchanged
with the changed flag off. -/
theorem inl_nocall_stmt (f : FunctionRef) (args_ : List Var) (body_ : Expr) :
    ∀ s : Stmt, stmtContainsTargetCall f s = false →
      IRInline.VisitStmt f args_ body_ s = .ok (s, false)
  | .letStmt v value body, h => by
    rw [stmtContainsTargetCall] at h
    obtain ⟨ha, hb⟩ := by simpa using h
    simp only [IRInline.VisitStmt, inl_nocall_expr f args_ body_ value ha,
      inl_nocall_stmt f args_ body_ body hb]
    rfl
  | .attrStmt iv key value body, h => by
    rw [stmtContainsTargetCall] at h
    obtain ⟨ha, hb⟩ := by simpa using h
    simp only [IRInline.VisitStmt, inl_nocall_expr f args_ body_ value ha,
      inl_nocall_stmt f args_ body_ body hb]
    rfl
  | .forStmt lv lo extent body, h => by
    rw [stmtContainsTargetCall] at h
    obtain ⟨⟨hlo, hext⟩, hb⟩ := by simpa using h
    simp only [IRInline.VisitStmt, inl_nocall_expr f args_ body_ lo hlo,
      inl_nocall_expr f args_ body_ extent hext,
      inl_nocall_stmt f args_ body_ body hb]
    rfl
  | .allocate bv t extents body, h => by
    rw [stmtContainsTargetCall] at h
    obtain ⟨ha, hb⟩ := by simpa using h
    simp only [IRInline.VisitStmt, inl_nocall_exprL f args_ body_ extents ha,
      inl_nocall_stmt f args_ body_ body hb]
    rfl
  | .store bv value index, h => by
    rw [stmtContainsTargetCall] at h
    obtain ⟨ha, hb⟩ := by simpa using h
    simp only [IRInline.VisitStmt, inl_nocall_expr f args_ body_ value ha,
      inl_nocall_expr f args_ body_ index hb]
    rfl
  | .evaluate e, h => by
    rw [stmtContainsTargetCall] at h
    simp only [IRInline.VisitStmt, inl_nocall_expr f args_ body_ e h]
  | .block first rest, h => by
    rw [stmtContainsTargetCall] at h
    obtain ⟨ha, hb⟩ := by simpa using h
    simp only [IRInline.VisitStmt, inl_nocall_stmt f args_ body_ first ha,
      inl_nocall_stmt f args_ body_ rest hb]
    rfl

mutual
/-- When the inliner reports no change on an expression, the result is the
input expression itself (the embedded counterpart of `same_as`). -/
theorem inl_changed_false_expr (f : FunctionRef) (args_ : List Var)
    (body_ : Expr) :
    ∀ (e e' : Expr),
      IRInline.VisitExpr f args_ body_ e = .ok (e', false) → e' = e
  | .var v, e', h => by
    rw [IRInline.VisitExpr] at h
    injection h with h1
    injection h1 with ha _
    exact ha.symm
  | .intImm t n, e', h => by
    rw [IRInline.VisitExpr] at h
    injection h with h1
    injection h1 with ha _
    exact ha.symm
  | .stringImm s, e', h => by
    rw [IRInline.VisitExpr] at h
    injection h with h1
    injection h1 with ha _
    exact ha.symm
  | .add a b, e', h => by
    rw [IRInline.VisitExpr] at h
    cases ha : IRInline.VisitExpr f args_ body_ a with
    | error er => rw [ha] at h; exact Except.noConfusion h
    | ok pa =>
      obtain ⟨a', c1⟩ := pa
      rw [ha] at h
      cases hb : IRInline.VisitExpr f args_ body_ b with
      | error er => rw [hb] at h; exact Except.noConfusion h
      | ok pb =>
        obtain ⟨b', c2⟩ := pb
        rw [hb] at h
        injection h with h1
        injection h1 with hval hflag
        obtain ⟨hc1, hc2⟩ : c1 = false ∧ c2 = false := by simpa using hflag
        subst hc1
        subst hc2
        rw [← hval, inl_changed_false_expr f args_ body_ a a' ha,
          inl_changed_false_expr f args_ body_ b b' hb]
  | .letE v value body, e', h => by
    rw [IRInline.VisitExpr] at h
    cases ha : IRInline.VisitExpr f args_ body_ value with
    | error er => rw [ha] at h; exact Except.noConfusion h
    | ok pa =>
      obtain ⟨a', c1⟩ := pa
      rw [ha] at h
      cases hb : IRInline.VisitExpr f args_ body_ body with
      | error er => rw [hb] at h; exact Except.noConfusion h
      | ok pb =>
        obtain ⟨b', c2⟩ := pb
        rw [hb] at h
        injection h with h1
        injection h1 with hval hflag
        obtain ⟨hc1, hc2⟩ : c1 = false ∧ c2 = false := by simpa using hflag
        subst hc1
        subst hc2
        rw [← hval, inl_changed_false_expr f args_ body_ value a' ha,
          inl_changed_false_expr f args_ body_ body b' hb]
  | .load t bv index, e', h => by
    rw [IRInline.VisitExpr] at h
    cases ha : IRInline.VisitExpr f args_ body_ index with
    | error er => rw [ha] at h; exact Except.noConfusion h
    | ok pa =>
      obtain ⟨a', c1⟩ := pa
      rw [ha] at h
      injection h with h1
      injection h1 with hval hflag
      subst hflag
      rw [← hval, inl_changed_false_expr f args_ body_ index a' ha]
  | .call t name args ct func vi, e', h => by
    rw [IRInline.VisitExpr] at h
    cases hargs : IRInline.VisitExprList f args_ body_ args with
    | error er => rw [hargs] at h; exact Except.noConfusion h
    | ok pa =>
      obtain ⟨args', c⟩ := pa
      rw [hargs] at h
      simp only [] at h
      by_cases hf : func = some f
      · rw [if_pos hf] at h
        by_cases h0 : ¬(vi = 0)
        · rw [if_pos h0] at h
          exact Except.noConfusion h
        · rw [if_neg h0] at h
          by_cases h1 : ¬(args_.length = args'.length)
          · rw [if_pos h1] at h
            exact Except.noConfusion h
          · rw [if_neg h1] at h
            by_cases h2 : HasSideEffectL args' = true
            · rw [if_pos h2] at h
              injection h with hp
              injection hp with _ hflag
              exact absurd hflag (by simp)
            · rw [if_neg h2] at h
              injection h with hp
              injection hp with _ hflag
              exact absurd hflag (by simp)
      · rw [if_neg hf] at h
        injection h with hp
        injection hp with hval hflag
        subst hflag
        rw [← hval, inl_changed_false_exprL f args_ body_ args args' hargs]
/-- When the inliner reports no change on an expression list, the result is
the input list itself. -/
theorem inl_changed_false_exprL (f : FunctionRef) (args_ : List Var)
    (body_ : Expr) :
    ∀ (es es' : List Expr),
      IRInline.VisitExprList f args_ body_ es = .ok (es', false) → es' = es
  | [], es', h => by
    rw [IRInline.VisitExprList] at h
    injection h with h1
    injection h1 with ha _
    exact ha.symm
  | e :: es, es', h => by
    rw [IRInline.VisitExprList] at h
    cases ha : IRInline.VisitExpr f args_ body_ e with
    | error er => rw [ha] at h; exact Except.noConfusion h
    | ok pa =>
      obtain ⟨a', c1⟩ := pa
      rw [ha] at h
      cases hb : IRInline.VisitExprList f args_ body_ es with
      | error er => rw [hb] at h; exact Except.noConfusion h
      | ok pb =>
        obtain ⟨b', c2⟩ := pb
        rw [hb] at h
        injection h with h1
        injection h1 with hval hflag
        obtain ⟨hc1, hc2⟩ : c1 = false ∧ c2 = false := by simpa using hflag
        subst hc1
        subst hc2
        rw [← hval, inl_changed_false_expr f args_ body_ e a' ha,
          inl_changed_false_exprL f args_ body_ es b' hb]
end

/-- When the inliner reports no change on a statement, the result is the
input statement itself. -/
theorem inl_changed_false_stmt (f : FunctionRef) (args_ : List Var)
    (body_ : Expr) :
    ∀ (s s' : Stmt),
      IRInline.VisitStmt f args_ body_ s = .ok (s', false) → s' = s
  | .letStmt v value body, s', h => by
    rw [IRInline.VisitStmt] at h
    cases ha : IRInline.VisitExpr f args_ body_ value with
    | error er => rw [ha] at h; exact Except.noConfusion h
    | ok pa =>
      obtain ⟨a', c1⟩ := pa
      rw [ha] at h
      cases hb : IRInline.VisitStmt f args_ body_ body with
      | error er => rw [hb] at h; exact Except.noConfusion h
      | ok pb =>
        obtain ⟨b', c2⟩ := pb
        rw [hb] at h
        injection h with h1
        injection h1 with hval hflag
        obtain ⟨hc1, hc2⟩ : c1 = false ∧ c2 = false := by simpa using hflag
        subst hc1
        subst hc2
        rw [← hval, inl_changed_false_expr f args_ body_ value a' ha,
          inl_changed_false_stmt f args_ body_ body b' hb]
  | .attrStmt iv key value body, s', h => by
    rw [IRInline.VisitStmt] at h
    cases ha : IRInline.VisitExpr f args_ body_ value with
    | error er => rw [ha] at h; exact Except.noConfusion h
    | ok pa =>
      obtain ⟨a', c1⟩ := pa
      rw [ha] at h
      cases hb : IRInline.VisitStmt f args_ body_ body with
      | error er => rw [hb] at h; exact Except.noConfusion h
      | ok pb =>
        obtain ⟨b', c2⟩ := pb
        rw [hb] at h
        injection h with h1
        injection h1 with hval hflag
        obtain ⟨hc1, hc2⟩ : c1 = false ∧ c2 = false := by simpa using hflag
        subst hc1
        subst hc2
        rw [← hval, inl_changed_false_expr f args_ body_ value a' ha,
          inl_changed_false_stmt f args_ body_ body b' hb]
  | .forStmt lv lo extent body, s', h => by
    rw [IRInline.VisitStmt] at h
    cases ha : IRInline.VisitExpr f args_ body_ lo with
    | error er => rw [ha] at h; exact Except.noConfusion h
    | ok pa =>
      obtain ⟨a', c1⟩ := pa
      rw [ha] at h
      cases hb : IRInline.VisitExpr f args_ body_ extent with
      | error er => rw [hb] at h; exact Except.noConfusion h
      | ok pb =>
        obtain ⟨b', c2⟩ := pb
        rw [hb] at h
        cases hc : IRInline.VisitStmt f args_ body_ body with
        | error er => rw [hc] at h; exact Except.noConfusion h
        | ok pc =>
          obtain ⟨c', c3⟩ := pc
          rw [hc] at h
          injection h with h1
          injection h1 with hval hflag
          obtain ⟨⟨hc1, hc2⟩, hc3⟩ : (c1 = false ∧ c2 = false) ∧ c3 = false := by
            simpa using hflag
          subst hc1
          subst hc2
          subst hc3
          rw [← hval, inl_changed_false_expr f args_ body_ lo a' ha,
            inl_changed_false_expr f args_ body_ extent b' hb,
            inl_changed_false_stmt f args_ body_ body c' hc]
  | .allocate bv t extents body, s', h => by
    rw [IRInline.VisitStmt] at h
    cases ha : IRInline.VisitExprList f args_ body_ extents with
    | error er => rw [ha] at h; exact Except.noConfusion h
    | ok pa =>
      obtain ⟨a', c1⟩ := pa
      rw [ha] at h
      cases hb : IRInline.VisitStmt f args_ body_ body with
      | error er => rw [hb] at h; exact Except.noConfusion h
      | ok pb =>
        obtain ⟨b', c2⟩ := pb
        rw [hb] at h
        injection h with h1
        injection h1 with hval hflag
        obtain ⟨hc1, hc2⟩ : c1 = false ∧ c2 = false := by simpa using hflag
        subst hc1
        subst hc2
        rw [← hval, inl_changed_false_exprL f args_ body_ extents a' ha,
          inl_changed_false_stmt f args_ body_ body b' hb]
  | .store bv value index, s', h => by
    rw [IRInline.VisitStmt] at h
    cases ha : IRInline.VisitExpr f args_ body_ value with
    | error er => rw [ha] at h; exact Except.noConfusion h
    | ok pa =>
      obtain ⟨a', c1⟩ := pa
      rw [ha] at h
      cases hb : IRInline.VisitExpr f args_ body_ index with
      | error er => rw [hb] at h; exact Except.noConfusion h
      | ok pb =>
        obtain ⟨b', c2⟩ := pb
        rw [hb] at h
        injection h with h1
        injection h1 with hval hflag
        obtain ⟨hc1, hc2⟩ : c1 = false ∧ c2 = false := by simpa using hflag
        subst hc1
        subst hc2
        rw [← hval, inl_changed_false_expr f args_ body_ value a' ha,
          inl_changed_false_expr f args_ body_ index b' hb]
  | .evaluate e, s', h => by
    rw [IRInline.VisitStmt] at h
    cases ha : IRInline.VisitExpr f args_ body_ e with
    | error er => rw [ha] at h; exact Except.noConfusion h
    | ok pa =>
      obtain ⟨a', c1⟩ := pa
      rw [ha] at h
      injection h with h1
      injection h1 with hval hflag
      subst hflag
      rw [← hval, inl_changed_false_expr f args_ body_ e a' ha]
  | .block first rest, s', h => by
    rw [IRInline.VisitStmt] at h
    cases ha : IRInline.VisitStmt f args_ body_ first with
    | error er => rw [ha] at h; exact Except.noConfusion h
    | ok pa =>
      obtain ⟨a', c1⟩ := pa
      rw [ha] at h
      cases hb : IRInline.VisitStmt f args_ body_ rest with
      | error er => rw [hb] at h; exact Except.noConfusion h
      | ok pb =>
        obtain ⟨b', c2⟩ := pb
        rw [hb] at h
        injection h with h1
        injection h1 with hval hflag
        obtain ⟨hc1, hc2⟩ : c1 = false ∧ c2 = false := by simpa using hflag
        subst hc1
        subst hc2
        rw [← hval, inl_changed_false_stmt f args_ body_ first a' ha,
          inl_changed_false_stmt f args_ body_ rest b' hb]

/-- With no boundary annotation in a statement, the splitter walk returns the
statement unchanged, reports no change, extracts nothing and keeps the
function name (only the working handle-type table may grow). -/
theorem sp_noboundary (st : SpState) :
    ∀ s : Stmt, containsBoundary s = false →
      ∃ st', HostDeviceSplitter.VisitStmt st s = .ok (s, false, st') ∧
        st'.name = st.name ∧ st'.device_funcs = st.device_funcs
  | .letStmt v value body, h => by
    rw [containsBoundary] at h
    obtain ⟨st', h1, h2, h3⟩ := sp_noboundary st body h
    exact ⟨st', by simp only [HostDeviceSplitter.VisitStmt, h1], h2, h3⟩
  | .attrStmt iv key value body, h => by
    rw [containsBoundary] at h
    obtain ⟨⟨⟨hk1, hk2⟩, hk3⟩, hb⟩ := by simpa using h
    obtain ⟨st', h1, h2, h3⟩ := sp_noboundary st body hb
    refine ⟨st', ?_, h2, h3⟩
    simp only [HostDeviceSplitter.VisitStmt]
    rw [if_neg (by simp [hk1, hk2, hk3])]
    simp only [h1]
  | .forStmt lv lo extent body, h => by
    rw [containsBoundary] at h
    obtain ⟨st', h1, h2, h3⟩ := sp_noboundary st body h
    exact ⟨st', by simp only [HostDeviceSplitter.VisitStmt, h1], h2, h3⟩
  | .allocate bv t extents body, h => by
    rw [containsBoundary] at h
    obtain ⟨st', h1, h2, h3⟩ := sp_noboundary
      { st with
        handle_data_type := alSet st.handle_data_type bv.id (make_const t 0) }
      body h
    exact ⟨st', by simp only [HostDeviceSplitter.VisitStmt, h1], h2, h3⟩
  | .store bv value index, _ => ⟨st, rfl, rfl, rfl⟩
  | .evaluate e, _ => ⟨st, rfl, rfl, rfl⟩
  | .block first rest, h => by
    rw [containsBoundary] at h
    obtain ⟨ha, hb⟩ := by simpa using h
    obtain ⟨st1, h1, h2, h3⟩ := sp_noboundary st first ha
    obtain ⟨st2, g1, g2, g3⟩ := sp_noboundary st1 rest hb
    refine ⟨st2, ?_, by rw [g2, h2], by rw [g3, h3]⟩
    simp only [HostDeviceSplitter.VisitStmt, h1, g1]
    rfl

/-- C8: a tree with no call to the inliner's target function is returned by
`Inline` exactly as given; `Inline` skips the SSA-renaming collaborator
precisely when the rewrite reports no change (the `same_as` check) — in
which case the rewritten tree equals the input — and applies `ConvertSSA`
otherwise; and `Split` of a Mixed function whose body has no boundary
annotation returns the body unchanged with no device function extracted. -/
theorem C8_identity_short_circuit :
    (∀ (f : FunctionRef) (args_ : List Var) (body_ : Expr) (stmt : Stmt),
      f.num_outputs = 1 → stmtContainsTargetCall f stmt = false →
      Inline stmt f args_ body_ = .ok stmt) ∧
    (∀ (f : FunctionRef) (args_ : List Var) (body_ : Expr) (stmt ret : Stmt),
      f.num_outputs = 1 →
      IRInline.VisitStmt f args_ body_ stmt = .ok (ret, false) →
      ret = stmt ∧ Inline stmt f args_ body_ = .ok stmt) ∧
    (∀ (f : FunctionRef) (args_ : List Var) (body_ : Expr) (stmt ret : Stmt),
      f.num_outputs = 1 →
      IRInline.VisitStmt f args_ body_ stmt = .ok (ret, true) →
      Inline stmt f args_ body_ = .ok (ConvertSSA ret)) ∧
    (∀ f : LoweredFunc, f.func_type = .MixedFunc →
      containsBoundary f.body = false →
      HostDeviceSplitter.Split f = .ok [{ f with func_type := .HostFunc }]) := by
  refine ⟨?_, ?_, ?_, ?_⟩
  · intro f args_ body_ stmt h1 h2
    unfold Inline
    rw [if_pos h1, inl_nocall_stmt f args_ body_ stmt h2]
    rfl
  · intro f args_ body_ stmt ret h1 h2
    have he := inl_changed_false_stmt f args_ body_ stmt ret h2
    subst he
    constructor
    · rfl
    · unfold Inline
      rw [if_pos h1, h2]
      rfl
  · intro f args_ body_ stmt ret h1 h2
    unfold Inline
    rw [if_pos h1, h2]
    rfl
  · intro f hmix hnb
    obtain ⟨st', h1, _, h3⟩ :=
      sp_noboundary (HostDeviceSplitter.initState f) f.body hnb
    unfold HostDeviceSplitter.Split
    rw [if_pos hmix]
    simp only [h1]
    rw [h3]
    rfl

theorem C8_witness :
    Inline (.evaluate (.var wN)) wF [wX] (.var wX) =
      .ok (.evaluate (.var wN)) ∧
    ((.evaluate (.var wN) : Stmt) = (.evaluate (.var wN) : Stmt) ∧
      Inline (.evaluate (.var wN)) wF [wX] (.var wX) =
        .ok (.evaluate (.var wN))) ∧
    Inline (.evaluate (.call .int32 "g" [.var wN] .Halide (some wF) 0))
        wF [wX] (.var wX) =
      .ok (ConvertSSA (.evaluate (.var wN))) ∧
    HostDeviceSplitter.Split wMixedF =
      .ok [{ wMixedF with func_type := .HostFunc }] :=
  ⟨C8_identity_short_circuit.1 wF [wX] (.var wX) (.evaluate (.var wN))
      rfl rfl,
   C8_identity_short_circuit.2.1 wF [wX] (.var wX) (.evaluate (.var wN))
      (.evaluate (.var wN)) rfl rfl,
   C8_identity_short_circuit.2.2.1 wF [wX] (.var wX)
      (.evaluate (.call .int32 "g" [.var wN] .Halide (some wF) 0))
      (.evaluate (.var wN)) rfl rfl,
   C8_identity_short_circuit.2.2.2 wMixedF rfl rfl⟩

/-! ## C5: pure-argument substitution and its semantics -/

mutual
/-- All variable ids referenced in an expression (uses, including the buffer
variable of a load; a conservative over-approximation that keeps binder
occurrences of the same id as well). -/
def exprVarIds : Expr → List Nat
  | .var v => [v.id]
  | .intImm _ _ => []
  | .stringImm _ => []
  | .add a b => exprVarIds a ++ exprVarIds b
  | .letE _ value body => exprVarIds value ++ exprVarIds body
  | .load _ buffer_var index => buffer_var.id :: exprVarIds index
  | .call _ _ args _ _ _ => exprVarIdsL args
/-- Variable ids referenced in an expression list. -/
def exprVarIdsL : List Expr → List Nat
  | [] => []
  | e :: es => exprVarIds e ++ exprVarIdsL es
end

/-- Environment update used by the value semantics. -/
def updEnv (env : Nat → Option Int) (k : Nat) (x : Int) : Nat → Option Int :=
  fun k' => if k' = k then some x else env k'

mutual
/-- Ids occurring in load buffer-variable position: `Substitute` does not
rewrite these (the buffer variable is not an expression child), so the
substitution-semantics lemma excludes them from the map's domain. -/
def exprLoadBufferIds : Expr → List Nat
  | .var _ => []
  | .intImm _ _ => []
  | .stringImm _ => []
  | .add a b => exprLoadBufferIds a ++ exprLoadBufferIds b
  | .letE _ value body => exprLoadBufferIds value ++ exprLoadBufferIds body
  | .load _ buffer_var index => buffer_var.id :: exprLoadBufferIds index
  | .call _ _ args _ _ _ => exprLoadBufferIdsL args
/-- Ids in load buffer-variable position within an expression list. -/
def exprLoadBufferIdsL : List Expr → List Nat
  | [] => []
  | e :: es => exprLoadBufferIds e ++ exprLoadBufferIdsL es
end

mutual
/-- Modelled from the spec: a deterministic value semantics for expressions,
used to state semantic equivalence of the pure-argument substitution.  Loads
and calls are uninterpreted deterministic functions of their evaluated
operands; a `Let` evaluates its value once and binds it. -/
def evalE (env : Nat → Option Int) : Expr → Option Int
  | .var v => env v.id
  | .intImm _ n => some n
  | .stringImm s => some (Int.ofNat s.length)
  | .add a b =>
    match evalE env a, evalE env b with
    | some x, some y => some (x + y)
    | _, _ => none
  | .letE v value body =>
    match evalE env value with
    | some x => evalE (updEnv env v.id x) body
    | none => none
  | .load _ buffer_var index =>
    match env buffer_var.id, evalE env index with
    | some bv, some i => some (bv + 31 * i + 1)
    | _, _ => none
  | .call _ name args _ _ _ =>
    match evalL env args with
    | some xs =>
      some (Int.ofNat name.length + 2 * xs.foldl (fun a x => 3 * a + x) 0)
    | none => none
/-- Modelled from the spec: left-to-right evaluation of an argument list. -/
def evalL (env : Nat → Option Int) : List Expr → Option (List Int)
  | [] => some []
  | e :: es =>
    match evalE env e, evalL env es with
    | some x, some xs => some (x :: xs)
    | _, _ => none
end

mutual
/-- The value of an expression depends only on the environment's values at
the variable ids it references. -/
theorem evalE_agree : ∀ (e : Expr) (env env' : Nat → Option Int),
    (∀ k, k ∈ exprVarIds e → env k = env' k) → evalE env e = evalE env' e
  | .var v, env, env', h => h v.id (by rw [exprVarIds]; exact List.mem_singleton.mpr rfl)
  | .intImm _ _, _, _, _ => rfl
  | .stringImm _, _, _, _ => rfl
  | .add a b, env, env', h => by
    rw [evalE, evalE,
      evalE_agree a env env' (fun k hk => h k (by rw [exprVarIds]; exact List.mem_append_left _ hk)),
      evalE_agree b env env' (fun k hk => h k (by rw [exprVarIds]; exact List.mem_append_right _ hk))]
  | .letE v value body, env, env', h => by
    rw [evalE, evalE,
      evalE_agree value env env' (fun k hk => h k (by rw [exprVarIds]; exact List.mem_append_left _ hk))]
    cases hv : evalE env' value with
    | none => rfl
    | some x =>
      exact evalE_agree body (updEnv env v.id x) (updEnv env' v.id x)
        (fun k hk => by
          by_cases hkv : k = v.id
          · simp [updEnv, hkv]
          · simp only [updEnv, if_neg hkv]
            exact h k (by rw [exprVarIds]; exact List.mem_append_right _ hk))
  | .load t bv index, env, env', h => by
    rw [evalE, evalE,
      h bv.id (by rw [exprVarIds]; exact List.mem_cons_self _ _),
      evalE_agree index env env' (fun k hk => h k (by rw [exprVarIds]; exact List.mem_cons_of_mem _ hk))]
  | .call t name args ct func vi, env, env', h => by
    rw [evalE, evalE, evalL_agree args env env' (fun k hk => h k (by rw [exprVarIds]; exact hk))]
/-- The values of an expression list depend only on referenced ids. -/
theorem evalL_agree : ∀ (es : List Expr) (env env' : Nat → Option Int),
    (∀ k, k ∈ exprVarIdsL es → env k = env' k) → evalL env es = evalL env' es
  | [], _, _, _ => rfl
  | e :: es, env, env', h => by
    rw [evalL, evalL,
      evalE_agree e env env' (fun k hk => h k (by rw [exprVarIdsL]; exact List.mem_append_left _ hk)),
      evalL_agree es env env' (fun k hk => h k (by rw [exprVarIdsL]; exact List.mem_append_right _ hk))]
end

/-- The environment that binds, at each mapped id, the value of the mapped
expression evaluated once in the outer environment — the call-by-value
meaning of calling with those actuals. -/
def envSubst (env : Nat → Option Int) (vmap : List (Nat × Expr)) :
    Nat → Option Int :=
  fun k =>
    match alGet vmap k with
    | some a => evalE env a
    | none => env k

mutual
/-- Substitution lemma: with no mapped id bound inside the expression and no
binder of the expression occurring in a mapped image (the SSA no-capture
conditions), substituting and then evaluating equals evaluating under the
call-by-value environment. -/
theorem evalE_subst : ∀ (e : Expr) (vmap : List (Nat × Expr))
    (env : Nat → Option Int),
    (∀ b, b ∈ exprBinderIds e → alGet vmap b = none) →
    (∀ b, b ∈ exprBinderIds e → ∀ p, p ∈ vmap → ¬(b ∈ exprVarIds p.2)) →
    (∀ b, b ∈ exprLoadBufferIds e → alGet vmap b = none) →
    evalE env (Substitute vmap e) = evalE (envSubst env vmap) e
  | .var v, vmap, env, _, _, _ => by
    rw [Substitute, evalE]
    cases hv : alGet vmap v.id with
    | none => rw [evalE, envSubst, hv]
    | some a => rw [envSubst, hv]
  | .intImm _ _, _, _, _, _, _ => rfl
  | .stringImm _, _, _, _, _, _ => rfl
  | .add a b, vmap, env, hdom, himg, hbuf => by
    rw [Substitute, evalE, evalE,
      evalE_subst a vmap env
        (fun k hk => hdom k (by rw [exprBinderIds]; exact List.mem_append_left _ hk))
        (fun k hk => himg k (by rw [exprBinderIds]; exact List.mem_append_left _ hk))
        (fun k hk => hbuf k (by rw [exprLoadBufferIds]; exact List.mem_append_left _ hk)),
      evalE_subst b vmap env
        (fun k hk => hdom k (by rw [exprBinderIds]; exact List.mem_append_right _ hk))
        (fun k hk => himg k (by rw [exprBinderIds]; exact List.mem_append_right _ hk))
        (fun k hk => hbuf k (by rw [exprLoadBufferIds]; exact List.mem_append_right _ hk))]
  | .letE v value body, vmap, env, hdom, himg, hbuf => by
    have hv : alGet vmap v.id = none :=
      hdom v.id (by rw [exprBinderIds]; exact List.mem_cons_self _ _)
    rw [Substitute, evalE, evalE,
      evalE_subst value vmap env
        (fun k hk => hdom k (by rw [exprBinderIds]; exact List.mem_cons_of_mem _ (List.mem_append_left _ hk)))
        (fun k hk => himg k (by rw [exprBinderIds]; exact List.mem_cons_of_mem _ (List.mem_append_left _ hk)))
        (fun k hk => hbuf k (by rw [exprLoadBufferIds]; exact List.mem_append_left _ hk))]
    cases hx : evalE (envSubst env vmap) value with
    | none => rfl
    | some x =>
      show evalE (updEnv env v.id x) (Substitute vmap body) =
        evalE (updEnv (envSubst env vmap) v.id x) body
      rw [evalE_subst body vmap (updEnv env v.id x)
        (fun k hk => hdom k (by rw [exprBinderIds]; exact List.mem_cons_of_mem _ (List.mem_append_right _ hk)))
        (fun k hk => himg k (by rw [exprBinderIds]; exact List.mem_cons_of_mem _ (List.mem_append_right _ hk)))
        (fun k hk => hbuf k (by rw [exprLoadBufferIds]; exact List.mem_append_right _ hk))]
      refine evalE_agree body _ _ (fun k _ => ?_)
      by_cases hkv : k = v.id
      · subst hkv
        simp only [envSubst, updEnv, hv]
      · show envSubst (updEnv env v.id x) vmap k =
          updEnv (envSubst env vmap) v.id x k
        simp only [envSubst, updEnv, if_neg hkv]
        cases ha : alGet vmap k with
        | none => rfl
        | some a =>
          show evalE (updEnv env v.id x) a = evalE env a
          refine evalE_agree a _ _ ?_
          intro j hj
          have hjv : ¬(j = v.id) := fun hj' =>
            himg v.id (by rw [exprBinderIds]; exact List.mem_cons_self _ _)
              (k, a) (alGet_mem vmap k a ha) (hj' ▸ hj)
          simp [updEnv, hjv]
  | .load t bv index, vmap, env, hdom, himg, hbuf => by
    have hb : alGet vmap bv.id = none :=
      hbuf bv.id (by rw [exprLoadBufferIds]; exact List.mem_cons_self _ _)
    rw [Substitute, evalE, evalE,
      evalE_subst index vmap env
        (fun k hk => hdom k (by rw [exprBinderIds]; exact hk))
        (fun k hk => himg k (by rw [exprBinderIds]; exact hk))
        (fun k hk => hbuf k (by rw [exprLoadBufferIds]; exact List.mem_cons_of_mem _ hk))]
    simp only [envSubst, hb]
  | .call t name args ct func vi, vmap, env, hdom, himg, hbuf => by
    rw [Substitute, evalE, evalE,
      evalL_subst args vmap env
        (fun k hk => hdom k (by rw [exprBinderIds]; exact hk))
        (fun k hk => himg k (by rw [exprBinderIds]; exact hk))
        (fun k hk => hbuf k (by rw [exprLoadBufferIds]; exact hk))]
/-- Substitution lemma for expression lists. -/
theorem evalL_subst : ∀ (es : List Expr) (vmap : List (Nat × Expr))
    (env : Nat → Option Int),
    (∀ b, b ∈ exprBinderIdsL es → alGet vmap b = none) →
    (∀ b, b ∈ exprBinderIdsL es → ∀ p, p ∈ vmap → ¬(b ∈ exprVarIds p.2)) →
    (∀ b, b ∈ exprLoadBufferIdsL es → alGet vmap b = none) →
    evalL env (SubstituteL vmap es) = evalL (envSubst env vmap) es
  | [], _, _, _, _, _ => rfl
  | e :: es, vmap, env, hdom, himg, hbuf => by
    rw [SubstituteL, evalL, evalL,
      evalE_subst e vmap env
        (fun k hk => hdom k (by rw [exprBinderIdsL]; exact List.mem_append_left _ hk))
        (fun k hk => himg k (by rw [exprBinderIdsL]; exact List.mem_append_left _ hk))
        (fun k hk => hbuf k (by rw [exprLoadBufferIdsL]; exact List.mem_append_left _ hk)),
      evalL_subst es vmap env
        (fun k hk => hdom k (by rw [exprBinderIdsL]; exact List.mem_append_right _ hk))
        (fun k hk => himg k (by rw [exprBinderIdsL]; exact List.mem_append_right _ hk))
        (fun k hk => hbuf k (by rw [exprLoadBufferIdsL]; exact List.mem_append_right _ hk))]
end

/-- C5: for a matched call all of whose (rewritten) arguments are
side-effect free, the inliner replaces the call by the body expression with
each formal directly substituted by its actual — no `Let` is introduced —
and, in the deterministic value semantics, the substituted body evaluates to
the same value as the body under the call-by-value environment binding each
formal to its actual's value (the meaning of evaluating the original call),
under the SSA no-capture side conditions: no formal is rebound inside the
body, no binder of the body occurs in an actual, and no formal stands in
load buffer-variable position. -/
theorem C5_pure_argument_substitution :
    (∀ (f : FunctionRef) (args_ : List Var) (body_ : Expr) (t : DType)
        (name : String) (actuals actuals' : List Expr) (ct : CallType)
        (c : Bool),
      IRInline.VisitExprList f args_ body_ actuals = .ok (actuals', c) →
      args_.length = actuals'.length →
      HasSideEffectL actuals' = false →
      IRInline.VisitExpr f args_ body_ (.call t name actuals ct (some f) 0) =
        .ok (Substitute
          ((List.zip args_ actuals').foldl
            (fun ac pa => alSet ac pa.1.id pa.2) []) body_, true)) ∧
    (∀ (body : Expr) (vmap : List (Nat × Expr)) (env : Nat → Option Int),
      (∀ b, b ∈ exprBinderIds body → alGet vmap b = none) →
      (∀ b, b ∈ exprBinderIds body → ∀ p, p ∈ vmap → ¬(b ∈ exprVarIds p.2)) →
      (∀ b, b ∈ exprLoadBufferIds body → alGet vmap b = none) →
      evalE env (Substitute vmap body) = evalE (envSubst env vmap) body) := by
  constructor
  · intro f args_ body_ t name actuals actuals' ct c hargs hlen hse
    simp only [IRInline.VisitExpr, hargs]
    simp [hlen, hse]
  · intro body vmap env hdom himg hbuf
    exact evalE_subst body vmap env hdom himg hbuf

/-- The rewritten argument list of the C5 witness call. -/
def c5actuals : List Expr :=
  match IRInline.VisitExprList wF [wX, wY] (.add (.var wX) (.var wY))
      [.var wN, .var wM] with
  | .ok (es, _) => es
  | .error _ => []

/-- The substitution map of the C5 witness. -/
def c5map : List (Nat × Expr) := [(wX.id, .var wN), (wY.id, .var wM)]

/-- A concrete total environment. -/
def wEnv : Nat → Option Int := fun k => some (Int.ofNat k)

theorem C5_witness :
    IRInline.VisitExpr wF [wX, wY] (.add (.var wX) (.var wY))
        (.call .int32 "g" [.var wN, .var wM] .Halide (some wF) 0) =
      .ok (Substitute
        ((List.zip [wX, wY] c5actuals).foldl
          (fun ac pa => alSet ac pa.1.id pa.2) [])
        (.add (.var wX) (.var wY)), true) ∧
    evalE wEnv (Substitute c5map (.add (.var wX) (.var wY))) =
      evalE (envSubst wEnv c5map) (.add (.var wX) (.var wY)) :=
  ⟨C5_pure_argument_substitution.1 wF [wX, wY] (.add (.var wX) (.var wY))
      .int32 "g" [.var wN, .var wM] c5actuals .Halide false rfl rfl rfl,
   C5_pure_argument_substitution.2 (.add (.var wX) (.var wY)) c5map wEnv
      (fun b hb => absurd hb (List.not_mem_nil b))
      (fun b hb => absurd hb (List.not_mem_nil b))
      (fun b hb => absurd hb (List.not_mem_nil b))⟩

/-! ## C3: round-trip free-variable discovery

The development below settles the round-trip claim: the analysis of a region
(extent recursion off, no seeds) followed by `UndefinedVars` on the rewritten
body seeded with the kernel parameters.  The claim fails as stated (a
variable occurring only in a thread-extent expression is not a kernel
parameter, yet `UndefinedVars` visits extents); the amended statement holds
for well-scoped regions whose thread-extent expressions are closed. -/

mutual
/-- An expression with no variable occurrence and no let binding: analyzing
it is the identity on both tree and state. -/
def closedExpr : Expr → Bool
  | .var _ => false
  | .intImm _ _ => true
  | .stringImm _ => true
  | .add a b => closedExpr a && closedExpr b
  | .letE _ _ _ => false
  | .load _ _ _ => false
  | .call _ _ args _ _ _ => closedExprL args
/-- Closedness of an expression list. -/
def closedExprL : List Expr → Bool
  | [] => true
  | e :: es => closedExpr e && closedExprL es
end

/-- Every thread-extent annotation value in the statement is closed. -/
def extentsClosed : Stmt → Bool
  | .letStmt _ _ body => extentsClosed body
  | .attrStmt _ key value body =>
    (if key = .thread_extent then closedExpr value else true) &&
      extentsClosed body
  | .forStmt _ _ _ body => extentsClosed body
  | .allocate _ _ _ body => extentsClosed body
  | .store _ _ _ => true
  | .evaluate _ => true
  | .block first rest => extentsClosed first && extentsClosed rest

/-- All variable ids referenced (used) in a statement. -/
def stmtVarIds : Stmt → List Nat
  | .letStmt _ value body => exprVarIds value ++ stmtVarIds body
  | .attrStmt _ _ value body => exprVarIds value ++ stmtVarIds body
  | .forStmt _ lo extent body =>
    exprVarIds lo ++ exprVarIds extent ++ stmtVarIds body
  | .allocate _ _ extents body => exprVarIdsL extents ++ stmtVarIds body
  | .store buffer_var value index =>
    buffer_var.id :: (exprVarIds value ++ exprVarIds index)
  | .evaluate e => exprVarIds e
  | .block first rest => stmtVarIds first ++ stmtVarIds rest

mutual
/-- Well-scopedness of an expression: every variable use is licensed by the
environment, which grows at let binders. -/
def ScopedExpr (E : List Nat) : Expr → Bool
  | .var v => decide (v.id ∈ E)
  | .intImm _ _ => true
  | .stringImm _ => true
  | .add a b => ScopedExpr E a && ScopedExpr E b
  | .letE v value body => ScopedExpr E value && ScopedExpr (v.id :: E) body
  | .load _ buffer_var index =>
    decide (buffer_var.id ∈ E) && ScopedExpr E index
  | .call _ _ args _ _ _ => ScopedExprL E args
/-- Well-scopedness of an expression list. -/
def ScopedExprL (E : List Nat) : List Expr → Bool
  | [] => true
  | e :: es => ScopedExpr E e && ScopedExprL E es
end

/-- Well-scopedness of a statement: the environment grows at let, for,
allocate and thread-extent binders (a thread-extent annotation scopes its
iteration variable over its body, whether first occurrence or repeat). -/
def ScopedStmt (E : List Nat) : Stmt → Bool
  | .letStmt v value body =>
    ScopedExpr E value && ScopedStmt (v.id :: E) body
  | .attrStmt iv key value body =>
    if key = .thread_extent then
      ScopedExpr E value && ScopedStmt (iv.var.id :: E) body
    else
      ScopedExpr E value && ScopedStmt E body
  | .forStmt loop_var lo extent body =>
    ScopedExpr E lo && ScopedExpr E extent &&
      ScopedStmt (loop_var.id :: E) body
  | .allocate buffer_var _ extents body =>
    ScopedExprL E extents && ScopedStmt (buffer_var.id :: E) body
  | .store buffer_var value index =>
    decide (buffer_var.id ∈ E) && ScopedExpr E value && ScopedExpr E index
  | .evaluate e => ScopedExpr E e
  | .block first rest => ScopedStmt E first && ScopedStmt E rest

theorem alGet_alSet_isSome {α : Type} (m : List (Nat × α)) (k k' : Nat)
    (a : α) :
    (alGet (alSet m k a) k').isSome = true ↔
      k' = k ∨ (alGet m k').isSome = true := by
  by_cases h : k = k'
  · subst h
    rw [alGet_alSet_self]
    simp
  · rw [alGet_alSet_ne _ _ _ _ h]
    constructor
    · exact Or.inr
    · rintro (hk | hk)
      · exact absurd hk.symm h
      · exact hk

namespace IRUseDefAnalysis

/-- `HandleUse` on a known variable: the free list, the definition list and
the toggle are unchanged, and the use-count domain is unchanged. -/
theorem HandleUse_known (st : UDState) (v : Var)
    (h : (alGet st.use_count v.id).isSome = true) :
    (HandleUse st v).undefined = st.undefined ∧
    (∀ k, ((alGet (HandleUse st v).use_count k).isSome = true ↔
      (alGet st.use_count k).isSome = true)) ∧
    (HandleUse st v).def_count = st.def_count ∧
    (HandleUse st v).thread_axis = st.thread_axis ∧
    (HandleUse st v).thread_extent = st.thread_extent ∧
    (HandleUse st v).visit_thread_extent = st.visit_thread_extent := by
  cases hn : alGet st.use_count v.id with
  | none => rw [hn] at h; cases h
  | some n =>
    by_cases h0 : 0 ≤ n
    · refine ⟨?_, ?_, ?_, ?_, ?_, ?_⟩ <;>
        simp only [HandleUse, hn, if_pos h0]
      · intro k
        rw [alGet_alSet_isSome]
        constructor
        · rintro (hk | hk)
          · rw [hk, hn]; rfl
          · exact hk
        · intro hk
          exact Or.inr hk
    · refine ⟨?_, ?_, ?_, ?_, ?_, ?_⟩ <;>
        simp only [HandleUse, hn, if_neg h0]
      intro k
      trivial

/-- `HandleUse` on an unknown variable appends it to the free list and adds
it to the use-count domain. -/
theorem HandleUse_unknown (st : UDState) (v : Var)
    (h : (alGet st.use_count v.id).isSome = false) :
    HandleUse st v =
      { st with
        undefined := st.undefined ++ [v],
        use_count := alSet st.use_count v.id (-1) } := by
  cases hn : alGet st.use_count v.id with
  | none => simp only [HandleUse, hn]
  | some n => rw [hn] at h; cases h

/-- `HandleDef` on a fresh variable (not defined, not in the use-count
table) succeeds and records the definition with count 0. -/
theorem HandleDef_fresh (st : UDState) (v : Var)
    (hd : ¬(v.id ∈ st.def_count))
    (hu : (alGet st.use_count v.id).isSome = false) :
    HandleDef st v = .ok { st with
      use_count := alSet st.use_count v.id 0,
      def_count := v.id :: st.def_count } := by
  rw [HandleDef, if_neg hd, if_neg (by rw [hu]; exact Bool.false_ne_true)]

/-- A successful `HandleDef` was on a fresh variable and its result is the
recorded state. -/
theorem HandleDef_ok (st : UDState) (v : Var) (st' : UDState)
    (h : HandleDef st v = .ok st') :
    ¬(v.id ∈ st.def_count) ∧ (alGet st.use_count v.id).isSome = false ∧
    st' = { st with
      use_count := alSet st.use_count v.id 0,
      def_count := v.id :: st.def_count } := by
  by_cases hd : v.id ∈ st.def_count
  · rw [HandleDef, if_pos hd] at h
    cases h
  · by_cases hu : (alGet st.use_count v.id).isSome = true
    · rw [HandleDef, if_neg hd, if_pos hu] at h
      cases h
    · rw [HandleDef, if_neg hd, if_neg hu] at h
      injection h with h1
      exact ⟨hd, by simpa using hu, h1.symm⟩

end IRUseDefAnalysis

/-- Monotone state-evolution facts of one analyzer run: the use-count
domain, the definition list and the free list only grow, and the toggle is
preserved. -/
def stMono (st st' : UDState) : Prop :=
  (∀ k, (alGet st.use_count k).isSome = true →
    (alGet st'.use_count k).isSome = true) ∧
  (∀ k, k ∈ st.def_count → k ∈ st'.def_count) ∧
  (∀ v, v ∈ st.undefined → v ∈ st'.undefined) ∧
  st'.visit_thread_extent = st.visit_thread_extent

theorem stMono_refl (st : UDState) : stMono st st :=
  ⟨fun _ h => h, fun _ h => h, fun _ h => h, rfl⟩

theorem stMono_trans {a b c : UDState} (h1 : stMono a b) (h2 : stMono b c) :
    stMono a c :=
  ⟨fun k h => h2.1 k (h1.1 k h),
   fun k h => h2.2.1 k (h1.2.1 k h),
   fun v h => h2.2.2.1 v (h1.2.2.1 v h),
   h2.2.2.2.trans h1.2.2.2⟩

theorem stMono_HandleUse (st : UDState) (v : Var) :
    stMono st (IRUseDefAnalysis.HandleUse st v) := by
  cases hn : alGet st.use_count v.id with
  | some n =>
    by_cases h0 : 0 ≤ n
    · refine ⟨?_, ?_, ?_, ?_⟩ <;>
        simp only [IRUseDefAnalysis.HandleUse, hn, if_pos h0]
      · intro k hk
        rw [alGet_alSet_isSome]
        exact Or.inr hk
      · exact fun _ h => h
      · exact fun _ h => h
    · simp only [IRUseDefAnalysis.HandleUse, hn, if_neg h0]
      exact stMono_refl st
  | none =>
    refine ⟨?_, ?_, ?_, ?_⟩ <;>
      simp only [IRUseDefAnalysis.HandleUse, hn]
    · intro k hk
      rw [alGet_alSet_isSome]
      exact Or.inr hk
    · exact fun _ h => h
    · exact fun v' h => List.mem_append_left _ h

theorem stMono_HandleDef (st : UDState) (v : Var) (st' : UDState)
    (h : IRUseDefAnalysis.HandleDef st v = .ok st') : stMono st st' := by
  obtain ⟨_, _, h3⟩ := IRUseDefAnalysis.HandleDef_ok st v st' h
  subst h3
  refine ⟨?_, ?_, fun _ h => h, rfl⟩
  · intro k hk
    rw [alGet_alSet_isSome]
    exact Or.inr hk
  · intro k hk
    exact List.mem_cons_of_mem _ hk

mutual
/-- The analyzer's state evolves monotonically over an expression. -/
theorem mono_visitExpr : ∀ (e : Expr) (st : UDState) (e' : Expr)
    (st' : UDState),
    IRUseDefAnalysis.VisitExpr st e = .ok (e', st') → stMono st st'
  | .var v, st, e', st', h => by
    rw [IRUseDefAnalysis.VisitExpr] at h
    injection h with h1
    injection h1 with _ h2
    rw [← h2]
    exact stMono_HandleUse st v
  | .intImm t n, st, e', st', h => by
    rw [IRUseDefAnalysis.VisitExpr] at h
    injection h with h1
    injection h1 with _ h2
    rw [← h2]
    exact stMono_refl st
  | .stringImm s, st, e', st', h => by
    rw [IRUseDefAnalysis.VisitExpr] at h
    injection h with h1
    injection h1 with _ h2
    rw [← h2]
    exact stMono_refl st
  | .add a b, st, e', st', h => by
    rw [IRUseDefAnalysis.VisitExpr] at h
    cases ha : IRUseDefAnalysis.VisitExpr st a with
    | error er => rw [ha] at h; exact Except.noConfusion h
    | ok pa =>
      obtain ⟨a', st1⟩ := pa
      simp only [ha] at h
      cases hb : IRUseDefAnalysis.VisitExpr st1 b with
      | error er => rw [hb] at h; exact Except.noConfusion h
      | ok pb =>
        obtain ⟨b', st2⟩ := pb
        rw [hb] at h
        injection h with h1
        injection h1 with _ h2
        rw [← h2]
        exact stMono_trans (mono_visitExpr a st a' st1 ha)
          (mono_visitExpr b st1 b' st2 hb)
  | .letE v value body, st, e', st', h => by
    rw [IRUseDefAnalysis.VisitExpr] at h
    cases hd : IRUseDefAnalysis.HandleDef st v with
    | error er => rw [hd] at h; exact Except.noConfusion h
    | ok st1 =>
      simp only [hd] at h
      cases hb : IRUseDefAnalysis.VisitExpr st1 body with
      | error er => rw [hb] at h; exact Except.noConfusion h
      | ok pb =>
        obtain ⟨body', st2⟩ := pb
        simp only [hb] at h
        have m1 := stMono_trans (stMono_HandleDef st v st1 hd)
          (mono_visitExpr body st1 body' st2 hb)
        by_cases hc : alGet st2.use_count v.id = some 0 ∧
            ¬(HasSideEffect value = true)
        · rw [if_pos hc] at h
          injection h with h1
          injection h1 with _ h2
          rw [← h2]
          exact m1
        · rw [if_neg hc] at h
          cases hv : IRUseDefAnalysis.VisitExpr st2 value with
          | error er => rw [hv] at h; exact Except.noConfusion h
          | ok pv =>
            obtain ⟨value', st3⟩ := pv
            rw [hv] at h
            injection h with h1
            injection h1 with _ h2
            rw [← h2]
            exact stMono_trans m1 (mono_visitExpr value st2 value' st3 hv)
  | .load t bv index, st, e', st', h => by
    rw [IRUseDefAnalysis.VisitExpr] at h
    cases hi : IRUseDefAnalysis.VisitExpr
        (IRUseDefAnalysis.HandleUse st bv) index with
    | error er => rw [hi] at h; exact Except.noConfusion h
    | ok pi =>
      obtain ⟨index', st2⟩ := pi
      rw [hi] at h
      injection h with h1
      injection h1 with _ h2
      rw [← h2]
      exact stMono_trans (stMono_HandleUse st bv)
        (mono_visitExpr index _ index' st2 hi)
  | .call t name args ct func vi, st, e', st', h => by
    rw [IRUseDefAnalysis.VisitExpr] at h
    cases ha : IRUseDefAnalysis.VisitExprList st args with
    | error er => rw [ha] at h; exact Except.noConfusion h
    | ok pa =>
      obtain ⟨args', st1⟩ := pa
      rw [ha] at h
      injection h with h1
      injection h1 with _ h2
      rw [← h2]
      exact mono_visitExprL args st args' st1 ha
/-- The analyzer's state evolves monotonically over an expression list. -/
theorem mono_visitExprL : ∀ (es : List Expr) (st : UDState)
    (es' : List Expr) (st' : UDState),
    IRUseDefAnalysis.VisitExprList st es = .ok (es', st') → stMono st st'
  | [], st, es', st', h => by
    rw [IRUseDefAnalysis.VisitExprList] at h
    injection h with h1
    injection h1 with _ h2
    rw [← h2]
    exact stMono_refl st
  | e :: es, st, es', st', h => by
    rw [IRUseDefAnalysis.VisitExprList] at h
    cases he : IRUseDefAnalysis.VisitExpr st e with
    | error er => rw [he] at h; exact Except.noConfusion h
    | ok pe =>
      obtain ⟨e', st1⟩ := pe
      simp only [he] at h
      cases hes : IRUseDefAnalysis.VisitExprList st1 es with
      | error er => rw [hes] at h; exact Except.noConfusion h
      | ok pes =>
        obtain ⟨es1, st2⟩ := pes
        rw [hes] at h
        injection h with h1
        injection h1 with _ h2
        rw [← h2]
        exact stMono_trans (mono_visitExpr e st e' st1 he)
          (mono_visitExprL es st1 es1 st2 hes)
end

/-- The analyzer's state evolves monotonically over a statement. -/
theorem mono_visitStmt : ∀ (s : Stmt) (st : UDState) (s' : Stmt)
    (st' : UDState),
    IRUseDefAnalysis.VisitStmt st s = .ok (s', st') → stMono st st'
  | .attrStmt iv key value body, st, s', st', h => by
    rw [IRUseDefAnalysis.VisitStmt] at h
    by_cases hk : key = .thread_extent
    · rw [if_pos hk] at h
      by_cases ht : iv.thread_tag = ""
      · rw [if_pos ht] at h
        exact Except.noConfusion h
      · rw [if_neg ht] at h
        have tail : ∀ stx : UDState, stMono st stx →
            (match (if stx.visit_thread_extent = true
                    then IRUseDefAnalysis.VisitExpr stx value
                    else Except.ok (value, stx)) with
             | .error e => Except.error e
             | .ok (value', st2) =>
               match IRUseDefAnalysis.VisitStmt st2 body with
               | .error e => Except.error e
               | .ok (body', st3) =>
                 Except.ok (Stmt.attrStmt iv key value' body', st3)) =
              .ok (s', st') → stMono st st' := by
          intro stx hmx hh
          cases hvt : (if stx.visit_thread_extent = true
              then IRUseDefAnalysis.VisitExpr stx value
              else Except.ok (value, stx)) with
          | error er => rw [hvt] at hh; exact Except.noConfusion hh
          | ok pv =>
            obtain ⟨value', st2⟩ := pv
            simp only [hvt] at hh
            have m2 : stMono stx st2 := by
              by_cases hvb : stx.visit_thread_extent = true
              · rw [if_pos hvb] at hvt
                exact mono_visitExpr value stx value' st2 hvt
              · rw [if_neg hvb] at hvt
                injection hvt with h1
                injection h1 with _ h2
                rw [← h2]
                exact stMono_refl stx
            cases hbb : IRUseDefAnalysis.VisitStmt st2 body with
            | error er => rw [hbb] at hh; exact Except.noConfusion hh
            | ok pb =>
              obtain ⟨body', st3⟩ := pb
              rw [hbb] at hh
              injection hh with h1
              injection h1 with _ h2
              rw [← h2]
              exact stMono_trans hmx (stMono_trans m2
                (mono_visitStmt body st2 body' st3 hbb))
        by_cases hs : (alGet st.use_count iv.var.id).isSome = true
        · rw [if_pos hs] at h
          exact tail st (stMono_refl st) h
        · rw [if_neg hs] at h
          cases hd : IRUseDefAnalysis.HandleDef st iv.var with
          | error er => rw [hd] at h; exact Except.noConfusion h
          | ok st1 =>
            simp only [hd] at h
            exact tail { st1 with
                thread_axis := st1.thread_axis ++ [iv],
                thread_extent := st1.thread_extent ++ [value] }
              (stMono_HandleDef st iv.var st1 hd) h
    · rw [if_neg hk] at h
      cases hv : IRUseDefAnalysis.VisitExpr st value with
      | error er => rw [hv] at h; exact Except.noConfusion h
      | ok pv =>
        obtain ⟨value', st1⟩ := pv
        simp only [hv] at h
        cases hb : IRUseDefAnalysis.VisitStmt st1 body with
        | error er => rw [hb] at h; exact Except.noConfusion h
        | ok pb =>
          obtain ⟨body', st2⟩ := pb
          rw [hb] at h
          injection h with h1
          injection h1 with _ h2
          rw [← h2]
          exact stMono_trans (mono_visitExpr value st value' st1 hv)
            (mono_visitStmt body st1 body' st2 hb)
  | .letStmt v value body, st, s', st', h => by
    rw [IRUseDefAnalysis.VisitStmt] at h
    cases hd : IRUseDefAnalysis.HandleDef st v with
    | error er => rw [hd] at h; exact Except.noConfusion h
    | ok st1 =>
      simp only [hd] at h
      cases hb : IRUseDefAnalysis.VisitStmt st1 body with
      | error er => rw [hb] at h; exact Except.noConfusion h
      | ok pb =>
        obtain ⟨body', st2⟩ := pb
        simp only [hb] at h
        have m1 := stMono_trans (stMono_HandleDef st v st1 hd)
          (mono_visitStmt body st1 body' st2 hb)
        by_cases hc : alGet st2.use_count v.id = some 0 ∧
            ¬(HasSideEffect value = true)
        · rw [if_pos hc] at h
          injection h with h1
          injection h1 with _ h2
          rw [← h2]
          exact m1
        · rw [if_neg hc] at h
          cases hv : IRUseDefAnalysis.VisitExpr st2 value with
          | error er => rw [hv] at h; exact Except.noConfusion h
          | ok pv =>
            obtain ⟨value', st3⟩ := pv
            rw [hv] at h
            injection h with h1
            injection h1 with _ h2
            rw [← h2]
            exact stMono_trans m1 (mono_visitExpr value st2 value' st3 hv)
  | .forStmt lv lo extent body, st, s', st', h => by
    rw [IRUseDefAnalysis.VisitStmt] at h
    cases hd : IRUseDefAnalysis.HandleDef st lv with
    | error er => rw [hd] at h; exact Except.noConfusion h
    | ok st1 =>
      simp only [hd] at h
      cases hlo : IRUseDefAnalysis.VisitExpr st1 lo with
      | error er => rw [hlo] at h; exact Except.noConfusion h
      | ok plo =>
        obtain ⟨lo', st2⟩ := plo
        simp only [hlo] at h
        cases hext : IRUseDefAnalysis.VisitExpr st2 extent with
        | error er => rw [hext] at h; exact Except.noConfusion h
        | ok pext =>
          obtain ⟨extent', st3⟩ := pext
          simp only [hext] at h
          cases hb : IRUseDefAnalysis.VisitStmt st3 body with
          | error er => rw [hb] at h; exact Except.noConfusion h
          | ok pb =>
            obtain ⟨body', st4⟩ := pb
            rw [hb] at h
            injection h with h1
            injection h1 with _ h2
            rw [← h2]
            exact stMono_trans (stMono_HandleDef st lv st1 hd)
              (stMono_trans (mono_visitExpr lo st1 lo' st2 hlo)
                (stMono_trans (mono_visitExpr extent st2 extent' st3 hext)
                  (mono_visitStmt body st3 body' st4 hb)))
  | .allocate bv t extents body, st, s', st', h => by
    rw [IRUseDefAnalysis.VisitStmt] at h
    cases hd : IRUseDefAnalysis.HandleDef st bv with
    | error er => rw [hd] at h; exact Except.noConfusion h
    | ok st1 =>
      simp only [hd] at h
      cases hex : IRUseDefAnalysis.VisitExprList st1 extents with
      | error er => rw [hex] at h; exact Except.noConfusion h
      | ok pex =>
        obtain ⟨extents', st2⟩ := pex
        simp only [hex] at h
        cases hb : IRUseDefAnalysis.VisitStmt st2 body with
        | error er => rw [hb] at h; exact Except.noConfusion h
        | ok pb =>
          obtain ⟨body', st3⟩ := pb
          rw [hb] at h
          injection h with h1
          injection h1 with _ h2
          rw [← h2]
          exact stMono_trans (stMono_HandleDef st bv st1 hd)
            (stMono_trans (mono_visitExprL extents st1 extents' st2 hex)
              (mono_visitStmt body st2 body' st3 hb))
  | .store bv value index, st, s', st', h => by
    rw [IRUseDefAnalysis.VisitStmt] at h
    cases hv : IRUseDefAnalysis.VisitExpr
        (IRUseDefAnalysis.HandleUse st bv) value with
    | error er => rw [hv] at h; exact Except.noConfusion h
    | ok pv =>
      obtain ⟨value', st2⟩ := pv
      simp only [hv] at h
      cases hi : IRUseDefAnalysis.VisitExpr st2 index with
      | error er => rw [hi] at h; exact Except.noConfusion h
      | ok pi =>
        obtain ⟨index', st3⟩ := pi
        rw [hi] at h
        injection h with h1
        injection h1 with _ h2
        rw [← h2]
        exact stMono_trans (stMono_HandleUse st bv)
          (stMono_trans (mono_visitExpr value _ value' st2 hv)
            (mono_visitExpr index st2 index' st3 hi))
  | .evaluate e, st, s', st', h => by
    rw [IRUseDefAnalysis.VisitStmt] at h
    cases he : IRUseDefAnalysis.VisitExpr st e with
    | error er => rw [he] at h; exact Except.noConfusion h
    | ok pe =>
      obtain ⟨e', st1⟩ := pe
      rw [he] at h
      injection h with h1
      injection h1 with _ h2
      rw [← h2]
      exact mono_visitExpr e st e' st1 he
  | .block first rest, st, s', st', h => by
    rw [IRUseDefAnalysis.VisitStmt] at h
    cases ha : IRUseDefAnalysis.VisitStmt st first with
    | error er => rw [ha] at h; exact Except.noConfusion h
    | ok pa =>
      obtain ⟨first', st1⟩ := pa
      simp only [ha] at h
      cases hb : IRUseDefAnalysis.VisitStmt st1 rest with
      | error er => rw [hb] at h; exact Except.noConfusion h
      | ok pb =>
        obtain ⟨rest', st2⟩ := pb
        rw [hb] at h
        injection h with h1
        injection h1 with _ h2
        rw [← h2]
        exact stMono_trans (mono_visitStmt first st first' st1 ha)
          (mono_visitStmt rest st1 rest' st2 hb)

mutual
/-- Analyzing a closed expression is the identity on tree and state. -/
theorem closed_visitExpr : ∀ (e : Expr) (st : UDState),
    closedExpr e = true → IRUseDefAnalysis.VisitExpr st e = .ok (e, st)
  | .var v, st, h => by rw [closedExpr] at h; cases h
  | .intImm t n, st, _ => rfl
  | .stringImm s, st, _ => rfl
  | .add a b, st, h => by
    rw [closedExpr] at h
    obtain ⟨ha, hb⟩ := by simpa using h
    simp only [IRUseDefAnalysis.VisitExpr, closed_visitExpr a st ha,
      closed_visitExpr b st hb]
  | .letE v value body, st, h => by rw [closedExpr] at h; cases h
  | .load t bv index, st, h => by rw [closedExpr] at h; cases h
  | .call t name args ct func vi, st, h => by
    rw [closedExpr] at h
    simp only [IRUseDefAnalysis.VisitExpr, closed_visitExprL args st h]
/-- Analyzing a closed expression list is the identity. -/
theorem closed_visitExprL : ∀ (es : List Expr) (st : UDState),
    closedExprL es = true → IRUseDefAnalysis.VisitExprList st es = .ok (es, st)
  | [], st, _ => rfl
  | e :: es, st, h => by
    rw [closedExprL] at h
    obtain ⟨he, hes⟩ := by simpa using h
    simp only [IRUseDefAnalysis.VisitExprList, closed_visitExpr e st he,
      closed_visitExprL es st hes]
end

mutual
/-- A closed expression references no variable. -/
theorem closed_varIds : ∀ e : Expr, closedExpr e = true → exprVarIds e = []
  | .var v, h => by rw [closedExpr] at h; cases h
  | .intImm t n, _ => rfl
  | .stringImm s, _ => rfl
  | .add a b, h => by
    rw [closedExpr] at h
    obtain ⟨ha, hb⟩ := by simpa using h
    rw [exprVarIds, closed_varIds a ha, closed_varIds b hb]
    rfl
  | .letE v value body, h => by rw [closedExpr] at h; cases h
  | .load t bv index, h => by rw [closedExpr] at h; cases h
  | .call t name args ct func vi, h => by
    rw [exprVarIds]
    exact closed_varIdsL args (by rw [closedExpr] at h; exact h)
/-- A closed expression list references no variable. -/
theorem closed_varIdsL : ∀ es : List Expr,
    closedExprL es = true → exprVarIdsL es = []
  | [], _ => rfl
  | e :: es, h => by
    rw [closedExprL] at h
    obtain ⟨he, hes⟩ := by simpa using h
    rw [exprVarIdsL, closed_varIds e he, closed_varIdsL es hes]
    rfl
end

mutual
/-- Scoping environments transfer: an id of the environment may be dropped
when it is not referenced, or replaced by membership in the new
environment. -/
theorem scoped_transfer_expr : ∀ (e : Expr) (E E' : List Nat),
    ScopedExpr E e = true →
    (∀ k, k ∈ E → k ∈ E' ∨ ¬(k ∈ exprVarIds e)) → ScopedExpr E' e = true
  | .var v, E, E', h, hT => by
    rw [ScopedExpr] at h
    rw [ScopedExpr]
    have hv : v.id ∈ E := by simpa using h
    rcases hT v.id hv with hk | hk
    · simpa using hk
    · exact absurd (by rw [exprVarIds]; exact List.mem_singleton.mpr rfl) hk
  | .intImm t n, _, _, _, _ => rfl
  | .stringImm s, _, _, _, _ => rfl
  | .add a b, E, E', h, hT => by
    rw [ScopedExpr] at h
    obtain ⟨ha, hb⟩ := by simpa using h
    rw [ScopedExpr]
    rw [scoped_transfer_expr a E E' ha (fun k hk =>
        (hT k hk).imp_right (fun hn hm =>
          hn (by rw [exprVarIds]; exact List.mem_append_left _ hm))),
      scoped_transfer_expr b E E' hb (fun k hk =>
        (hT k hk).imp_right (fun hn hm =>
          hn (by rw [exprVarIds]; exact List.mem_append_right _ hm)))]
    rfl
  | .letE v value body, E, E', h, hT => by
    rw [ScopedExpr] at h
    obtain ⟨ha, hb⟩ := by simpa using h
    rw [ScopedExpr]
    rw [scoped_transfer_expr value E E' ha (fun k hk =>
        (hT k hk).imp_right (fun hn hm =>
          hn (by rw [exprVarIds]; exact List.mem_append_left _ hm))),
      scoped_transfer_expr body (v.id :: E) (v.id :: E') hb ?_]
    · rfl
    · intro k hk
      cases hk with
      | head => exact Or.inl (List.mem_cons_self _ _)
      | tail _ hk =>
        rcases hT k hk with hk' | hk'
        · exact Or.inl (List.mem_cons_of_mem _ hk')
        · exact Or.inr (fun hm =>
            hk' (by rw [exprVarIds]; exact List.mem_append_right _ hm))
  | .load t bv index, E, E', h, hT => by
    rw [ScopedExpr] at h
    obtain ⟨ha, hb⟩ := by simpa using h
    rw [ScopedExpr]
    have hbv : bv.id ∈ E' := by
      rcases hT bv.id ha with hk | hk
      · exact hk
      · exact absurd (by rw [exprVarIds]; exact List.mem_cons_self _ _) hk
    rw [scoped_transfer_expr index E E' hb (fun k hk =>
        (hT k hk).imp_right (fun hn hm =>
          hn (by rw [exprVarIds]; exact List.mem_cons_of_mem _ hm)))]
    simp [hbv]
  | .call t name args ct func vi, E, E', h, hT => by
    rw [ScopedExpr] at h
    rw [ScopedExpr]
    exact scoped_transfer_exprL args E E' h (fun k hk =>
      (hT k hk).imp_right (fun hn hm => hn (by rw [exprVarIds]; exact hm)))
/-- Scoping transfer for expression lists. -/
theorem scoped_transfer_exprL : ∀ (es : List Expr) (E E' : List Nat),
    ScopedExprL E es = true →
    (∀ k, k ∈ E → k ∈ E' ∨ ¬(k ∈ exprVarIdsL es)) → ScopedExprL E' es = true
  | [], _, _, _, _ => rfl
  | e :: es, E, E', h, hT => by
    rw [ScopedExprL] at h
    obtain ⟨he, hes⟩ := by simpa using h
    rw [ScopedExprL]
    rw [scoped_transfer_expr e E E' he (fun k hk =>
        (hT k hk).imp_right (fun hn hm =>
          hn (by rw [exprVarIdsL]; exact List.mem_append_left _ hm))),
      scoped_transfer_exprL es E E' hes (fun k hk =>
        (hT k hk).imp_right (fun hn hm =>
          hn (by rw [exprVarIdsL]; exact List.mem_append_right _ hm)))]
    rfl
end

/-- Scoping transfer for statements. -/
theorem scoped_transfer_stmt : ∀ (s : Stmt) (E E' : List Nat),
    ScopedStmt E s = true →
    (∀ k, k ∈ E → k ∈ E' ∨ ¬(k ∈ stmtVarIds s)) → ScopedStmt E' s = true
  | .letStmt v value body, E, E', h, hT => by
    rw [ScopedStmt] at h
    obtain ⟨ha, hb⟩ := by simpa using h
    rw [ScopedStmt]
    rw [scoped_transfer_expr value E E' ha (fun k hk =>
        (hT k hk).imp_right (fun hn hm =>
          hn (by rw [stmtVarIds]; exact List.mem_append_left _ hm))),
      scoped_transfer_stmt body (v.id :: E) (v.id :: E') hb ?_]
    · rfl
    · intro k hk
      cases hk with
      | head => exact Or.inl (List.mem_cons_self _ _)
      | tail _ hk =>
        rcases hT k hk with hk' | hk'
        · exact Or.inl (List.mem_cons_of_mem _ hk')
        · exact Or.inr (fun hm =>
            hk' (by rw [stmtVarIds]; exact List.mem_append_right _ hm))
  | .attrStmt iv key value body, E, E', h, hT => by
    rw [ScopedStmt] at h
    rw [ScopedStmt]
    by_cases hk : key = .thread_extent
    · rw [if_pos hk] at h
      rw [if_pos hk]
      obtain ⟨ha, hb⟩ := by simpa using h
      rw [scoped_transfer_expr value E E' ha (fun k hk' =>
          (hT k hk').imp_right (fun hn hm =>
            hn (by rw [stmtVarIds]; exact List.mem_append_left _ hm))),
        scoped_transfer_stmt body (iv.var.id :: E) (iv.var.id :: E') hb ?_]
      · rfl
      · intro k hk'
        cases hk' with
        | head => exact Or.inl (List.mem_cons_self _ _)
        | tail _ hk' =>
          rcases hT k hk' with h2 | h2
          · exact Or.inl (List.mem_cons_of_mem _ h2)
          · exact Or.inr (fun hm =>
              h2 (by rw [stmtVarIds]; exact List.mem_append_right _ hm))
    · rw [if_neg hk] at h
      rw [if_neg hk]
      obtain ⟨ha, hb⟩ := by simpa using h
      rw [scoped_transfer_expr value E E' ha (fun k hk' =>
          (hT k hk').imp_right (fun hn hm =>
            hn (by rw [stmtVarIds]; exact List.mem_append_left _ hm))),
        scoped_transfer_stmt body E E' hb (fun k hk' =>
          (hT k hk').imp_right (fun hn hm =>
            hn (by rw [stmtVarIds]; exact List.mem_append_right _ hm)))]
      rfl
  | .forStmt lv lo extent body, E, E', h, hT => by
    rw [ScopedStmt] at h
    obtain ⟨⟨hlo, hext⟩, hb⟩ := by simpa using h
    rw [ScopedStmt]
    rw [scoped_transfer_expr lo E E' hlo (fun k hk =>
        (hT k hk).imp_right (fun hn hm =>
          hn (by
            rw [stmtVarIds]
            exact List.mem_append_left _ (List.mem_append_left _ hm)))),
      scoped_transfer_expr extent E E' hext (fun k hk =>
        (hT k hk).imp_right (fun hn hm =>
          hn (by
            rw [stmtVarIds]
            exact List.mem_append_left _ (List.mem_append_right _ hm)))),
      scoped_transfer_stmt body (lv.id :: E) (lv.id :: E') hb ?_]
    · rfl
    · intro k hk
      cases hk with
      | head => exact Or.inl (List.mem_cons_self _ _)
      | tail _ hk =>
        rcases hT k hk with h2 | h2
        · exact Or.inl (List.mem_cons_of_mem _ h2)
        · exact Or.inr (fun hm => h2 (by
            rw [stmtVarIds]
            exact List.mem_append_right _ hm))
  | .allocate bv t extents body, E, E', h, hT => by
    rw [ScopedStmt] at h
    obtain ⟨ha, hb⟩ := by simpa using h
    rw [ScopedStmt]
    rw [scoped_transfer_exprL extents E E' ha (fun k hk =>
        (hT k hk).imp_right (fun hn hm =>
          hn (by rw [stmtVarIds]; exact List.mem_append_left _ hm))),
      scoped_transfer_stmt body (bv.id :: E) (bv.id :: E') hb ?_]
    · rfl
    · intro k hk
      cases hk with
      | head => exact Or.inl (List.mem_cons_self _ _)
      | tail _ hk =>
        rcases hT k hk with h2 | h2
        · exact Or.inl (List.mem_cons_of_mem _ h2)
        · exact Or.inr (fun hm =>
            h2 (by rw [stmtVarIds]; exact List.mem_append_right _ hm))
  | .store bv value index, E, E', h, hT => by
    rw [ScopedStmt] at h
    obtain ⟨⟨hbv, ha⟩, hb⟩ := by simpa using h
    rw [ScopedStmt]
    have hbv' : bv.id ∈ E' := by
      rcases hT bv.id hbv with h2 | h2
      · exact h2
      · exact absurd (by rw [stmtVarIds]; exact List.mem_cons_self _ _) h2
    rw [scoped_transfer_expr value E E' ha (fun k hk =>
        (hT k hk).imp_right (fun hn hm =>
          hn (by
            rw [stmtVarIds]
            exact List.mem_cons_of_mem _ (List.mem_append_left _ hm)))),
      scoped_transfer_expr index E E' hb (fun k hk =>
        (hT k hk).imp_right (fun hn hm =>
          hn (by
            rw [stmtVarIds]
            exact List.mem_cons_of_mem _ (List.mem_append_right _ hm))))]
    simp [hbv']
  | .evaluate e, E, E', h, hT => by
    rw [ScopedStmt] at h
    rw [ScopedStmt]
    exact scoped_transfer_expr e E E' h (fun k hk =>
      (hT k hk).imp_right (fun hn hm => hn (by rw [stmtVarIds]; exact hm)))
  | .block first rest, E, E', h, hT => by
    rw [ScopedStmt] at h
    obtain ⟨ha, hb⟩ := by simpa using h
    rw [ScopedStmt]
    rw [scoped_transfer_stmt first E E' ha (fun k hk =>
        (hT k hk).imp_right (fun hn hm =>
          hn (by rw [stmtVarIds]; exact List.mem_append_left _ hm))),
      scoped_transfer_stmt rest E E' hb (fun k hk =>
        (hT k hk).imp_right (fun hn hm =>
          hn (by rw [stmtVarIds]; exact List.mem_append_right _ hm)))]
    rfl

/-- The analyzer-state invariant: defined and free variables are recorded in
the use-count table, and no variable is both defined and free. -/
def UDInv (st : UDState) : Prop :=
  (∀ k, k ∈ st.def_count → (alGet st.use_count k).isSome = true) ∧
  (∀ v, v ∈ st.undefined → (alGet st.use_count v.id).isSome = true) ∧
  (∀ k, k ∈ st.def_count → ∀ v, v ∈ st.undefined → ¬(v.id = k))

/-- The run-1 postcondition bundle: invariant preservation, exact growth of
non-negative use counts (strict exactly on ids referenced in the output
tree `V`), definitions bounded by the input binders `B`, use-count domain
growth characterized by definitions and frees, every output-referenced id
known to the final state, and monotonicity. -/
def Run1Post (st st' : UDState) (V B : List Nat) : Prop :=
  (UDInv st → UDInv st') ∧
  (∀ k n, alGet st.use_count k = some n → 0 ≤ n →
    ∃ n', alGet st'.use_count k = some n' ∧ n ≤ n' ∧ (k ∈ V → n < n')) ∧
  (∀ k, k ∈ st'.def_count → k ∈ st.def_count ∨ k ∈ B) ∧
  (∀ k, (alGet st'.use_count k).isSome = true →
    (alGet st.use_count k).isSome = true ∨ k ∈ st'.def_count ∨
      k ∈ st'.undefined.map (fun v => v.id)) ∧
  (∀ k, k ∈ V → (alGet st'.use_count k).isSome = true) ∧
  stMono st st'

theorem Run1Post_refl (st : UDState) (B : List Nat) : Run1Post st st [] B :=
  ⟨id,
   fun k n h _ => ⟨n, h, le_refl n, fun hm => absurd hm (List.not_mem_nil k)⟩,
   fun _ h => Or.inl h,
   fun _ h => Or.inl h,
   fun k hm => absurd hm (List.not_mem_nil k),
   stMono_refl st⟩

theorem Run1Post_weaken {st st' : UDState} {V B V' B' : List Nat}
    (h : Run1Post st st' V B) (hV : ∀ k, k ∈ V' → k ∈ V)
    (hB : ∀ k, k ∈ B → k ∈ B') : Run1Post st st' V' B' := by
  obtain ⟨i, c, d, m, f, mo⟩ := h
  refine ⟨i, ?_, ?_, m, ?_, mo⟩
  · intro k n hk h0
    obtain ⟨n', h1, h2, h3⟩ := c k n hk h0
    exact ⟨n', h1, h2, fun hm => h3 (hV k hm)⟩
  · intro k hk
    exact (d k hk).imp_right (hB k)
  · intro k hk
    exact f k (hV k hk)

theorem Run1Post_trans {st st1 st' : UDState} {V1 B1 V2 B2 V B : List Nat}
    (h1 : Run1Post st st1 V1 B1) (h2 : Run1Post st1 st' V2 B2)
    (hV : ∀ k, k ∈ V → k ∈ V1 ∨ k ∈ V2)
    (hB : ∀ k, k ∈ B1 ∨ k ∈ B2 → k ∈ B) :
    Run1Post st st' V B := by
  obtain ⟨i1, c1, d1, m1, f1, mo1⟩ := h1
  obtain ⟨i2, c2, d2, m2, f2, mo2⟩ := h2
  refine ⟨fun hi => i2 (i1 hi), ?_, ?_, ?_, ?_, stMono_trans mo1 mo2⟩
  · intro k n hk h0
    obtain ⟨n1, hk1, hle1, hs1⟩ := c1 k n hk h0
    obtain ⟨n2, hk2, hle2, hs2⟩ := c2 k n1 hk1 (le_trans h0 hle1)
    refine ⟨n2, hk2, le_trans hle1 hle2, ?_⟩
    intro hm
    rcases hV k hm with hm1 | hm2
    · exact lt_of_lt_of_le (hs1 hm1) hle2
    · exact lt_of_le_of_lt hle1 (hs2 hm2)
  · intro k hk
    rcases d2 k hk with hk1 | hk2
    · rcases d1 k hk1 with h | h
      · exact Or.inl h
      · exact Or.inr (hB k (Or.inl h))
    · exact Or.inr (hB k (Or.inr hk2))
  · intro k hk
    rcases m2 k hk with h | h | h
    · rcases m1 k h with h' | h' | h'
      · exact Or.inl h'
      · exact Or.inr (Or.inl (mo2.2.1 k h'))
      · rcases List.mem_map.mp h' with ⟨v, hv, hvk⟩
        exact Or.inr (Or.inr (List.mem_map.mpr ⟨v, mo2.2.2.1 v hv, hvk⟩))
    · exact Or.inr (Or.inl h)
    · exact Or.inr (Or.inr h)
  · intro k hk
    rcases hV k hk with h | h
    · exact mo2.1 k (f1 k h)
    · exact f2 k h

theorem Run1Post_HandleUse (st : UDState) (v : Var) :
    Run1Post st (IRUseDefAnalysis.HandleUse st v) [v.id] [] := by
  cases hn : alGet st.use_count v.id with
  | some n =>
    by_cases h0 : 0 ≤ n
    · refine ⟨?_, ?_, ?_, ?_, ?_, stMono_HandleUse st v⟩ <;>
        simp only [IRUseDefAnalysis.HandleUse, hn, if_pos h0]
      · rintro ⟨i1, i2, i3⟩
        refine ⟨?_, ?_, ?_⟩
        · intro k hk
          rw [alGet_alSet_isSome]
          exact Or.inr (i1 k hk)
        · intro w hw
          rw [alGet_alSet_isSome]
          exact Or.inr (i2 w hw)
        · exact i3
      · intro k m hk hm
        by_cases hkv : k = v.id
        · subst hkv
          rw [hn] at hk
          injection hk with hk
          subst hk
          refine ⟨n + 1, ?_, by omega, fun _ => by omega⟩
          rw [alGet_alSet_self]
        · refine ⟨m, ?_, le_refl m, ?_⟩
          · rw [alGet_alSet_ne _ _ _ _ (fun hh => hkv hh.symm)]
            exact hk
          · intro hmem
            exact absurd (List.mem_singleton.mp hmem) hkv
      · exact fun k hk => Or.inl hk
      · intro k hk
        rw [alGet_alSet_isSome] at hk
        rcases hk with hk | hk
        · subst hk
          rw [hn]
          exact Or.inl rfl
        · exact Or.inl hk
      · intro k hk
        rw [List.mem_singleton.mp hk, alGet_alSet_self]
        rfl
    · refine ⟨?_, ?_, ?_, ?_, ?_, stMono_HandleUse st v⟩ <;>
        simp only [IRUseDefAnalysis.HandleUse, hn, if_neg h0]
      · exact id
      · intro k m hk hm
        refine ⟨m, hk, le_refl m, ?_⟩
        intro hmem
        rw [List.mem_singleton.mp hmem] at hk
        rw [hn] at hk
        injection hk with hk
        omega
      · exact fun k hk => Or.inl hk
      · exact fun k hk => Or.inl hk
      · intro k hk
        rw [List.mem_singleton.mp hk, hn]
        rfl
  | none =>
    refine ⟨?_, ?_, ?_, ?_, ?_, stMono_HandleUse st v⟩ <;>
      simp only [IRUseDefAnalysis.HandleUse, hn]
    · rintro ⟨i1, i2, i3⟩
      refine ⟨?_, ?_, ?_⟩
      · intro k hk
        rw [alGet_alSet_isSome]
        exact Or.inr (i1 k hk)
      · intro w hw
        rcases List.mem_append.mp hw with hw | hw
        · rw [alGet_alSet_isSome]
          exact Or.inr (i2 w hw)
        · rw [List.mem_singleton.mp hw, alGet_alSet_self]
          rfl
      · intro k hk w hw
        rcases List.mem_append.mp hw with hw | hw
        · exact i3 k hk w hw
        · rw [List.mem_singleton.mp hw]
          intro hv
          rw [hv] at hn
          have hip := i1 k hk
          rw [hn] at hip
          simp at hip
    · intro k m hk hm
      by_cases hkv : k = v.id
      · subst hkv
        rw [hn] at hk
        cases hk
      · refine ⟨m, ?_, le_refl m, ?_⟩
        · rw [alGet_alSet_ne _ _ _ _ (fun hh => hkv hh.symm)]
          exact hk
        · intro hmem
          exact absurd (List.mem_singleton.mp hmem) hkv
    · exact fun k hk => Or.inl hk
    · intro k hk
      rw [alGet_alSet_isSome] at hk
      rcases hk with hk | hk
      · subst hk
        refine Or.inr (Or.inr ?_)
        refine List.mem_map.mpr ⟨v, ?_, rfl⟩
        exact List.mem_append_right _ (List.mem_singleton.mpr rfl)
      · exact Or.inl hk
    · intro k hk
      rw [List.mem_singleton.mp hk, alGet_alSet_self]
      rfl

theorem Run1Post_HandleDef (st : UDState) (v : Var) (st' : UDState)
    (h : IRUseDefAnalysis.HandleDef st v = .ok st') :
    Run1Post st st' [] [v.id] := by
  obtain ⟨hd, hu, h3⟩ := IRUseDefAnalysis.HandleDef_ok st v st' h
  subst h3
  refine ⟨?_, ?_, ?_, ?_, ?_, stMono_HandleDef st v _ h⟩
  · rintro ⟨i1, i2, i3⟩
    refine ⟨?_, ?_, ?_⟩
    · intro k hk
      rw [alGet_alSet_isSome]
      cases hk with
      | head => exact Or.inl rfl
      | tail _ hk => exact Or.inr (i1 k hk)
    · intro w hw
      rw [alGet_alSet_isSome]
      exact Or.inr (i2 w hw)
    · intro k hk w hw
      cases hk with
      | head =>
        intro hv
        rw [← hv] at hu
        rw [i2 w hw] at hu
        cases hu
      | tail _ hk => exact i3 k hk w hw
  · intro k m hk hm
    by_cases hkv : k = v.id
    · subst hkv
      rw [hk] at hu
      cases hu
    · refine ⟨m, ?_, le_refl m, ?_⟩
      · rw [alGet_alSet_ne _ _ _ _ (fun hh => hkv hh.symm)]
        exact hk
      · intro hmem
        exact absurd hmem (List.not_mem_nil k)
  · intro k hk
    cases hk with
    | head => exact Or.inr (List.mem_singleton.mpr rfl)
    | tail _ hk => exact Or.inl hk
  · intro k hk
    rw [alGet_alSet_isSome] at hk
    rcases hk with hk | hk
    · subst hk
      exact Or.inr (Or.inl (List.mem_cons_self _ _))
    · exact Or.inl hk
  · intro k hk
    exact absurd hk (List.not_mem_nil k)

mutual
/-- The run-1 mega lemma for expressions: the postcondition bundle relative
to the ids referenced in the output and the binders of the input, plus
scoping preservation. -/
theorem run1_expr : ∀ (e : Expr) (st : UDState) (e' : Expr) (st' : UDState),
    IRUseDefAnalysis.VisitExpr st e = .ok (e', st') →
    Run1Post st st' (exprVarIds e') (exprBinderIds e) ∧
    (∀ E, ScopedExpr E e = true → ScopedExpr E e' = true)
  | .var v, st, e', st', h => by
    rw [IRUseDefAnalysis.VisitExpr] at h
    injection h with h1
    injection h1 with he h2
    subst he
    subst h2
    constructor
    · exact Run1Post_weaken (Run1Post_HandleUse st v) (fun k hk => hk)
        (fun k hk => absurd hk (List.not_mem_nil k))
    · exact fun E hE => hE
  | .intImm t n, st, e', st', h => by
    rw [IRUseDefAnalysis.VisitExpr] at h
    injection h with h1
    injection h1 with he h2
    subst he
    subst h2
    exact ⟨Run1Post_refl st _, fun E hE => hE⟩
  | .stringImm sx, st, e', st', h => by
    rw [IRUseDefAnalysis.VisitExpr] at h
    injection h with h1
    injection h1 with he h2
    subst he
    subst h2
    exact ⟨Run1Post_refl st _, fun E hE => hE⟩
  | .add a b, st, e', st', h => by
    rw [IRUseDefAnalysis.VisitExpr] at h
    cases ha : IRUseDefAnalysis.VisitExpr st a with
    | error er => rw [ha] at h; exact Except.noConfusion h
    | ok pa =>
      obtain ⟨a', st1⟩ := pa
      simp only [ha] at h
      cases hb : IRUseDefAnalysis.VisitExpr st1 b with
      | error er => rw [hb] at h; exact Except.noConfusion h
      | ok pb =>
        obtain ⟨b', st2⟩ := pb
        rw [hb] at h
        injection h with h1
        injection h1 with he h2
        subst he
        subst h2
        obtain ⟨pa1, sa1⟩ := run1_expr a st a' st1 ha
        obtain ⟨pb1, sb1⟩ := run1_expr b st1 b' st2 hb
        constructor
        · refine Run1Post_trans pa1 pb1 ?_ ?_
          · intro k hk
            exact List.mem_append.mp hk
          · intro k hk
            rcases hk with hk | hk
            · exact List.mem_append_left _ hk
            · exact List.mem_append_right _ hk
        · intro E hE
          rw [ScopedExpr] at hE
          obtain ⟨hEa, hEb⟩ := by simpa using hE
          rw [ScopedExpr, sa1 E hEa, sb1 E hEb]
          rfl
  | .letE v value body, st, e', st', h => by
    rw [IRUseDefAnalysis.VisitExpr] at h
    cases hd : IRUseDefAnalysis.HandleDef st v with
    | error er => rw [hd] at h; exact Except.noConfusion h
    | ok st1 =>
      simp only [hd] at h
      cases hb : IRUseDefAnalysis.VisitExpr st1 body with
      | error er => rw [hb] at h; exact Except.noConfusion h
      | ok pb =>
        obtain ⟨body', st2⟩ := pb
        simp only [hb] at h
        have pd := Run1Post_HandleDef st v st1 hd
        obtain ⟨pb1, sb1⟩ := run1_expr body st1 body' st2 hb
        by_cases hc : alGet st2.use_count v.id = some 0 ∧
            ¬(HasSideEffect value = true)
        · rw [if_pos hc] at h
          injection h with h1
          injection h1 with he h2
          subst he
          subst h2
          have hv0 : alGet st1.use_count v.id = some 0 := by
            obtain ⟨_, _, h3⟩ := IRUseDefAnalysis.HandleDef_ok st v st1 hd
            rw [h3]
            exact alGet_alSet_self _ _ _
          have hnotin : ¬(v.id ∈ exprVarIds body') := by
            obtain ⟨n', hn1, hn2, hn3⟩ := pb1.2.1 v.id 0 hv0 (le_refl 0)
            rw [hc.1] at hn1
            injection hn1 with hn1
            intro hmem
            have := hn3 hmem
            omega
          constructor
          · refine Run1Post_trans pd pb1 (fun k hk => Or.inr hk) ?_
            intro k hk
            rcases hk with hk | hk
            · rw [List.mem_singleton.mp hk]
              exact List.mem_cons_self _ _
            · exact List.mem_cons_of_mem _ (List.mem_append_right _ hk)
          · intro E hE
            rw [ScopedExpr] at hE
            obtain ⟨hEv, hEb⟩ := by simpa using hE
            refine scoped_transfer_expr body' (v.id :: E) E
              (sb1 (v.id :: E) hEb) ?_
            intro k hk
            cases hk with
            | head => exact Or.inr hnotin
            | tail _ hk => exact Or.inl hk
        · rw [if_neg hc] at h
          cases hv : IRUseDefAnalysis.VisitExpr st2 value with
          | error er => rw [hv] at h; exact Except.noConfusion h
          | ok pv =>
            obtain ⟨value', st3⟩ := pv
            rw [hv] at h
            injection h with h1
            injection h1 with he h2
            subst he
            subst h2
            obtain ⟨pv1, sv1⟩ := run1_expr value st2 value' st3 hv
            constructor
            · have pmid : Run1Post st1 st3
                  (exprVarIds value' ++ exprVarIds body')
                  (exprBinderIds value ++ exprBinderIds body) :=
                Run1Post_trans pb1 pv1
                  (fun k hk => (List.mem_append.mp hk).symm)
                  (fun k hk => hk.symm.elim (List.mem_append_left _)
                    (List.mem_append_right _))
              refine Run1Post_trans pd pmid (fun k hk => Or.inr hk) ?_
              intro k hk
              rcases hk with hk | hk
              · rw [List.mem_singleton.mp hk]
                exact List.mem_cons_self _ _
              · exact List.mem_cons_of_mem _ hk
            · intro E hE
              rw [ScopedExpr] at hE
              obtain ⟨hEv, hEb⟩ := by simpa using hE
              rw [ScopedExpr, sv1 E hEv, sb1 (v.id :: E) hEb]
              rfl
  | .load t bv index, st, e', st', h => by
    rw [IRUseDefAnalysis.VisitExpr] at h
    cases hi : IRUseDefAnalysis.VisitExpr
        (IRUseDefAnalysis.HandleUse st bv) index with
    | error er => rw [hi] at h; exact Except.noConfusion h
    | ok pi =>
      obtain ⟨index', st2⟩ := pi
      rw [hi] at h
      injection h with h1
      injection h1 with he h2
      subst he
      subst h2
      obtain ⟨pi1, si1⟩ := run1_expr index _ index' st2 hi
      constructor
      · refine Run1Post_trans (Run1Post_HandleUse st bv) pi1 ?_ ?_
        · intro k hk
          cases hk with
          | head => exact Or.inl (List.mem_singleton.mpr rfl)
          | tail _ hk => exact Or.inr hk
        · intro k hk
          rcases hk with hk | hk
          · exact absurd hk (List.not_mem_nil k)
          · exact hk
      · intro E hE
        rw [ScopedExpr] at hE
        obtain ⟨hbv, hidx⟩ := by simpa using hE
        rw [ScopedExpr, si1 E hidx]
        simp [hbv]
  | .call t name args ct func vi, st, e', st', h => by
    rw [IRUseDefAnalysis.VisitExpr] at h
    cases ha : IRUseDefAnalysis.VisitExprList st args with
    | error er => rw [ha] at h; exact Except.noConfusion h
    | ok pa =>
      obtain ⟨args', st1⟩ := pa
      rw [ha] at h
      injection h with h1
      injection h1 with he h2
      subst he
      subst h2
      obtain ⟨pa1, sa1⟩ := run1_exprL args st args' st1 ha
      exact ⟨pa1, fun E hE => sa1 E hE⟩
/-- The run-1 mega lemma for expression lists. -/
theorem run1_exprL : ∀ (es : List Expr) (st : UDState) (es' : List Expr)
    (st' : UDState),
    IRUseDefAnalysis.VisitExprList st es = .ok (es', st') →
    Run1Post st st' (exprVarIdsL es') (exprBinderIdsL es) ∧
    (∀ E, ScopedExprL E es = true → ScopedExprL E es' = true)
  | [], st, es', st', h => by
    rw [IRUseDefAnalysis.VisitExprList] at h
    injection h with h1
    injection h1 with he h2
    subst he
    subst h2
    exact ⟨Run1Post_refl st _, fun E hE => hE⟩
  | e :: es, st, es', st', h => by
    rw [IRUseDefAnalysis.VisitExprList] at h
    cases he : IRUseDefAnalysis.VisitExpr st e with
    | error er => rw [he] at h; exact Except.noConfusion h
    | ok pe =>
      obtain ⟨e1, st1⟩ := pe
      simp only [he] at h
      cases hes : IRUseDefAnalysis.VisitExprList st1 es with
      | error er => rw [hes] at h; exact Except.noConfusion h
      | ok pes =>
        obtain ⟨es1, st2⟩ := pes
        rw [hes] at h
        injection h with h1
        injection h1 with hee h2
        subst hee
        subst h2
        obtain ⟨pe1, se1⟩ := run1_expr e st e1 st1 he
        obtain ⟨pes1, ses1⟩ := run1_exprL es st1 es1 st2 hes
        constructor
        · refine Run1Post_trans pe1 pes1 ?_ ?_
          · intro k hk
            exact List.mem_append.mp hk
          · intro k hk
            rcases hk with hk | hk
            · exact List.mem_append_left _ hk
            · exact List.mem_append_right _ hk
        · intro E hE
          rw [ScopedExprL] at hE
          obtain ⟨hEa, hEb⟩ := by simpa using hE
          rw [ScopedExprL, se1 E hEa, ses1 E hEb]
          rfl
end

/-- The run-1 mega lemma for statements: postcondition bundle, scoping
preservation, and preservation of closed extents. -/
theorem run1_stmt : ∀ (s : Stmt) (st : UDState) (s' : Stmt) (st' : UDState),
    IRUseDefAnalysis.VisitStmt st s = .ok (s', st') →
    extentsClosed s = true →
    Run1Post st st' (stmtVarIds s') (stmtBinderIds s) ∧
    (∀ E, ScopedStmt E s = true → ScopedStmt E s' = true) ∧
    extentsClosed s' = true
  | .attrStmt iv key value body, st, s', st', h, hext => by
    rw [IRUseDefAnalysis.VisitStmt] at h
    by_cases hk : key = .thread_extent
    · subst hk
      rw [if_pos rfl] at h
      by_cases ht : iv.thread_tag = ""
      · rw [if_pos ht] at h
        exact Except.noConfusion h
      · rw [if_neg ht] at h
        rw [extentsClosed] at hext
        obtain ⟨hcv, hcb⟩ := by simpa using hext
        have tail : ∀ stx : UDState, Run1Post st stx [] [iv.var.id] →
            (match (if stx.visit_thread_extent = true
                    then IRUseDefAnalysis.VisitExpr stx value
                    else Except.ok (value, stx)) with
             | .error e => Except.error e
             | .ok (value', st2) =>
               match IRUseDefAnalysis.VisitStmt st2 body with
               | .error e => Except.error e
               | .ok (body', st3) =>
                 Except.ok (Stmt.attrStmt iv AttrKey.thread_extent
                   value' body', st3)) = .ok (s', st') →
            Run1Post st st' (stmtVarIds s')
              (stmtBinderIds (.attrStmt iv .thread_extent value body)) ∧
            (∀ E, ScopedStmt E (.attrStmt iv .thread_extent value body) =
                true → ScopedStmt E s' = true) ∧
            extentsClosed s' = true := by
          intro stx px hh
          have hif : (if stx.visit_thread_extent = true
              then IRUseDefAnalysis.VisitExpr stx value
              else Except.ok (value, stx)) = Except.ok (value, stx) := by
            by_cases hvb : stx.visit_thread_extent = true
            · rw [if_pos hvb]
              exact closed_visitExpr value stx hcv
            · rw [if_neg hvb]
          simp only [hif] at hh
          cases hbb : IRUseDefAnalysis.VisitStmt stx body with
          | error er => rw [hbb] at hh; exact Except.noConfusion hh
          | ok pb =>
            obtain ⟨body', st3⟩ := pb
            rw [hbb] at hh
            injection hh with h1
            injection h1 with hes h2
            subst hes
            subst h2
            obtain ⟨pb1, sb1, eb1⟩ := run1_stmt body stx body' st3 hbb hcb
            refine ⟨?_, ?_, ?_⟩
            · refine Run1Post_trans px pb1 ?_ ?_
              · intro k hk2
                rcases List.mem_append.mp hk2 with hk2 | hk2
                · rw [closed_varIds value hcv] at hk2
                  exact absurd hk2 (List.not_mem_nil k)
                · exact Or.inr hk2
              · intro k hk2
                rw [stmtBinderIds]
                rw [if_pos rfl]
                rcases hk2 with hk2 | hk2
                · exact List.mem_append_left _ (List.mem_append_left _ hk2)
                · exact List.mem_append_right _ hk2
            · intro E hE
              rw [ScopedStmt] at hE
              rw [if_pos rfl] at hE
              obtain ⟨hEv, hEb⟩ := by simpa using hE
              rw [ScopedStmt]
              rw [if_pos rfl, hEv, sb1 _ hEb]
              rfl
            · rw [extentsClosed]
              simp [hcv, eb1]
        by_cases hs : (alGet st.use_count iv.var.id).isSome = true
        · rw [if_pos hs] at h
          exact tail st (Run1Post_refl st _) h
        · rw [if_neg hs] at h
          cases hd : IRUseDefAnalysis.HandleDef st iv.var with
          | error er => rw [hd] at h; exact Except.noConfusion h
          | ok st1 =>
            simp only [hd] at h
            exact tail { st1 with
                thread_axis := st1.thread_axis ++ [iv],
                thread_extent := st1.thread_extent ++ [value] }
              (Run1Post_HandleDef st iv.var st1 hd) h
    · rw [if_neg hk] at h
      rw [extentsClosed] at hext
      obtain ⟨hcv, hcb⟩ : (if key = AttrKey.thread_extent
          then closedExpr value else true) = true ∧
          extentsClosed body = true := by simpa using hext
      cases hv : IRUseDefAnalysis.VisitExpr st value with
      | error er => rw [hv] at h; exact Except.noConfusion h
      | ok pv =>
        obtain ⟨value', st1⟩ := pv
        simp only [hv] at h
        cases hb : IRUseDefAnalysis.VisitStmt st1 body with
        | error er => rw [hb] at h; exact Except.noConfusion h
        | ok pb =>
          obtain ⟨body', st2⟩ := pb
          rw [hb] at h
          injection h with h1
          injection h1 with hes h2
          subst hes
          subst h2
          obtain ⟨pv1, sv1⟩ := run1_expr value st value' st1 hv
          obtain ⟨pb1, sb1, eb1⟩ := run1_stmt body st1 body' st2 hb hcb
          refine ⟨?_, ?_, ?_⟩
          · refine Run1Post_trans pv1 pb1 ?_ ?_
            · intro k hk2
              exact List.mem_append.mp hk2
            · intro k hk2
              rw [stmtBinderIds]
              rw [if_neg hk]
              rcases hk2 with hk2 | hk2
              · exact List.mem_append_left _ (List.mem_append_right _ hk2)
              · exact List.mem_append_right _ hk2
          · intro E hE
            rw [ScopedStmt] at hE
            rw [if_neg hk] at hE
            obtain ⟨hEv, hEb⟩ := by simpa using hE
            rw [ScopedStmt]
            rw [if_neg hk, sv1 E hEv, sb1 E hEb]
            rfl
          · rw [extentsClosed]
            simp [eb1]
            exact Or.inl hk
  | .letStmt v value body, st, s', st', h, hext => by
    rw [IRUseDefAnalysis.VisitStmt] at h
    rw [extentsClosed] at hext
    cases hd : IRUseDefAnalysis.HandleDef st v with
    | error er => rw [hd] at h; exact Except.noConfusion h
    | ok st1 =>
      simp only [hd] at h
      cases hb : IRUseDefAnalysis.VisitStmt st1 body with
      | error er => rw [hb] at h; exact Except.noConfusion h
      | ok pb =>
        obtain ⟨body', st2⟩ := pb
        simp only [hb] at h
        have pd := Run1Post_HandleDef st v st1 hd
        obtain ⟨pb1, sb1, eb1⟩ := run1_stmt body st1 body' st2 hb hext
        by_cases hc : alGet st2.use_count v.id = some 0 ∧
            ¬(HasSideEffect value = true)
        · rw [if_pos hc] at h
          injection h with h1
          injection h1 with hes h2
          subst hes
          subst h2
          have hv0 : alGet st1.use_count v.id = some 0 := by
            obtain ⟨_, _, h3⟩ := IRUseDefAnalysis.HandleDef_ok st v st1 hd
            rw [h3]
            exact alGet_alSet_self _ _ _
          have hnotin : ¬(v.id ∈ stmtVarIds body') := by
            obtain ⟨n', hn1, hn2, hn3⟩ := pb1.2.1 v.id 0 hv0 (le_refl 0)
            rw [hc.1] at hn1
            injection hn1 with hn1
            intro hmem
            have := hn3 hmem
            omega
          refine ⟨?_, ?_, eb1⟩
          · refine Run1Post_trans pd pb1 (fun k hk => Or.inr hk) ?_
            intro k hk
            rcases hk with hk | hk
            · rw [List.mem_singleton.mp hk]
              exact List.mem_cons_self _ _
            · exact List.mem_cons_of_mem _ (List.mem_append_right _ hk)
          · intro E hE
            rw [ScopedStmt] at hE
            obtain ⟨hEv, hEb⟩ := by simpa using hE
            refine scoped_transfer_stmt body' (v.id :: E) E
              (sb1 (v.id :: E) hEb) ?_
            intro k hk
            cases hk with
            | head => exact Or.inr hnotin
            | tail _ hk => exact Or.inl hk
        · rw [if_neg hc] at h
          cases hv : IRUseDefAnalysis.VisitExpr st2 value with
          | error er => rw [hv] at h; exact Except.noConfusion h
          | ok pv =>
            obtain ⟨value', st3⟩ := pv
            rw [hv] at h
            injection h with h1
            injection h1 with hes h2
            subst hes
            subst h2
            obtain ⟨pv1, sv1⟩ := run1_expr value st2 value' st3 hv
            refine ⟨?_, ?_, ?_⟩
            · have pmid : Run1Post st1 st3
                  (exprVarIds value' ++ stmtVarIds body')
                  (exprBinderIds value ++ stmtBinderIds body) :=
                Run1Post_trans pb1 pv1
                  (fun k hk => (List.mem_append.mp hk).symm)
                  (fun k hk => hk.symm.elim (List.mem_append_left _)
                    (List.mem_append_right _))
              refine Run1Post_trans pd pmid (fun k hk => Or.inr hk) ?_
              intro k hk
              rcases hk with hk | hk
              · rw [List.mem_singleton.mp hk]
                exact List.mem_cons_self _ _
              · exact List.mem_cons_of_mem _ hk
            · intro E hE
              rw [ScopedStmt] at hE
              obtain ⟨hEv, hEb⟩ := by simpa using hE
              rw [ScopedStmt, sv1 E hEv, sb1 (v.id :: E) hEb]
              rfl
            · exact eb1
  | .forStmt lv lo extent body, st, s', st', h, hext => by
    rw [IRUseDefAnalysis.VisitStmt] at h
    rw [extentsClosed] at hext
    cases hd : IRUseDefAnalysis.HandleDef st lv with
    | error er => rw [hd] at h; exact Except.noConfusion h
    | ok st1 =>
      simp only [hd] at h
      cases hlo : IRUseDefAnalysis.VisitExpr st1 lo with
      | error er => rw [hlo] at h; exact Except.noConfusion h
      | ok plo =>
        obtain ⟨lo', st2⟩ := plo
        simp only [hlo] at h
        cases hex : IRUseDefAnalysis.VisitExpr st2 extent with
        | error er => rw [hex] at h; exact Except.noConfusion h
        | ok pex =>
          obtain ⟨extent', st3⟩ := pex
          simp only [hex] at h
          cases hb : IRUseDefAnalysis.VisitStmt st3 body with
          | error er => rw [hb] at h; exact Except.noConfusion h
          | ok pb =>
            obtain ⟨body', st4⟩ := pb
            rw [hb] at h
            injection h with h1
            injection h1 with hes h2
            subst hes
            subst h2
            have pd := Run1Post_HandleDef st lv st1 hd
            obtain ⟨plo1, slo1⟩ := run1_expr lo st1 lo' st2 hlo
            obtain ⟨pex1, sex1⟩ := run1_expr extent st2 extent' st3 hex
            obtain ⟨pb1, sb1, eb1⟩ := run1_stmt body st3 body' st4 hb hext
            refine ⟨?_, ?_, eb1⟩
            · have pmid1 : Run1Post st1 st3
                  (exprVarIds lo' ++ exprVarIds extent')
                  (exprBinderIds lo ++ exprBinderIds extent) :=
                Run1Post_trans plo1 pex1
                  (fun k hk => List.mem_append.mp hk)
                  (fun k hk => hk.elim (List.mem_append_left _)
                    (List.mem_append_right _))
              have pmid2 : Run1Post st1 st4
                  ((exprVarIds lo' ++ exprVarIds extent') ++
                    stmtVarIds body')
                  ((exprBinderIds lo ++ exprBinderIds extent) ++
                    stmtBinderIds body) :=
                Run1Post_trans pmid1 pb1
                  (fun k hk => List.mem_append.mp hk)
                  (fun k hk => hk.elim (List.mem_append_left _)
                    (List.mem_append_right _))
              refine Run1Post_trans pd pmid2 (fun k hk => Or.inr hk) ?_
              intro k hk
              rcases hk with hk | hk
              · rw [List.mem_singleton.mp hk]
                exact List.mem_cons_self _ _
              · exact List.mem_cons_of_mem _ hk
            · intro E hE
              rw [ScopedStmt] at hE
              obtain ⟨⟨hElo, hEex⟩, hEb⟩ := by simpa using hE
              rw [ScopedStmt, slo1 E hElo, sex1 E hEex, sb1 (lv.id :: E) hEb]
              rfl
  | .allocate bv t extents body, st, s', st', h, hext => by
    rw [IRUseDefAnalysis.VisitStmt] at h
    rw [extentsClosed] at hext
    cases hd : IRUseDefAnalysis.HandleDef st bv with
    | error er => rw [hd] at h; exact Except.noConfusion h
    | ok st1 =>
      simp only [hd] at h
      cases hex : IRUseDefAnalysis.VisitExprList st1 extents with
      | error er => rw [hex] at h; exact Except.noConfusion h
      | ok pex =>
        obtain ⟨extents', st2⟩ := pex
        simp only [hex] at h
        cases hb : IRUseDefAnalysis.VisitStmt st2 body with
        | error er => rw [hb] at h; exact Except.noConfusion h
        | ok pb =>
          obtain ⟨body', st3⟩ := pb
          rw [hb] at h
          injection h with h1
          injection h1 with hes h2
          subst hes
          subst h2
          have pd := Run1Post_HandleDef st bv st1 hd
          obtain ⟨pex1, sex1⟩ := run1_exprL extents st1 extents' st2 hex
          obtain ⟨pb1, sb1, eb1⟩ := run1_stmt body st2 body' st3 hb hext
          refine ⟨?_, ?_, eb1⟩
          · have pmid : Run1Post st1 st3
                (exprVarIdsL extents' ++ stmtVarIds body')
                (exprBinderIdsL extents ++ stmtBinderIds body) :=
              Run1Post_trans pex1 pb1
                (fun k hk => List.mem_append.mp hk)
                (fun k hk => hk.elim (List.mem_append_left _)
                  (List.mem_append_right _))
            refine Run1Post_trans pd pmid (fun k hk => Or.inr hk) ?_
            intro k hk
            rcases hk with hk | hk
            · rw [List.mem_singleton.mp hk]
              exact List.mem_cons_self _ _
            · exact List.mem_cons_of_mem _ hk
          · intro E hE
            rw [ScopedStmt] at hE
            obtain ⟨hEex, hEb⟩ := by simpa using hE
            rw [ScopedStmt, sex1 E hEex, sb1 (bv.id :: E) hEb]
            rfl
  | .store bv value index, st, s', st', h, hext => by
    rw [IRUseDefAnalysis.VisitStmt] at h
    cases hv : IRUseDefAnalysis.VisitExpr
        (IRUseDefAnalysis.HandleUse st bv) value with
    | error er => rw [hv] at h; exact Except.noConfusion h
    | ok pv =>
      obtain ⟨value', st2⟩ := pv
      simp only [hv] at h
      cases hi : IRUseDefAnalysis.VisitExpr st2 index with
      | error er => rw [hi] at h; exact Except.noConfusion h
      | ok pi =>
        obtain ⟨index', st3⟩ := pi
        rw [hi] at h
        injection h with h1
        injection h1 with hes h2
        subst hes
        subst h2
        obtain ⟨pv1, sv1⟩ := run1_expr value _ value' st2 hv
        obtain ⟨pi1, si1⟩ := run1_expr index st2 index' st3 hi
        refine ⟨?_, ?_, rfl⟩
        · have pmid : Run1Post (IRUseDefAnalysis.HandleUse st bv) st3
              (exprVarIds value' ++ exprVarIds index')
              (exprBinderIds value ++ exprBinderIds index) :=
            Run1Post_trans pv1 pi1
              (fun k hk => List.mem_append.mp hk)
              (fun k hk => hk.elim (List.mem_append_left _)
                (List.mem_append_right _))
          refine Run1Post_trans (Run1Post_HandleUse st bv) pmid ?_ ?_
          · intro k hk
            cases hk with
            | head => exact Or.inl (List.mem_singleton.mpr rfl)
            | tail _ hk => exact Or.inr hk
          · intro k hk
            rcases hk with hk | hk
            · exact absurd hk (List.not_mem_nil k)
            · exact hk
        · intro E hE
          rw [ScopedStmt] at hE
          obtain ⟨⟨hbv, hEv⟩, hEi⟩ := by simpa using hE
          rw [ScopedStmt, sv1 E hEv, si1 E hEi]
          simp [hbv]
  | .evaluate e, st, s', st', h, hext => by
    rw [IRUseDefAnalysis.VisitStmt] at h
    cases he : IRUseDefAnalysis.VisitExpr st e with
    | error er => rw [he] at h; exact Except.noConfusion h
    | ok pe =>
      obtain ⟨e1, st1⟩ := pe
      rw [he] at h
      injection h with h1
      injection h1 with hes h2
      subst hes
      subst h2
      obtain ⟨pe1, se1⟩ := run1_expr e st e1 st1 he
      exact ⟨pe1, fun E hE => se1 E hE, rfl⟩
  | .block first rest, st, s', st', h, hext => by
    rw [IRUseDefAnalysis.VisitStmt] at h
    rw [extentsClosed] at hext
    obtain ⟨hef, her⟩ := by simpa using hext
    cases ha : IRUseDefAnalysis.VisitStmt st first with
    | error er => rw [ha] at h; exact Except.noConfusion h
    | ok pa =>
      obtain ⟨first', st1⟩ := pa
      simp only [ha] at h
      cases hb : IRUseDefAnalysis.VisitStmt st1 rest with
      | error er => rw [hb] at h; exact Except.noConfusion h
      | ok pb =>
        obtain ⟨rest', st2⟩ := pb
        rw [hb] at h
        injection h with h1
        injection h1 with hes h2
        subst hes
        subst h2
        obtain ⟨pa1, sa1, ea1⟩ := run1_stmt first st first' st1 ha hef
        obtain ⟨pb1, sb1, eb1⟩ := run1_stmt rest st1 rest' st2 hb her
        refine ⟨?_, ?_, ?_⟩
        · refine Run1Post_trans pa1 pb1 ?_ ?_
          · intro k hk
            exact List.mem_append.mp hk
          · intro k hk
            exact hk.elim (List.mem_append_left _) (List.mem_append_right _)
        · intro E hE
          rw [ScopedStmt] at hE
          obtain ⟨hEa, hEb⟩ := by simpa using hE
          rw [ScopedStmt, sa1 E hEa, sb1 E hEb]
          rfl
        · rw [extentsClosed]
          simp [ea1, eb1]

/-- Characterization of the `UndefinedVars` seeding fold: every seeded
argument id maps to count 0, everything else falls through. -/
theorem alGet_seed (args : List Var) (ac : List (Nat × Int)) (k : Nat) :
    alGet (args.foldl (fun ac a => alSet ac a.id 0) ac) k =
      if k ∈ args.map (fun v => v.id) then some 0 else alGet ac k := by
  induction args generalizing ac with
  | nil => simp
  | cons a as ih =>
    rw [List.foldl_cons, ih]
    by_cases has : k ∈ as.map (fun v => v.id)
    · rw [if_pos has, if_pos (by simp [has])]
    · rw [if_neg has]
      by_cases hak : k = a.id
      · subst hak
        rw [if_pos (by simp), alGet_alSet_self]
      · rw [alGet_alSet_ne _ _ _ _ (fun hh => hak hh.symm),
          if_neg (by simp [hak, has])]

/-- The joint invariant between the splitter's analyzer run (state `st1`)
and the seeded `UndefinedVars` re-run (state `st2`), relative to the ids
`U` of the first run's free variables: every id the re-run knows is known
to the first run or seeded, the re-run's definitions are definitions of the
first run, all re-run counts are non-negative, re-run definitions are
recorded in its table, and the first run's table is explained by its
definitions and frees. -/
def Rel (st1 st2 : UDState) (U : List Nat) : Prop :=
  (∀ k, (alGet st2.use_count k).isSome = true →
    (alGet st1.use_count k).isSome = true ∨ k ∈ U) ∧
  (∀ k, k ∈ st2.def_count → k ∈ st1.def_count) ∧
  (∀ k n, alGet st2.use_count k = some n → 0 ≤ n) ∧
  (∀ k, k ∈ st2.def_count → (alGet st2.use_count k).isSome = true) ∧
  (∀ k, (alGet st1.use_count k).isSome = true →
    k ∈ st1.def_count ∨ k ∈ st1.undefined.map (fun v => v.id))

/-- Advancing the first run preserves the joint invariant. -/
theorem Rel_step1 {st1 st1' st2 : UDState} {U V B : List Nat}
    (hr : Rel st1 st2 U) (hp : Run1Post st1 st1' V B) : Rel st1' st2 U := by
  obtain ⟨r1, r2, r3, r4, r5⟩ := hr
  have hmo := hp.2.2.2.2.2
  refine ⟨?_, ?_, r3, r4, ?_⟩
  · intro k hk
    exact (r1 k hk).imp_left (hmo.1 k)
  · intro k hk
    exact hmo.2.1 k (r2 k hk)
  · intro k hk
    rcases hp.2.2.2.1 k hk with h | h | h
    · rcases r5 k h with h' | h'
      · exact Or.inl (hmo.2.1 k h')
      · rcases List.mem_map.mp h' with ⟨v, hv, hvk⟩
        exact Or.inr (List.mem_map.mpr ⟨v, hmo.2.2.1 v hv, hvk⟩)
    · exact Or.inl h
    · exact Or.inr h

/-- `HandleUse` on a variable present in the table keeps all counts
non-negative. -/
theorem NN_HandleUse (st : UDState) (v : Var)
    (h : (alGet st.use_count v.id).isSome = true)
    (hnn : ∀ k n, alGet st.use_count k = some n → 0 ≤ n) :
    ∀ k n, alGet (IRUseDefAnalysis.HandleUse st v).use_count k = some n →
      0 ≤ n := by
  cases hm : alGet st.use_count v.id with
  | none => rw [hm] at h; cases h
  | some m =>
    have h0 : 0 ≤ m := hnn v.id m hm
    intro k n hk
    simp only [IRUseDefAnalysis.HandleUse, hm, if_pos h0] at hk
    by_cases hkv : k = v.id
    · subst hkv
      rw [alGet_alSet_self] at hk
      injection hk with hk
      omega
    · rw [alGet_alSet_ne _ _ _ _ (fun hh => hkv hh.symm)] at hk
      exact hnn k n hk

/-- A `HandleUse` of a variable the re-run knows preserves the joint
invariant. -/
theorem Rel_HandleUse_known {st1 st2 : UDState} {U : List Nat}
    (hr : Rel st1 st2 U) (v : Var)
    (h : (alGet st2.use_count v.id).isSome = true) :
    Rel st1 (IRUseDefAnalysis.HandleUse st2 v) U := by
  obtain ⟨hu, hiff, hdef, _, _, _⟩ := IRUseDefAnalysis.HandleUse_known st2 v h
  obtain ⟨r1, r2, r3, r4, r5⟩ := hr
  refine ⟨?_, ?_, NN_HandleUse st2 v h r3, ?_, r5⟩
  · intro k hk
    exact r1 k ((hiff k).mp hk)
  · intro k hk
    rw [hdef] at hk
    exact r2 k hk
  · intro k hk
    rw [hdef] at hk
    exact (hiff k).mpr (r4 k hk)

/-- Paired successful `HandleDef`s on the same variable preserve the joint
invariant. -/
theorem Rel_HandleDef {st1 st1a st2 st2a : UDState} {U : List Nat} {v : Var}
    (hr : Rel st1 st2 U)
    (h1 : IRUseDefAnalysis.HandleDef st1 v = .ok st1a)
    (h2 : IRUseDefAnalysis.HandleDef st2 v = .ok st2a) :
    Rel st1a st2a U := by
  obtain ⟨hd1, hu1, he1⟩ := IRUseDefAnalysis.HandleDef_ok st1 v st1a h1
  obtain ⟨hd2, hu2, he2⟩ := IRUseDefAnalysis.HandleDef_ok st2 v st2a h2
  subst he1
  subst he2
  obtain ⟨r1, r2, r3, r4, r5⟩ := hr
  refine ⟨?_, ?_, ?_, ?_, ?_⟩
  · intro k hk
    rw [alGet_alSet_isSome] at hk
    rcases hk with hk | hk
    · subst hk
      refine Or.inl ?_
      rw [alGet_alSet_self]
      rfl
    · rcases r1 k hk with h | h
      · refine Or.inl ?_
        rw [alGet_alSet_isSome]
        exact Or.inr h
      · exact Or.inr h
  · intro k hk
    cases hk with
    | head => exact List.mem_cons_self _ _
    | tail _ hk => exact List.mem_cons_of_mem _ (r2 k hk)
  · intro k n hk
    by_cases hkv : k = v.id
    · subst hkv
      rw [alGet_alSet_self] at hk
      injection hk with hk
      omega
    · rw [alGet_alSet_ne _ _ _ _ (fun hh => hkv hh.symm)] at hk
      exact r3 k n hk
  · intro k hk
    cases hk with
    | head =>
      rw [alGet_alSet_self]
      rfl
    | tail _ hk =>
      rw [alGet_alSet_isSome]
      exact Or.inr (r4 k hk)
  · intro k hk
    rw [alGet_alSet_isSome] at hk
    rcases hk with hk | hk
    · subst hk
      exact Or.inl (List.mem_cons_self _ _)
    · rcases r5 k hk with h | h
      · exact Or.inl (List.mem_cons_of_mem _ h)
      · exact Or.inr h

/-- A definition the first run handles successfully is also fresh for the
re-run, provided the defined id is not seeded. -/
theorem run2_HandleDef_ok {st1 st1a st2 : UDState} {U : List Nat} {v : Var}
    (hr : Rel st1 st2 U)
    (h1 : IRUseDefAnalysis.HandleDef st1 v = .ok st1a)
    (hFv : ¬(v.id ∈ U)) :
    ∃ st2a, IRUseDefAnalysis.HandleDef st2 v = .ok st2a := by
  obtain ⟨hd1, hu1, _⟩ := IRUseDefAnalysis.HandleDef_ok st1 v st1a h1
  refine ⟨_, IRUseDefAnalysis.HandleDef_fresh st2 v ?_ ?_⟩
  · intro hin
    exact hd1 (hr.2.1 _ hin)
  · cases hs : (alGet st2.use_count v.id).isSome
    · rfl
    · rcases hr.1 _ hs with h | h
      · rw [hu1] at h
        cases h
      · exact absurd h hFv

mutual
/-- The two-run simulation, expression side: when the first analyzer run
succeeds and its output is well-scoped under ids known to the second run's
table (with the free ids `U` seeded), the second run on the output tree
succeeds without discovering any free variable, and the joint invariant is
preserved. -/
theorem run2_expr : ∀ (e : Expr) (st1 : UDState) (e' : Expr)
    (st1' : UDState),
    IRUseDefAnalysis.VisitExpr st1 e = .ok (e', st1') →
    ∀ (U E : List Nat) (st2 : UDState),
    Rel st1 st2 U →
    (∀ k, k ∈ st1'.def_count → ¬(k ∈ U)) →
    (∀ v, v ∈ st1'.undefined → v.id ∈ U) →
    (∀ k, k ∈ E → (alGet st2.use_count k).isSome = true) →
    (∀ k, k ∈ U → k ∈ E) →
    ScopedExpr E e' = true →
    ∃ e2 st2', IRUseDefAnalysis.VisitExpr st2 e' = .ok (e2, st2') ∧
      st2'.undefined = st2.undefined ∧ Rel st1' st2' U
  | .var v, st1, e', st1', h => by
    intro U E st2 hr HF HU2 SC HUE HS
    rw [IRUseDefAnalysis.VisitExpr] at h
    injection h with h1
    injection h1 with he hst
    subst hst
    subst he
    rw [ScopedExpr] at HS
    have hv : v.id ∈ E := of_decide_eq_true HS
    have pres : (alGet st2.use_count v.id).isSome = true := SC v.id hv
    refine ⟨.var v, IRUseDefAnalysis.HandleUse st2 v, ?_, ?_, ?_⟩
    · rw [IRUseDefAnalysis.VisitExpr]
    · exact (IRUseDefAnalysis.HandleUse_known st2 v pres).1
    · exact Rel_step1 (Rel_HandleUse_known hr v pres) (Run1Post_HandleUse st1 v)
  | .intImm t n, st1, e', st1', h => by
    intro U E st2 hr _ _ _ _ _
    rw [IRUseDefAnalysis.VisitExpr] at h
    injection h with h1
    injection h1 with he hst
    subst hst
    subst he
    exact ⟨.intImm t n, st2, by rw [IRUseDefAnalysis.VisitExpr], rfl, hr⟩
  | .stringImm s, st1, e', st1', h => by
    intro U E st2 hr _ _ _ _ _
    rw [IRUseDefAnalysis.VisitExpr] at h
    injection h with h1
    injection h1 with he hst
    subst hst
    subst he
    exact ⟨.stringImm s, st2, by rw [IRUseDefAnalysis.VisitExpr], rfl, hr⟩
  | .add a b, st1, e', st1', h => by
    intro U E st2 hr HF HU2 SC HUE HS
    rw [IRUseDefAnalysis.VisitExpr] at h
    cases ha : IRUseDefAnalysis.VisitExpr st1 a with
    | error er => rw [ha] at h; exact Except.noConfusion h
    | ok pa =>
      obtain ⟨a', st1m⟩ := pa
      simp only [ha] at h
      cases hb : IRUseDefAnalysis.VisitExpr st1m b with
      | error er => rw [hb] at h; exact Except.noConfusion h
      | ok pb =>
        obtain ⟨b', st1f⟩ := pb
        rw [hb] at h
        injection h with h1
        injection h1 with he hst
        subst hst
        subst he
        rw [ScopedExpr] at HS
        obtain ⟨hsa, hsb⟩ := by simpa using HS
        have hmb := mono_visitExpr b st1m b' st1f hb
        obtain ⟨a2, st2m, hra, hua, hrela⟩ :=
          run2_expr a st1 a' st1m ha U E st2 hr
            (fun k hk => HF k (hmb.2.1 k hk))
            (fun w hw => HU2 w (hmb.2.2.1 w hw))
            SC HUE hsa
        have SCm : ∀ k, k ∈ E → (alGet st2m.use_count k).isSome = true :=
          fun k hk =>
            ((run1_expr a' st2 a2 st2m hra).1.2.2.2.2.2).1 k (SC k hk)
        obtain ⟨b2, st2f, hrb, hub, hrelb⟩ :=
          run2_expr b st1m b' st1f hb U E st2m hrela HF HU2 SCm HUE hsb
        refine ⟨.add a2 b2, st2f, ?_, hub.trans hua, hrelb⟩
        simp only [IRUseDefAnalysis.VisitExpr, hra, hrb]
  | .letE v value body, st1, e', st1', h => by
    intro U E st2 hr HF HU2 SC HUE HS
    rw [IRUseDefAnalysis.VisitExpr] at h
    cases hdef1 : IRUseDefAnalysis.HandleDef st1 v with
    | error er => rw [hdef1] at h; exact Except.noConfusion h
    | ok st1a =>
      simp only [hdef1] at h
      cases hbody1 : IRUseDefAnalysis.VisitExpr st1a body with
      | error er => rw [hbody1] at h; exact Except.noConfusion h
      | ok pb =>
        obtain ⟨body', st1b⟩ := pb
        simp only [hbody1] at h
        by_cases hc1 : alGet st1b.use_count v.id = some 0 ∧
            ¬(HasSideEffect value = true)
        · rw [if_pos hc1] at h
          injection h with h1
          injection h1 with he hst
          subst hst
          subst he
          exact run2_expr body st1a body' st1b hbody1 U E st2
            (Rel_step1 hr (Run1Post_HandleDef st1 v st1a hdef1))
            HF HU2 SC HUE HS
        · rw [if_neg hc1] at h
          cases hval1 : IRUseDefAnalysis.VisitExpr st1b value with
          | error er => rw [hval1] at h; exact Except.noConfusion h
          | ok pv =>
            obtain ⟨value', st1c⟩ := pv
            rw [hval1] at h
            injection h with h1
            injection h1 with he hst
            subst hst
            subst he
            rw [ScopedExpr] at HS
            obtain ⟨hsv, hsb⟩ := by simpa using HS
            have hmv := mono_visitExpr value st1b value' st1c hval1
            have hFv : ¬(v.id ∈ U) := by
              refine HF v.id (hmv.2.1 v.id ?_)
              refine (mono_visitExpr body st1a body' st1b hbody1).2.1 v.id ?_
              obtain ⟨_, _, he1⟩ :=
                IRUseDefAnalysis.HandleDef_ok st1 v st1a hdef1
              rw [he1]
              exact List.mem_cons_self _ _
            obtain ⟨st2a, hdef2⟩ := run2_HandleDef_ok hr hdef1 hFv
            obtain ⟨hd2, hu2, he2⟩ :=
              IRUseDefAnalysis.HandleDef_ok st2 v st2a hdef2
            have hua : st2a.undefined = st2.undefined := by rw [he2]
            have SCa : ∀ k, k ∈ v.id :: E →
                (alGet st2a.use_count k).isSome = true := by
              intro k hk
              rw [he2]
              rw [alGet_alSet_isSome]
              cases hk with
              | head => exact Or.inl rfl
              | tail _ hk => exact Or.inr (SC k hk)
            obtain ⟨body2, st2b, hrb, hub, hrelb⟩ :=
              run2_expr body st1a body' st1b hbody1 U (v.id :: E) st2a
                (Rel_HandleDef hr hdef1 hdef2)
                (fun k hk => HF k (hmv.2.1 k hk))
                (fun w hw => HU2 w (hmv.2.2.1 w hw))
                SCa (fun k hk => List.mem_cons_of_mem _ (HUE k hk)) hsb
            by_cases hc2 : alGet st2b.use_count v.id = some 0 ∧
                ¬(HasSideEffect value' = true)
            · refine ⟨body2, st2b, ?_, hub.trans hua, ?_⟩
              · simp only [IRUseDefAnalysis.VisitExpr, hdef2, hrb]
                rw [if_pos hc2]
              · exact Rel_step1 hrelb
                  (run1_expr value st1b value' st1c hval1).1
            · have SCb : ∀ k, k ∈ E →
                  (alGet st2b.use_count k).isSome = true :=
                fun k hk =>
                  ((run1_expr body' st2a body2 st2b hrb).1.2.2.2.2.2).1 k
                    (SCa k (List.mem_cons_of_mem _ hk))
              obtain ⟨value2, st2c, hrv, huv, hrelv⟩ :=
                run2_expr value st1b value' st1c hval1 U E st2b hrelb
                  HF HU2 SCb HUE hsv
              refine ⟨.letE v value2 body2, st2c, ?_,
                huv.trans (hub.trans hua), hrelv⟩
              simp only [IRUseDefAnalysis.VisitExpr, hdef2, hrb]
              rw [if_neg hc2]
              simp only [hrv]
  | .load t bv index, st1, e', st1', h => by
    intro U E st2 hr HF HU2 SC HUE HS
    rw [IRUseDefAnalysis.VisitExpr] at h
    cases hidx1 : IRUseDefAnalysis.VisitExpr
        (IRUseDefAnalysis.HandleUse st1 bv) index with
    | error er => rw [hidx1] at h; exact Except.noConfusion h
    | ok pi =>
      obtain ⟨index', st1f⟩ := pi
      rw [hidx1] at h
      injection h with h1
      injection h1 with he hst
      subst hst
      subst he
      rw [ScopedExpr] at HS
      obtain ⟨hbv, hsi⟩ := by simpa using HS
      have pres : (alGet st2.use_count bv.id).isSome = true := SC bv.id hbv
      have hiff := (IRUseDefAnalysis.HandleUse_known st2 bv pres).2.1
      obtain ⟨index2, st2f, hri, hui, hreli⟩ :=
        run2_expr index (IRUseDefAnalysis.HandleUse st1 bv) index' st1f
          hidx1 U E (IRUseDefAnalysis.HandleUse st2 bv)
          (Rel_step1 (Rel_HandleUse_known hr bv pres)
            (Run1Post_HandleUse st1 bv))
          HF HU2 (fun k hk => (hiff k).mpr (SC k hk)) HUE hsi
      refine ⟨.load t bv index2, st2f, ?_,
        hui.trans (IRUseDefAnalysis.HandleUse_known st2 bv pres).1, hreli⟩
      simp only [IRUseDefAnalysis.VisitExpr, hri]
  | .call t name args ct fn vi, st1, e', st1', h => by
    intro U E st2 hr HF HU2 SC HUE HS
    rw [IRUseDefAnalysis.VisitExpr] at h
    cases hargs1 : IRUseDefAnalysis.VisitExprList st1 args with
    | error er => rw [hargs1] at h; exact Except.noConfusion h
    | ok pa =>
      obtain ⟨args', st1f⟩ := pa
      rw [hargs1] at h
      injection h with h1
      injection h1 with he hst
      subst hst
      subst he
      rw [ScopedExpr] at HS
      obtain ⟨args2, st2f, hra, hua, hrela⟩ :=
        run2_exprL args st1 args' st1f hargs1 U E st2 hr HF HU2 SC HUE HS
      refine ⟨.call t name args2 ct fn vi, st2f, ?_, hua, hrela⟩
      simp only [IRUseDefAnalysis.VisitExpr, hra]

/-- The two-run simulation for argument lists. -/
theorem run2_exprL : ∀ (es : List Expr) (st1 : UDState) (es' : List Expr)
    (st1' : UDState),
    IRUseDefAnalysis.VisitExprList st1 es = .ok (es', st1') →
    ∀ (U E : List Nat) (st2 : UDState),
    Rel st1 st2 U →
    (∀ k, k ∈ st1'.def_count → ¬(k ∈ U)) →
    (∀ v, v ∈ st1'.undefined → v.id ∈ U) →
    (∀ k, k ∈ E → (alGet st2.use_count k).isSome = true) →
    (∀ k, k ∈ U → k ∈ E) →
    ScopedExprL E es' = true →
    ∃ es2 st2', IRUseDefAnalysis.VisitExprList st2 es' = .ok (es2, st2') ∧
      st2'.undefined = st2.undefined ∧ Rel st1' st2' U
  | [], st1, es', st1', h => by
    intro U E st2 hr _ _ _ _ _
    rw [IRUseDefAnalysis.VisitExprList] at h
    injection h with h1
    injection h1 with he hst
    subst hst
    subst he
    exact ⟨[], st2, by rw [IRUseDefAnalysis.VisitExprList], rfl, hr⟩
  | e :: es, st1, es', st1', h => by
    intro U E st2 hr HF HU2 SC HUE HS
    rw [IRUseDefAnalysis.VisitExprList] at h
    cases he1 : IRUseDefAnalysis.VisitExpr st1 e with
    | error er => rw [he1] at h; exact Except.noConfusion h
    | ok pe =>
      obtain ⟨e1, st1m⟩ := pe
      simp only [he1] at h
      cases hes1 : IRUseDefAnalysis.VisitExprList st1m es with
      | error er => rw [hes1] at h; exact Except.noConfusion h
      | ok pes =>
        obtain ⟨es1, st1f⟩ := pes
        rw [hes1] at h
        injection h with h1
        injection h1 with hel hst
        subst hst
        subst hel
        rw [ScopedExprL] at HS
        obtain ⟨hse, hses⟩ := by simpa using HS
        have hms := mono_visitExprL es st1m es1 st1f hes1
        obtain ⟨e2, st2m, hre, hue, hrele⟩ :=
          run2_expr e st1 e1 st1m he1 U E st2 hr
            (fun k hk => HF k (hms.2.1 k hk))
            (fun w hw => HU2 w (hms.2.2.1 w hw))
            SC HUE hse
        have SCm : ∀ k, k ∈ E → (alGet st2m.use_count k).isSome = true :=
          fun k hk =>
            ((run1_expr e1 st2 e2 st2m hre).1.2.2.2.2.2).1 k (SC k hk)
        obtain ⟨es2, st2f, hrs, hus, hrels⟩ :=
          run2_exprL es st1m es1 st1f hes1 U E st2m hrele HF HU2 SCm HUE hses
        refine ⟨e2 :: es2, st2f, ?_, hus.trans hue, hrels⟩
        simp only [IRUseDefAnalysis.VisitExprList, hre, hrs]
end

/-- The two-run simulation, statement side: re-analyzing the first run's
well-scoped output (with closed thread extents) from a table that seeds the
first run's free ids succeeds without discovering any free variable. -/
theorem run2_stmt : ∀ (s : Stmt) (st1 : UDState) (s' : Stmt)
    (st1' : UDState),
    IRUseDefAnalysis.VisitStmt st1 s = .ok (s', st1') →
    ∀ (U E : List Nat) (st2 : UDState),
    Rel st1 st2 U →
    (∀ k, k ∈ st1'.def_count → ¬(k ∈ U)) →
    (∀ v, v ∈ st1'.undefined → v.id ∈ U) →
    (∀ k, k ∈ E → (alGet st2.use_count k).isSome = true) →
    (∀ k, k ∈ U → k ∈ E) →
    ScopedStmt E s' = true →
    extentsClosed s' = true →
    ∃ s2 st2', IRUseDefAnalysis.VisitStmt st2 s' = .ok (s2, st2') ∧
      st2'.undefined = st2.undefined ∧ Rel st1' st2' U
  | .attrStmt iv key value body, st1, s', st1', h => by
    intro U E st2 hr HF HU2 SC HUE HS hext
    rw [IRUseDefAnalysis.VisitStmt] at h
    by_cases hk : key = .thread_extent
    · subst hk
      rw [if_pos rfl] at h
      by_cases ht : iv.thread_tag = ""
      · rw [if_pos ht] at h
        exact Except.noConfusion h
      · rw [if_neg ht] at h
        have destr : ∀ (st1x : UDState),
            (match (if st1x.visit_thread_extent = true
                    then IRUseDefAnalysis.VisitExpr st1x value
                    else Except.ok (value, st1x)) with
             | .error e => Except.error e
             | .ok (value', st2_) =>
               match IRUseDefAnalysis.VisitStmt st2_ body with
               | .error e => Except.error e
               | .ok (body', st3) =>
                 Except.ok (Stmt.attrStmt iv AttrKey.thread_extent
                   value' body', st3)) = .ok (s', st1') →
            ∃ v1 body1 st1y,
              s' = .attrStmt iv .thread_extent v1 body1 ∧
              IRUseDefAnalysis.VisitStmt st1y body = .ok (body1, st1') ∧
              (∃ V B, Run1Post st1x st1y V B) := by
          intro st1x hh
          cases hif1 : (if st1x.visit_thread_extent = true
              then IRUseDefAnalysis.VisitExpr st1x value
              else Except.ok (value, st1x)) with
          | error er => rw [hif1] at hh; exact Except.noConfusion hh
          | ok pv =>
            obtain ⟨v1, st1y⟩ := pv
            simp only [hif1] at hh
            cases hbody1 : IRUseDefAnalysis.VisitStmt st1y body with
            | error er => rw [hbody1] at hh; exact Except.noConfusion hh
            | ok pb =>
              obtain ⟨body1, st1z⟩ := pb
              rw [hbody1] at hh
              injection hh with h1
              injection h1 with he hst
              subst hst
              refine ⟨v1, body1, st1y, he.symm, hbody1, ?_⟩
              by_cases hvb : st1x.visit_thread_extent = true
              · rw [if_pos hvb] at hif1
                exact ⟨_, _, (run1_expr value st1x v1 st1y hif1).1⟩
              · rw [if_neg hvb] at hif1
                injection hif1 with h2
                injection h2 with hv2 hst2
                subst hv2
                subst hst2
                exact ⟨[], [], Run1Post_refl st1x []⟩
        have tail : ∀ (v1 : Expr) (body1 : Stmt) (st1y st2x : UDState),
            IRUseDefAnalysis.VisitStmt st1y body = .ok (body1, st1') →
            Rel st1y st2x U →
            st2x.undefined = st2.undefined →
            (∀ k, k ∈ iv.var.id :: E →
              (alGet st2x.use_count k).isSome = true) →
            ScopedStmt (iv.var.id :: E) body1 = true →
            extentsClosed body1 = true →
            closedExpr v1 = true →
            ∃ s2 st2',
              (match (if st2x.visit_thread_extent = true
                      then IRUseDefAnalysis.VisitExpr st2x v1
                      else Except.ok (v1, st2x)) with
               | .error e => Except.error e
               | .ok (value2, st2y) =>
                 match IRUseDefAnalysis.VisitStmt st2y body1 with
                 | .error e => Except.error e
                 | .ok (body2, st2z) =>
                   Except.ok (Stmt.attrStmt iv AttrKey.thread_extent
                     value2 body2, st2z)) = .ok (s2, st2') ∧
              st2'.undefined = st2.undefined ∧ Rel st1' st2' U := by
          intro v1 body1 st1y st2x hbody1 hrel hux SCx hsb hextb hcv
          have hif2 : (if st2x.visit_thread_extent = true
              then IRUseDefAnalysis.VisitExpr st2x v1
              else Except.ok (v1, st2x)) = Except.ok (v1, st2x) := by
            by_cases hvb : st2x.visit_thread_extent = true
            · rw [if_pos hvb]
              exact closed_visitExpr v1 st2x hcv
            · rw [if_neg hvb]
          obtain ⟨body2, st2z, hrb, hub, hrelb⟩ :=
            run2_stmt body st1y body1 st1' hbody1 U (iv.var.id :: E) st2x
              hrel HF HU2 SCx
              (fun k hk => List.mem_cons_of_mem _ (HUE k hk)) hsb hextb
          refine ⟨.attrStmt iv .thread_extent v1 body2, st2z, ?_,
            hub.trans hux, hrelb⟩
          simp only [hif2, hrb]
        by_cases hs1 : (alGet st1.use_count iv.var.id).isSome = true
        · rw [if_pos hs1] at h
          obtain ⟨v1, body1, st1y, hseq, hbody1, VV, BB, hp1⟩ := destr st1 h
          subst hseq
          rw [ScopedStmt] at HS
          rw [if_pos rfl] at HS
          obtain ⟨hsv, hsb⟩ := by simpa using HS
          rw [extentsClosed] at hext
          obtain ⟨hcv, hextb⟩ := by simpa using hext
          have hmono_rest : stMono st1 st1' :=
            stMono_trans hp1.2.2.2.2.2
              (mono_visitStmt body st1y body1 st1' hbody1)
          by_cases hs2 : (alGet st2.use_count iv.var.id).isSome = true
          · obtain ⟨s2, st2', hgo, hu, hrel'⟩ :=
              tail v1 body1 st1y st2 hbody1 (Rel_step1 hr hp1) rfl
                (fun k hk => by
                  cases hk with
                  | head => exact hs2
                  | tail _ hk => exact SC k hk)
                hsb hextb hcv
            refine ⟨s2, st2', ?_, hu, hrel'⟩
            rw [IRUseDefAnalysis.VisitStmt]
            rw [if_pos rfl, if_neg ht, if_pos hs2]
            exact hgo
          · have hivd : iv.var.id ∈ st1.def_count := by
              rcases hr.2.2.2.2 iv.var.id hs1 with h' | h'
              · exact h'
              · exfalso
                rcases List.mem_map.mp h' with ⟨w, hw, hwk⟩
                exact hs2
                  (hwk ▸ SC w.id (HUE w.id (HU2 w (hmono_rest.2.2.1 w hw))))
            have hup : (alGet st2.use_count iv.var.id).isSome = false := by
              cases hx : (alGet st2.use_count iv.var.id).isSome
              · rfl
              · exact absurd hx hs2
            have hdef2 := IRUseDefAnalysis.HandleDef_fresh st2 iv.var
              (fun hin => hs2 (hr.2.2.2.1 _ hin)) hup
            have hrelx : Rel st1 { st2 with
                use_count := alSet st2.use_count iv.var.id 0,
                def_count := iv.var.id :: st2.def_count } U := by
              obtain ⟨r1, r2, r3, r4, r5⟩ := hr
              refine ⟨?_, ?_, ?_, ?_, r5⟩
              · intro k hk2
                rw [alGet_alSet_isSome] at hk2
                rcases hk2 with hk2 | hk2
                · subst hk2
                  exact Or.inl hs1
                · exact r1 k hk2
              · intro k hk2
                cases hk2 with
                | head => exact hivd
                | tail _ hk2 => exact r2 k hk2
              · intro k n hk2
                by_cases hkv : k = iv.var.id
                · subst hkv
                  rw [alGet_alSet_self] at hk2
                  injection hk2 with hk2
                  omega
                · rw [alGet_alSet_ne _ _ _ _ (fun hh => hkv hh.symm)] at hk2
                  exact r3 k n hk2
              · intro k hk2
                cases hk2 with
                | head =>
                  rw [alGet_alSet_self]
                  rfl
                | tail _ hk2 =>
                  rw [alGet_alSet_isSome]
                  exact Or.inr (r4 k hk2)
            have SCx : ∀ k, k ∈ iv.var.id :: E →
                (alGet (alSet st2.use_count iv.var.id 0) k).isSome = true := by
              intro k hk
              rw [alGet_alSet_isSome]
              cases hk with
              | head => exact Or.inl rfl
              | tail _ hk => exact Or.inr (SC k hk)
            obtain ⟨s2, st2', hgo, hu, hrel'⟩ :=
              tail v1 body1 st1y { st2 with
                  use_count := alSet st2.use_count iv.var.id 0,
                  def_count := iv.var.id :: st2.def_count,
                  thread_axis := st2.thread_axis ++ [iv],
                  thread_extent := st2.thread_extent ++ [v1] }
                hbody1 (Rel_step1 hrelx hp1) rfl SCx hsb hextb hcv
            refine ⟨s2, st2', ?_, hu, hrel'⟩
            rw [IRUseDefAnalysis.VisitStmt]
            rw [if_pos rfl, if_neg ht, if_neg hs2]
            simp only [hdef2]
            exact hgo
        · rw [if_neg hs1] at h
          cases hdef1 : IRUseDefAnalysis.HandleDef st1 iv.var with
          | error er => rw [hdef1] at h; exact Except.noConfusion h
          | ok st1a =>
            simp only [hdef1] at h
            obtain ⟨v1, body1, st1y, hseq, hbody1, VV, BB, hp1⟩ :=
              destr { st1a with
                thread_axis := st1a.thread_axis ++ [iv],
                thread_extent := st1a.thread_extent ++ [value] } h
            subst hseq
            rw [ScopedStmt] at HS
            rw [if_pos rfl] at HS
            obtain ⟨hsv, hsb⟩ := by simpa using HS
            rw [extentsClosed] at hext
            obtain ⟨hcv, hextb⟩ := by simpa using hext
            by_cases hs2 : (alGet st2.use_count iv.var.id).isSome = true
            · have hrelx : Rel { st1a with
                  thread_axis := st1a.thread_axis ++ [iv],
                  thread_extent := st1a.thread_extent ++ [value] } st2 U :=
                Rel_step1 hr (Run1Post_HandleDef st1 iv.var st1a hdef1)
              obtain ⟨s2, st2', hgo, hu, hrel'⟩ :=
                tail v1 body1 st1y st2 hbody1 (Rel_step1 hrelx hp1) rfl
                  (fun k hk => by
                    cases hk with
                    | head => exact hs2
                    | tail _ hk => exact SC k hk)
                  hsb hextb hcv
              refine ⟨s2, st2', ?_, hu, hrel'⟩
              rw [IRUseDefAnalysis.VisitStmt]
              rw [if_pos rfl, if_neg ht, if_pos hs2]
              exact hgo
            · have hup : (alGet st2.use_count iv.var.id).isSome = false := by
                cases hx : (alGet st2.use_count iv.var.id).isSome
                · rfl
                · exact absurd hx hs2
              have hdef2 := IRUseDefAnalysis.HandleDef_fresh st2 iv.var
                (fun hin => hs2 (hr.2.2.2.1 _ hin)) hup
              have hrelx0 : Rel st1a { st2 with
                  use_count := alSet st2.use_count iv.var.id 0,
                  def_count := iv.var.id :: st2.def_count } U :=
                Rel_HandleDef hr hdef1 hdef2
              have hrelx : Rel { st1a with
                  thread_axis := st1a.thread_axis ++ [iv],
                  thread_extent := st1a.thread_extent ++ [value] }
                  { st2 with
                    use_count := alSet st2.use_count iv.var.id 0,
                    def_count := iv.var.id :: st2.def_count,
                    thread_axis := st2.thread_axis ++ [iv],
                    thread_extent := st2.thread_extent ++ [v1] } U := hrelx0
              have SCx : ∀ k, k ∈ iv.var.id :: E →
                  (alGet (alSet st2.use_count iv.var.id 0) k).isSome =
                    true := by
                intro k hk
                rw [alGet_alSet_isSome]
                cases hk with
                | head => exact Or.inl rfl
                | tail _ hk => exact Or.inr (SC k hk)
              obtain ⟨s2, st2', hgo, hu, hrel'⟩ :=
                tail v1 body1 st1y { st2 with
                    use_count := alSet st2.use_count iv.var.id 0,
                    def_count := iv.var.id :: st2.def_count,
                    thread_axis := st2.thread_axis ++ [iv],
                    thread_extent := st2.thread_extent ++ [v1] }
                  hbody1 (Rel_step1 hrelx hp1) rfl SCx hsb hextb hcv
              refine ⟨s2, st2', ?_, hu, hrel'⟩
              rw [IRUseDefAnalysis.VisitStmt]
              rw [if_pos rfl, if_neg ht, if_neg hs2]
              simp only [hdef2]
              exact hgo
    · rw [if_neg hk] at h
      cases hval1 : IRUseDefAnalysis.VisitExpr st1 value with
      | error er => rw [hval1] at h; exact Except.noConfusion h
      | ok pv =>
        obtain ⟨value', st1m⟩ := pv
        simp only [hval1] at h
        cases hbody1 : IRUseDefAnalysis.VisitStmt st1m body with
        | error er => rw [hbody1] at h; exact Except.noConfusion h
        | ok pb =>
          obtain ⟨body', st1f⟩ := pb
          rw [hbody1] at h
          injection h with h1
          injection h1 with he hst
          subst hst
          subst he
          rw [ScopedStmt] at HS
          rw [if_neg hk] at HS
          obtain ⟨hsv, hsb⟩ := by simpa using HS
          rw [extentsClosed] at hext
          obtain ⟨-, hextb⟩ : (if key = AttrKey.thread_extent
              then closedExpr value' else true) = true ∧
              extentsClosed body' = true := by simpa using hext
          have hmb := mono_visitStmt body st1m body' st1f hbody1
          obtain ⟨value2, st2m, hrv, huv, hrelv⟩ :=
            run2_expr value st1 value' st1m hval1 U E st2 hr
              (fun k hk2 => HF k (hmb.2.1 k hk2))
              (fun w hw => HU2 w (hmb.2.2.1 w hw)) SC HUE hsv
          have SCm : ∀ k, k ∈ E → (alGet st2m.use_count k).isSome = true :=
            fun k hk2 =>
              ((run1_expr value' st2 value2 st2m hrv).1.2.2.2.2.2).1 k
                (SC k hk2)
          obtain ⟨body2, st2f, hrb, hub, hrelb⟩ :=
            run2_stmt body st1m body' st1f hbody1 U E st2m hrelv HF HU2
              SCm HUE hsb hextb
          refine ⟨.attrStmt iv key value2 body2, st2f, ?_,
            hub.trans huv, hrelb⟩
          rw [IRUseDefAnalysis.VisitStmt]
          rw [if_neg hk]
          simp only [hrv, hrb]
  | .letStmt v value body, st1, s', st1', h => by
    intro U E st2 hr HF HU2 SC HUE HS hext
    rw [IRUseDefAnalysis.VisitStmt] at h
    cases hdef1 : IRUseDefAnalysis.HandleDef st1 v with
    | error er => rw [hdef1] at h; exact Except.noConfusion h
    | ok st1a =>
      simp only [hdef1] at h
      cases hbody1 : IRUseDefAnalysis.VisitStmt st1a body with
      | error er => rw [hbody1] at h; exact Except.noConfusion h
      | ok pb =>
        obtain ⟨body', st1b⟩ := pb
        simp only [hbody1] at h
        by_cases hc1 : alGet st1b.use_count v.id = some 0 ∧
            ¬(HasSideEffect value = true)
        · rw [if_pos hc1] at h
          injection h with h1
          injection h1 with he hst
          subst hst
          subst he
          exact run2_stmt body st1a body' st1b hbody1 U E st2
            (Rel_step1 hr (Run1Post_HandleDef st1 v st1a hdef1))
            HF HU2 SC HUE HS hext
        · rw [if_neg hc1] at h
          cases hval1 : IRUseDefAnalysis.VisitExpr st1b value with
          | error er => rw [hval1] at h; exact Except.noConfusion h
          | ok pv =>
            obtain ⟨value', st1c⟩ := pv
            rw [hval1] at h
            injection h with h1
            injection h1 with he hst
            subst hst
            subst he
            rw [ScopedStmt] at HS
            obtain ⟨hsv, hsb⟩ := by simpa using HS
            rw [extentsClosed] at hext
            have hmv := mono_visitExpr value st1b value' st1c hval1
            have hFv : ¬(v.id ∈ U) := by
              refine HF v.id (hmv.2.1 v.id ?_)
              refine (mono_visitStmt body st1a body' st1b hbody1).2.1 v.id ?_
              obtain ⟨_, _, he1⟩ :=
                IRUseDefAnalysis.HandleDef_ok st1 v st1a hdef1
              rw [he1]
              exact List.mem_cons_self _ _
            obtain ⟨st2a, hdef2⟩ := run2_HandleDef_ok hr hdef1 hFv
            obtain ⟨hd2, hu2, he2⟩ :=
              IRUseDefAnalysis.HandleDef_ok st2 v st2a hdef2
            have hua : st2a.undefined = st2.undefined := by rw [he2]
            have SCa : ∀ k, k ∈ v.id :: E →
                (alGet st2a.use_count k).isSome = true := by
              intro k hk
              rw [he2]
              rw [alGet_alSet_isSome]
              cases hk with
              | head => exact Or.inl rfl
              | tail _ hk => exact Or.inr (SC k hk)
            obtain ⟨body2, st2b, hrb, hub, hrelb⟩ :=
              run2_stmt body st1a body' st1b hbody1 U (v.id :: E) st2a
                (Rel_HandleDef hr hdef1 hdef2)
                (fun k hk => HF k (hmv.2.1 k hk))
                (fun w hw => HU2 w (hmv.2.2.1 w hw))
                SCa (fun k hk => List.mem_cons_of_mem _ (HUE k hk)) hsb hext
            by_cases hc2 : alGet st2b.use_count v.id = some 0 ∧
                ¬(HasSideEffect value' = true)
            · refine ⟨body2, st2b, ?_, hub.trans hua, ?_⟩
              · simp only [IRUseDefAnalysis.VisitStmt, hdef2, hrb]
                rw [if_pos hc2]
              · exact Rel_step1 hrelb
                  (run1_expr value st1b value' st1c hval1).1
            · have SCb : ∀ k, k ∈ E →
                  (alGet st2b.use_count k).isSome = true :=
                fun k hk =>
                  ((run1_stmt body' st2a body2 st2b hrb hext).1.2.2.2.2.2).1 k
                    (SCa k (List.mem_cons_of_mem _ hk))
              obtain ⟨value2, st2c, hrv, huv, hrelv⟩ :=
                run2_expr value st1b value' st1c hval1 U E st2b hrelb
                  HF HU2 SCb HUE hsv
              refine ⟨.letStmt v value2 body2, st2c, ?_,
                huv.trans (hub.trans hua), hrelv⟩
              simp only [IRUseDefAnalysis.VisitStmt, hdef2, hrb]
              rw [if_neg hc2]
              simp only [hrv]
  | .forStmt lv lo extent body, st1, s', st1', h => by
    intro U E st2 hr HF HU2 SC HUE HS hext
    rw [IRUseDefAnalysis.VisitStmt] at h
    cases hdef1 : IRUseDefAnalysis.HandleDef st1 lv with
    | error er => rw [hdef1] at h; exact Except.noConfusion h
    | ok st1a =>
      simp only [hdef1] at h
      cases hlo1 : IRUseDefAnalysis.VisitExpr st1a lo with
      | error er => rw [hlo1] at h; exact Except.noConfusion h
      | ok plo =>
        obtain ⟨lo', st1b⟩ := plo
        simp only [hlo1] at h
        cases hex1 : IRUseDefAnalysis.VisitExpr st1b extent with
        | error er => rw [hex1] at h; exact Except.noConfusion h
        | ok pex =>
          obtain ⟨extent', st1c⟩ := pex
          simp only [hex1] at h
          cases hbody1 : IRUseDefAnalysis.VisitStmt st1c body with
          | error er => rw [hbody1] at h; exact Except.noConfusion h
          | ok pb =>
            obtain ⟨body', st1d⟩ := pb
            rw [hbody1] at h
            injection h with h1
            injection h1 with he hst
            subst hst
            subst he
            rw [ScopedStmt] at HS
            obtain ⟨⟨hslo, hsex⟩, hsb⟩ := by simpa using HS
            rw [extentsClosed] at hext
            have hmlo := mono_visitExpr lo st1a lo' st1b hlo1
            have hmex := mono_visitExpr extent st1b extent' st1c hex1
            have hmb := mono_visitStmt body st1c body' st1d hbody1
            have hFv : ¬(lv.id ∈ U) := by
              refine HF lv.id (hmb.2.1 lv.id (hmex.2.1 lv.id
                (hmlo.2.1 lv.id ?_)))
              obtain ⟨_, _, he1⟩ :=
                IRUseDefAnalysis.HandleDef_ok st1 lv st1a hdef1
              rw [he1]
              exact List.mem_cons_self _ _
            obtain ⟨st2a, hdef2⟩ := run2_HandleDef_ok hr hdef1 hFv
            obtain ⟨hd2, hu2, he2⟩ :=
              IRUseDefAnalysis.HandleDef_ok st2 lv st2a hdef2
            have hua : st2a.undefined = st2.undefined := by rw [he2]
            have SCa : ∀ k, k ∈ lv.id :: E →
                (alGet st2a.use_count k).isSome = true := by
              intro k hk
              rw [he2]
              rw [alGet_alSet_isSome]
              cases hk with
              | head => exact Or.inl rfl
              | tail _ hk => exact Or.inr (SC k hk)
            obtain ⟨lo2, st2b, hrlo, hulo, hrello⟩ :=
              run2_expr lo st1a lo' st1b hlo1 U E st2a
                (Rel_HandleDef hr hdef1 hdef2)
                (fun k hk => HF k (hmb.2.1 k (hmex.2.1 k hk)))
                (fun w hw => HU2 w (hmb.2.2.1 w (hmex.2.2.1 w hw)))
                (fun k hk => SCa k (List.mem_cons_of_mem _ hk)) HUE hslo
            have SCb : ∀ k, k ∈ lv.id :: E →
                (alGet st2b.use_count k).isSome = true :=
              fun k hk =>
                ((run1_expr lo' st2a lo2 st2b hrlo).1.2.2.2.2.2).1 k
                  (SCa k hk)
            obtain ⟨extent2, st2c, hrex, huex, hrelex⟩ :=
              run2_expr extent st1b extent' st1c hex1 U E st2b hrello
                (fun k hk => HF k (hmb.2.1 k hk))
                (fun w hw => HU2 w (hmb.2.2.1 w hw))
                (fun k hk => SCb k (List.mem_cons_of_mem _ hk)) HUE hsex
            have SCc : ∀ k, k ∈ lv.id :: E →
                (alGet st2c.use_count k).isSome = true :=
              fun k hk =>
                ((run1_expr extent' st2b extent2 st2c hrex).1.2.2.2.2.2).1 k
                  (SCb k hk)
            obtain ⟨body2, st2d, hrb, hub, hrelb⟩ :=
              run2_stmt body st1c body' st1d hbody1 U (lv.id :: E) st2c
                hrelex HF HU2 SCc
                (fun k hk => List.mem_cons_of_mem _ (HUE k hk)) hsb hext
            refine ⟨.forStmt lv lo2 extent2 body2, st2d, ?_,
              hub.trans (huex.trans (hulo.trans hua)), hrelb⟩
            simp only [IRUseDefAnalysis.VisitStmt, hdef2, hrlo, hrex, hrb]
  | .allocate bv t extents body, st1, s', st1', h => by
    intro U E st2 hr HF HU2 SC HUE HS hext
    rw [IRUseDefAnalysis.VisitStmt] at h
    cases hdef1 : IRUseDefAnalysis.HandleDef st1 bv with
    | error er => rw [hdef1] at h; exact Except.noConfusion h
    | ok st1a =>
      simp only [hdef1] at h
      cases hex1 : IRUseDefAnalysis.VisitExprList st1a extents with
      | error er => rw [hex1] at h; exact Except.noConfusion h
      | ok pex =>
        obtain ⟨extents', st1b⟩ := pex
        simp only [hex1] at h
        cases hbody1 : IRUseDefAnalysis.VisitStmt st1b body with
        | error er => rw [hbody1] at h; exact Except.noConfusion h
        | ok pb =>
          obtain ⟨body', st1c⟩ := pb
          rw [hbody1] at h
          injection h with h1
          injection h1 with he hst
          subst hst
          subst he
          rw [ScopedStmt] at HS
          obtain ⟨hsex, hsb⟩ := by simpa using HS
          rw [extentsClosed] at hext
          have hmex := mono_visitExprL extents st1a extents' st1b hex1
          have hmb := mono_visitStmt body st1b body' st1c hbody1
          have hFv : ¬(bv.id ∈ U) := by
            refine HF bv.id (hmb.2.1 bv.id (hmex.2.1 bv.id ?_))
            obtain ⟨_, _, he1⟩ :=
              IRUseDefAnalysis.HandleDef_ok st1 bv st1a hdef1
            rw [he1]
            exact List.mem_cons_self _ _
          obtain ⟨st2a, hdef2⟩ := run2_HandleDef_ok hr hdef1 hFv
          obtain ⟨hd2, hu2, he2⟩ :=
            IRUseDefAnalysis.HandleDef_ok st2 bv st2a hdef2
          have hua : st2a.undefined = st2.undefined := by rw [he2]
          have SCa : ∀ k, k ∈ bv.id :: E →
              (alGet st2a.use_count k).isSome = true := by
            intro k hk
            rw [he2]
            rw [alGet_alSet_isSome]
            cases hk with
            | head => exact Or.inl rfl
            | tail _ hk => exact Or.inr (SC k hk)
          obtain ⟨extents2, st2b, hrex, huex, hrelex⟩ :=
            run2_exprL extents st1a extents' st1b hex1 U E st2a
              (Rel_HandleDef hr hdef1 hdef2)
              (fun k hk => HF k (hmb.2.1 k hk))
              (fun w hw => HU2 w (hmb.2.2.1 w hw))
              (fun k hk => SCa k (List.mem_cons_of_mem _ hk)) HUE hsex
          have SCb : ∀ k, k ∈ bv.id :: E →
              (alGet st2b.use_count k).isSome = true :=
            fun k hk =>
              ((run1_exprL extents' st2a extents2 st2b hrex).1.2.2.2.2.2).1 k
                (SCa k hk)
          obtain ⟨body2, st2c, hrb, hub, hrelb⟩ :=
            run2_stmt body st1b body' st1c hbody1 U (bv.id :: E) st2b
              hrelex HF HU2 SCb
              (fun k hk => List.mem_cons_of_mem _ (HUE k hk)) hsb hext
          refine ⟨.allocate bv t extents2 body2, st2c, ?_,
            hub.trans (huex.trans hua), hrelb⟩
          simp only [IRUseDefAnalysis.VisitStmt, hdef2, hrex, hrb]
  | .store bv value index, st1, s', st1', h => by
    intro U E st2 hr HF HU2 SC HUE HS hext
    rw [IRUseDefAnalysis.VisitStmt] at h
    cases hval1 : IRUseDefAnalysis.VisitExpr
        (IRUseDefAnalysis.HandleUse st1 bv) value with
    | error er => rw [hval1] at h; exact Except.noConfusion h
    | ok pv =>
      obtain ⟨value', st1m⟩ := pv
      simp only [hval1] at h
      cases hidx1 : IRUseDefAnalysis.VisitExpr st1m index with
      | error er => rw [hidx1] at h; exact Except.noConfusion h
      | ok pi =>
        obtain ⟨index', st1f⟩ := pi
        rw [hidx1] at h
        injection h with h1
        injection h1 with he hst
        subst hst
        subst he
        rw [ScopedStmt] at HS
        obtain ⟨⟨hbv, hsv⟩, hsi⟩ := by simpa using HS
        have pres : (alGet st2.use_count bv.id).isSome = true := SC bv.id hbv
        have hiff := (IRUseDefAnalysis.HandleUse_known st2 bv pres).2.1
        have hmi := mono_visitExpr index st1m index' st1f hidx1
        obtain ⟨value2, st2m, hrv, huv, hrelv⟩ :=
          run2_expr value (IRUseDefAnalysis.HandleUse st1 bv) value' st1m
            hval1 U E (IRUseDefAnalysis.HandleUse st2 bv)
            (Rel_step1 (Rel_HandleUse_known hr bv pres)
              (Run1Post_HandleUse st1 bv))
            (fun k hk => HF k (hmi.2.1 k hk))
            (fun w hw => HU2 w (hmi.2.2.1 w hw))
            (fun k hk => (hiff k).mpr (SC k hk)) HUE hsv
        have SCm : ∀ k, k ∈ E → (alGet st2m.use_count k).isSome = true :=
          fun k hk =>
            ((run1_expr value' (IRUseDefAnalysis.HandleUse st2 bv) value2
                st2m hrv).1.2.2.2.2.2).1 k ((hiff k).mpr (SC k hk))
        obtain ⟨index2, st2f, hri, hui, hreli⟩ :=
          run2_expr index st1m index' st1f hidx1 U E st2m hrelv
            HF HU2 SCm HUE hsi
        refine ⟨.store bv value2 index2, st2f, ?_,
          hui.trans (huv.trans
            (IRUseDefAnalysis.HandleUse_known st2 bv pres).1), hreli⟩
        simp only [IRUseDefAnalysis.VisitStmt, hrv, hri]
  | .evaluate e, st1, s', st1', h => by
    intro U E st2 hr HF HU2 SC HUE HS hext
    rw [IRUseDefAnalysis.VisitStmt] at h
    cases he1 : IRUseDefAnalysis.VisitExpr st1 e with
    | error er => rw [he1] at h; exact Except.noConfusion h
    | ok pe =>
      obtain ⟨e1, st1f⟩ := pe
      rw [he1] at h
      injection h with h1
      injection h1 with he hst
      subst hst
      subst he
      rw [ScopedStmt] at HS
      obtain ⟨e2, st2f, hre, hue, hrele⟩ :=
        run2_expr e st1 e1 st1f he1 U E st2 hr HF HU2 SC HUE HS
      refine ⟨.evaluate e2, st2f, ?_, hue, hrele⟩
      simp only [IRUseDefAnalysis.VisitStmt, hre]
  | .block first rest, st1, s', st1', h => by
    intro U E st2 hr HF HU2 SC HUE HS hext
    rw [IRUseDefAnalysis.VisitStmt] at h
    cases ha1 : IRUseDefAnalysis.VisitStmt st1 first with
    | error er => rw [ha1] at h; exact Except.noConfusion h
    | ok pa =>
      obtain ⟨first', st1m⟩ := pa
      simp only [ha1] at h
      cases hb1 : IRUseDefAnalysis.VisitStmt st1m rest with
      | error er => rw [hb1] at h; exact Except.noConfusion h
      | ok pb =>
        obtain ⟨rest', st1f⟩ := pb
        rw [hb1] at h
        injection h with h1
        injection h1 with he hst
        subst hst
        subst he
        rw [ScopedStmt] at HS
        obtain ⟨hsa, hsb⟩ := by simpa using HS
        rw [extentsClosed] at hext
        obtain ⟨hexta, hextb⟩ := by simpa using hext
        have hmb := mono_visitStmt rest st1m rest' st1f hb1
        obtain ⟨first2, st2m, hra, hua, hrela⟩ :=
          run2_stmt first st1 first' st1m ha1 U E st2 hr
            (fun k hk => HF k (hmb.2.1 k hk))
            (fun w hw => HU2 w (hmb.2.2.1 w hw))
            SC HUE hsa hexta
        have SCm : ∀ k, k ∈ E → (alGet st2m.use_count k).isSome = true :=
          fun k hk =>
            ((run1_stmt first' st2 first2 st2m hra hexta).1.2.2.2.2.2).1 k
              (SC k hk)
        obtain ⟨rest2, st2f, hrb, hub, hrelb⟩ :=
          run2_stmt rest st1m rest' st1f hb1 U E st2m hrela HF HU2
            SCm HUE hsb hextb
        refine ⟨.block first2 rest2, st2f, ?_, hub.trans hua, hrelb⟩
        simp only [IRUseDefAnalysis.VisitStmt, hra, hrb]

/-! ## C3: round-trip free-variable discovery on extracted kernels -/

/-- A device region whose thread-extent annotation carries a free variable
(id 7) as its extent expression. -/
def c3cr : Stmt :=
  .attrStmt ⟨⟨5, .int32⟩, "threadIdx.x"⟩ .thread_extent (.var ⟨7, .int32⟩)
    (.evaluate (.intImm .int32 0))

/-- The kernel `SplitDeviceFunc` extracts from `c3cr`. -/
def c3ckernel : LoweredFunc :=
  { name := "main_kernel0",
    args := [],
    thread_axis := [⟨⟨5, .int32⟩, "threadIdx.x"⟩],
    func_type := .DeviceFunc,
    handle_data_type := [],
    body := c3cr }

/-- The packed-call stub replacing the region `c3cr`. -/
def c3cstub : Stmt :=
  .evaluate (.call .int32 "tvm_call_packed"
    [.stringImm "main_kernel0", .var ⟨7, .int32⟩] .Intrinsic none 0)

/-- C3 counterexample: the splitter's analyzer runs with the extent
recursion toggled off, so the free variable 7 inside the thread-extent
expression of `c3cr` is not discovered and does not become a kernel
parameter; the seeded re-run (`UndefinedVars`, extent recursion on) then
reports 7 as free, so the round trip on this extracted kernel does not
return the empty list. -/
theorem C3_counterexample :
    HostDeviceSplitter.SplitDeviceFunc
        { name := "main", device_funcs := [], handle_data_type := [] }
        c3cr =
      .ok (c3cstub,
        { name := "main", device_funcs := [c3ckernel],
          handle_data_type := [] }) ∧
    c3ckernel.body = c3cr ∧ c3ckernel.args = [] ∧
    UndefinedVars c3ckernel.body c3ckernel.args =
      .ok [⟨7, .int32⟩] ∧
    ¬(UndefinedVars c3ckernel.body c3ckernel.args = .ok []) := by
  refine ⟨rfl, rfl, rfl, rfl, ?_⟩
  intro hcontra
  have h2 := (show UndefinedVars c3ckernel.body c3ckernel.args =
    Except.ok [(⟨7, DType.int32⟩ : Var)] from rfl).symm.trans hcontra
  injection h2 with h3
  exact List.noConfusion h3

/-- C3 amended: for a device region that is well-scoped under an
environment disjoint from its binders and whose thread-extent expressions
are closed, every kernel `SplitDeviceFunc` newly appends has the round-trip
property: `UndefinedVars` on the kernel's body, seeded with the kernel's
own parameter list, succeeds and returns the empty free-variable list. -/
theorem C3_amended_roundtrip (sp : SpState) (r : Stmt) (env : List Nat)
    (stub : Stmt) (sp' : SpState) (f : LoweredFunc)
    (hsc : ScopedStmt env r = true)
    (hdisj : ∀ k, k ∈ env → ¬(k ∈ stmtBinderIds r))
    (hext : extentsClosed r = true)
    (hrun : HostDeviceSplitter.SplitDeviceFunc sp r = .ok (stub, sp'))
    (hf : f ∈ sp'.device_funcs) (hnew : ¬(f ∈ sp.device_funcs)) :
    UndefinedVars f.body f.args = .ok [] := by
  rw [HostDeviceSplitter.SplitDeviceFunc] at hrun
  cases hm : IRUseDefAnalysis.VisitStmt UDState.initialNoTE r with
  | error er => rw [hm] at hrun; exact Except.noConfusion hrun
  | ok p =>
    obtain ⟨r', m⟩ := p
    simp only [hm] at hrun
    injection hrun with h1
    injection h1 with hstub hsp
    subst hsp
    have hfd := List.mem_singleton.mp
      ((List.mem_append.mp hf).resolve_left hnew)
    subst hfd
    obtain ⟨hpost, hscope, hext'⟩ :=
      run1_stmt r UDState.initialNoTE r' m hm hext
    have hinv : UDInv m := hpost.1
      ⟨fun k hk => absurd hk (List.not_mem_nil k),
       fun v hv => absurd hv (List.not_mem_nil v),
       fun k hk => absurd hk (List.not_mem_nil k)⟩
    have hAsub : ∀ v : Var,
        v ∈ m.undefined.filter (fun v => v.dtype = DType.handle) ++
          m.undefined.filter (fun v => ¬(v.dtype = DType.handle)) →
        v ∈ m.undefined := by
      intro v hv
      rcases List.mem_append.mp hv with hv | hv
      · exact (List.mem_filter.mp hv).1
      · exact (List.mem_filter.mp hv).1
    have hsubA : ∀ v : Var, v ∈ m.undefined →
        v ∈ m.undefined.filter (fun v => v.dtype = DType.handle) ++
          m.undefined.filter (fun v => ¬(v.dtype = DType.handle)) := by
      intro v hv
      by_cases hd : v.dtype = DType.handle
      · exact List.mem_append_left _
          (List.mem_filter.mpr ⟨hv, by simpa using hd⟩)
      · exact List.mem_append_right _
          (List.mem_filter.mpr ⟨hv, by simpa using hd⟩)
    have hR1 : ∀ k,
        (alGet ((m.undefined.filter (fun v => v.dtype = DType.handle) ++
          m.undefined.filter (fun v => ¬(v.dtype = DType.handle))).foldl
            (fun ac a => alSet ac a.id 0)
              ([] : List (Nat × Int))) k).isSome = true →
        (alGet UDState.initialNoTE.use_count k).isSome = true ∨
          k ∈ m.undefined.map (fun v => v.id) := by
      intro k hk
      right
      rw [alGet_seed] at hk
      by_cases hin : k ∈ (m.undefined.filter
          (fun v => v.dtype = DType.handle) ++
          m.undefined.filter (fun v => ¬(v.dtype = DType.handle))).map
            (fun v => v.id)
      · rcases List.mem_map.mp hin with ⟨v, hv, hvk⟩
        exact List.mem_map.mpr ⟨v, hAsub v hv, hvk⟩
      · rw [if_neg hin] at hk
        exact absurd hk Bool.noConfusion
    have hNN : ∀ k n,
        alGet ((m.undefined.filter (fun v => v.dtype = DType.handle) ++
          m.undefined.filter (fun v => ¬(v.dtype = DType.handle))).foldl
            (fun ac a => alSet ac a.id 0)
              ([] : List (Nat × Int))) k = some n → 0 ≤ n := by
      intro k n hk
      rw [alGet_seed] at hk
      by_cases hin : k ∈ (m.undefined.filter
          (fun v => v.dtype = DType.handle) ++
          m.undefined.filter (fun v => ¬(v.dtype = DType.handle))).map
            (fun v => v.id)
      · rw [if_pos hin] at hk
        injection hk with hk
        omega
      · rw [if_neg hin] at hk
        exact absurd hk Option.noConfusion
    have hrel : Rel UDState.initialNoTE
        { UDState.initial with
          use_count :=
            (m.undefined.filter (fun v => v.dtype = DType.handle) ++
             m.undefined.filter (fun v => ¬(v.dtype = DType.handle))).foldl
              (fun ac a => alSet ac a.id 0) [] }
        (m.undefined.map (fun v => v.id)) := by
      refine ⟨hR1, ?_, hNN, ?_, ?_⟩
      · intro k hk
        exact absurd hk (List.not_mem_nil k)
      · intro k hk
        exact absurd hk (List.not_mem_nil k)
      · intro k hk
        exact absurd hk Bool.noConfusion
    have hHF : ∀ k, k ∈ m.def_count →
        ¬(k ∈ m.undefined.map (fun v => v.id)) := by
      intro k hk hmem
      rcases List.mem_map.mp hmem with ⟨v, hv, hvk⟩
      exact hinv.2.2 k hk v hv hvk
    have hHU2 : ∀ v, v ∈ m.undefined →
        v.id ∈ m.undefined.map (fun v => v.id) :=
      fun v hv => List.mem_map.mpr ⟨v, hv, rfl⟩
    have hSC : ∀ k, k ∈ m.undefined.map (fun v => v.id) →
        (alGet ((m.undefined.filter (fun v => v.dtype = DType.handle) ++
          m.undefined.filter (fun v => ¬(v.dtype = DType.handle))).foldl
            (fun ac a => alSet ac a.id 0)
              ([] : List (Nat × Int))) k).isSome = true := by
      intro k hk
      rcases List.mem_map.mp hk with ⟨v, hv, hvk⟩
      rw [alGet_seed]
      rw [if_pos (List.mem_map.mpr ⟨v, hsubA v hv, hvk⟩)]
      rfl
    have hHS : ScopedStmt (m.undefined.map (fun v => v.id)) r' = true := by
      refine scoped_transfer_stmt r' env _ (hscope env hsc) ?_
      intro k hk
      by_cases huse : k ∈ stmtVarIds r'
      · left
        have hks : (alGet m.use_count k).isSome = true :=
          hpost.2.2.2.2.1 k huse
        rcases hpost.2.2.2.1 k hks with h' | h' | h'
        · exact absurd h' Bool.noConfusion
        · rcases hpost.2.2.1 k h' with h'' | h''
          · exact absurd h'' (List.not_mem_nil k)
          · exact absurd h'' (hdisj k hk)
        · exact h'
      · exact Or.inr huse
    obtain ⟨s2, st2', hr2, hund, -⟩ :=
      run2_stmt r UDState.initialNoTE r' m hm
        (m.undefined.map (fun v => v.id))
        (m.undefined.map (fun v => v.id))
        { UDState.initial with
          use_count :=
            (m.undefined.filter (fun v => v.dtype = DType.handle) ++
             m.undefined.filter (fun v => ¬(v.dtype = DType.handle))).foldl
              (fun ac a => alSet ac a.id 0) [] }
        hrel hHF hHU2 hSC (fun k hk => hk) hHS hext'
    show UndefinedVars r'
      (m.undefined.filter (fun v => v.dtype = DType.handle) ++
       m.undefined.filter (fun v => ¬(v.dtype = DType.handle))) = .ok []
    rw [UndefinedVars]
    simp only [hr2]
    rw [hund]
    rfl

/-- The starting splitter state of the C3 witness. -/
def c3wsp0 : SpState :=
  { name := "main", device_funcs := [], handle_data_type := [] }

/-- A well-scoped device region: closed thread extent, a store through the
free handle 3 indexed by the thread variable 5. -/
def c3wr : Stmt :=
  .attrStmt ⟨⟨5, .int32⟩, "threadIdx.x"⟩ .thread_extent (.intImm .int32 4)
    (.store ⟨3, .handle⟩ (.var ⟨5, .int32⟩) (.var ⟨5, .int32⟩))

/-- The kernel `SplitDeviceFunc` extracts from `c3wr`. -/
def c3wkernel : LoweredFunc :=
  { name := "main_kernel0",
    args := [⟨3, .handle⟩],
    thread_axis := [⟨⟨5, .int32⟩, "threadIdx.x"⟩],
    func_type := .DeviceFunc,
    handle_data_type := [],
    body := c3wr }

/-- The packed-call stub replacing the region `c3wr`. -/
def c3wstub : Stmt :=
  .evaluate (.call .int32 "tvm_call_packed"
    [.stringImm "main_kernel0", .var ⟨3, .handle⟩, .intImm .int32 4]
    .Intrinsic none 0)

theorem C3_witness :
    UndefinedVars c3wkernel.body c3wkernel.args = .ok [] :=
  C3_amended_roundtrip c3wsp0 c3wr [3] c3wstub
    { name := "main", device_funcs := [c3wkernel], handle_data_type := [] }
    c3wkernel (by decide) (by decide) (by decide) rfl
    (List.mem_singleton.mpr rfl) (List.not_mem_nil c3wkernel)

end TVMIR
